import Mathlib

/-!
Verification development for the plexbeam GPU transcoding worker.

The definitions below are a shallow embedding of the worker's Python source
(`worker/config.py`, `worker/transcoder.py`, `worker/worker.py`):
pure helpers become Lean functions, the job-queue state becomes an explicit
state record with a step function, and fallible code returns `Option`.
Strings are modelled as Lean `String`s (byte-wise, as in the source), wall
clock and monotonic times as natural numbers, and float-valued progress
fields as rationals.
-/

namespace PlexBeam

/-! ## String helpers mirroring the Python string operations used. -/

/-- Python `s.startswith(p)` (byte-wise prefix test). -/
def strStartsWith (s p : String) : Bool :=
  p.data.isPrefixOf s.data

/-- Python `s[n:]`. -/
def strDrop (s : String) (n : Nat) : String :=
  ⟨s.data.drop n⟩

/-- Python `needle in hay` on lists of characters. -/
def containsSubList (needle : List Char) : List Char → Bool
  | [] => needle.isEmpty
  | c :: rest => needle.isPrefixOf (c :: rest) || containsSubList needle rest

/-- Python `needle in hay` for strings (substring containment). -/
def containsSub (hay needle : String) : Bool :=
  containsSubList needle.data hay.data

/-- Python `s.split(sep, 1)`: split once at the first occurrence of `sep`. -/
def splitOnceAux (sep : Char) : List Char → Option (List Char × List Char)
  | [] => none
  | c :: rest =>
    if c = sep then some ([], rest)
    else match splitOnceAux sep rest with
      | some (l, r) => some (c :: l, r)
      | none => none

/-- Python `s.split(sep, 1)` returning the two halves, or `none` when `sep`
is absent. -/
def splitOnce (s : String) (sep : Char) : Option (String × String) :=
  match splitOnceAux sep s.data with
  | some (l, r) => some (⟨l⟩, ⟨r⟩)
  | none => none

/-- Python `s.split(sep)` (full split on a single character). -/
def splitAll (sep : Char) : List Char → List (List Char)
  | [] => [[]]
  | c :: rest =>
    if c = sep then [] :: splitAll sep rest
    else match splitAll sep rest with
      | [] => [[c]]
      | l :: ls => (c :: l) :: ls

/-- Python `s.split(sep)` for strings. -/
def strSplit (s : String) (sep : Char) : List String :=
  (splitAll sep s.data).map (fun l => ⟨l⟩)

/-- Python `str.strip()` (whitespace trim on both ends). -/
def pyStrip (s : String) : String :=
  ⟨(s.data.dropWhile Char.isWhitespace).reverse.dropWhile Char.isWhitespace |>.reverse⟩

/-- Truthiness of an optional string in Python: `None` and `""` are falsy. -/
def truthy : Option String → Bool
  | none => false
  | some s => s ≠ ""

/-- Strip the `file:` protocol prefix exactly as the worker does:
`file:"..."` loses both the prefix and the quotes, a bare `file:` prefix is
dropped, anything else is returned unchanged. -/
def stripFilePrefix (arg : String) : String :=
  if strStartsWith arg "file:\x22" ∧ arg.data.getLast? = some '\x22' then
    ⟨(arg.data.drop 6).dropLast⟩
  else if strStartsWith arg "file:" then
    strDrop arg 5
  else arg

/-! ## Configuration (`config.py`, `WorkerSettings`). Only the fields the
worker's job-control and argument-rewriting paths read are carried. -/

structure Settings where
  hw_accel : String := "qsv"
  qsv_device : Option String := none
  qsv_low_power : Bool := true
  nvenc_preset : String := "p1"
  nvenc_tune : String := "ull"
  temp_dir : String := "./transcode_temp"
  media_path_from : Option String := none
  media_path_to : Option String := none
  path_mappings : Option String := none
  max_concurrent_jobs : Nat := 2
  beam_max_bitrate : Option String := none
  api_key : Option String := none
deriving DecidableEq

/-- `WorkerSettings.get_video_encoder`. -/
def Settings.get_video_encoder (st : Settings) : String :=
  if st.hw_accel = "qsv" then "h264_qsv"
  else if st.hw_accel = "nvenc" then "h264_nvenc"
  else if st.hw_accel = "vaapi" then "h264_vaapi"
  else "libx264"

/-- Parse one `from=to` pair of the `PLEX_WORKER_PATH_MAPPINGS` string:
`pair.split("=", 1)` with both halves stripped; pairs without `=` are
dropped. -/
def parseMappingPair (pair : String) : Option (String × String) :=
  let pair := pyStrip pair
  match splitOnce pair '=' with
  | some (frm, toP) => some (pyStrip frm, pyStrip toP)
  | none => none

/-- Stable insertion (descending by length of the `from` component) used to
model Python's stable `sort(key=len, reverse=True)`. -/
def insertByLenDesc (x : String × String) : List (String × String) → List (String × String)
  | [] => [x]
  | y :: ys => if x.1.length > y.1.length then x :: y :: ys else y :: insertByLenDesc x ys

/-- Stable sort, descending by length of the `from` component. -/
def sortByLenDesc : List (String × String) → List (String × String)
  | [] => []
  | x :: xs => insertByLenDesc x (sortByLenDesc xs)

/-- `WorkerSettings.get_path_mappings`: the `media_path_from/to` pair (when
both are truthy) followed by the parsed `path_mappings` pairs, sorted
longest-`from`-first. -/
def Settings.get_path_mappings (st : Settings) : List (String × String) :=
  let base := if truthy st.media_path_from ∧ truthy st.media_path_to then
      [((st.media_path_from).getD "", (st.media_path_to).getD "")]
    else []
  let extra := match st.path_mappings with
    | some s => (strSplit s ';').filterMap parseMappingPair
    | none => []
  sortByLenDesc (base ++ extra)

/-- The path-rewrite loop the transcoder applies to each argument:
`for frm, to in path_mappings: if arg.startswith(frm): arg = to + arg[len(frm):]; break`. -/
def applyPathMappings (ms : List (String × String)) (arg : String) : String :=
  match ms with
  | [] => arg
  | (frm, toP) :: rest =>
    if strStartsWith arg frm then toP ++ strDrop arg frm.length
    else applyPathMappings rest arg

/-! Sortedness and membership facts about the mapping list. -/

theorem insertByLenDesc_perm (x : String × String) (l : List (String × String)) :
    List.Perm (insertByLenDesc x l) (x :: l) := by
  induction l with
  | nil => simp [insertByLenDesc]
  | cons y ys ih =>
    by_cases h : x.1.length > y.1.length
    · simp [insertByLenDesc, h]
    · simp only [insertByLenDesc, if_neg h]
      exact ((ih.cons y).trans (List.Perm.swap x y ys))

theorem sortByLenDesc_perm (l : List (String × String)) :
    List.Perm (sortByLenDesc l) l := by
  induction l with
  | nil => simp [sortByLenDesc]
  | cons x xs ih =>
    exact (insertByLenDesc_perm x (sortByLenDesc xs)).trans (ih.cons x)

/-- Pairwise descending-length order of the sorted mapping list. -/
abbrev LenSorted (l : List (String × String)) : Prop :=
  List.Pairwise (fun a b => b.1.length ≤ a.1.length) l

theorem insertByLenDesc_sorted (x : String × String) (l : List (String × String))
    (h : LenSorted l) : LenSorted (insertByLenDesc x l) := by
  induction l with
  | nil => simp [insertByLenDesc]
  | cons y ys ih =>
    rcases List.pairwise_cons.mp h with ⟨hy, hys⟩
    by_cases hlen : x.1.length > y.1.length
    · simp only [insertByLenDesc, if_pos hlen]
      refine List.Pairwise.cons ?_ (List.Pairwise.cons hy hys)
      intro b hb
      rcases List.mem_cons.mp hb with rfl | hb
      · omega
      · have := hy b hb; omega
    · simp only [insertByLenDesc, if_neg hlen]
      refine List.Pairwise.cons ?_ (ih hys)
      intro b hb
      have hb' := (insertByLenDesc_perm x ys).mem_iff.mp hb
      rcases List.mem_cons.mp hb' with rfl | hb'
      · omega
      · exact hy b hb'

theorem sortByLenDesc_sorted (l : List (String × String)) : LenSorted (sortByLenDesc l) := by
  induction l with
  | nil => simp [sortByLenDesc]
  | cons x xs ih => exact insertByLenDesc_sorted x (sortByLenDesc xs) ih

/-- When no pair's `from` is a prefix of the candidate, the candidate is
returned unchanged. -/
theorem applyPathMappings_noMatch (ms : List (String × String)) (arg : String)
    (h : ∀ p ∈ ms, strStartsWith arg p.1 = false) : applyPathMappings ms arg = arg := by
  induction ms with
  | nil => rfl
  | cons p rest ih =>
    obtain ⟨frm, toP⟩ := p
    have hp := h (frm, toP) (List.mem_cons_self _ _)
    simp only [applyPathMappings]
    rw [hp]
    simp only [Bool.false_eq_true, if_false]
    exact ih (fun q hq => h q (List.mem_cons_of_mem _ hq))

/-- The first matching pair wins: if every pair before `(frm, toP)` fails the
prefix test and `(frm, toP)` matches, the candidate is rewritten by it. -/
theorem applyPathMappings_firstMatch (pre post : List (String × String))
    (frm toP arg : String)
    (hpre : ∀ p ∈ pre, strStartsWith arg p.1 = false)
    (hm : strStartsWith arg frm = true) :
    applyPathMappings (pre ++ (frm, toP) :: post) arg = toP ++ strDrop arg frm.length := by
  induction pre with
  | nil => simp [applyPathMappings, hm]
  | cons p rest ih =>
    obtain ⟨f, t⟩ := p
    have hp := hpre (f, t) (List.mem_cons_self _ _)
    simp only [List.cons_append, applyPathMappings]
    rw [hp]
    simp only [Bool.false_eq_true, if_false]
    exact ih (fun q hq => hpre q (List.mem_cons_of_mem _ hq))

/-- The selected pair of a sorted list is a matching pair of maximal length:
whenever some pair matches the candidate, `applyPathMappings` rewrites by a
matching pair whose `from` is at least as long as any matching pair's. -/
theorem applyPathMappings_selects (ms : List (String × String)) (arg : String)
    (hsort : LenSorted ms) (p : String × String) (hp : p ∈ ms)
    (hm : strStartsWith arg p.1 = true) :
    ∃ f t, (f, t) ∈ ms ∧ strStartsWith arg f = true ∧ p.1.length ≤ f.length ∧
      applyPathMappings ms arg = t ++ strDrop arg f.length := by
  induction ms with
  | nil => cases hp
  | cons q rest ih =>
    obtain ⟨qf, qt⟩ := q
    rcases List.pairwise_cons.mp hsort with ⟨hq, hrest⟩
    by_cases hqm : strStartsWith arg qf = true
    · refine ⟨qf, qt, List.mem_cons_self _ _, hqm, ?_, ?_⟩
      · rcases List.mem_cons.mp hp with h | h
        · rw [h]
        · exact hq p h
      · simp [applyPathMappings, hqm]
    · rcases List.mem_cons.mp hp with h | h
      · subst h
        exact absurd hm hqm
      · obtain ⟨f, t, hmem, hmf, hlen, happ⟩ := ih hrest h
        refine ⟨f, t, List.mem_cons_of_mem _ hmem, hmf, hlen, ?_⟩
        simp only [applyPathMappings]
        rw [eq_false_of_ne_true hqm]
        simpa using happ

theorem get_path_mappings_sorted (st : Settings) : LenSorted st.get_path_mappings := by
  unfold Settings.get_path_mappings
  exact sortByLenDesc_sorted _

theorem strStartsWith_length_lt {p q : String} (hpre : strStartsWith q p = true)
    (hne : p ≠ q) : p.length < q.length := by
  unfold strStartsWith at hpre
  have hp : p.data <+: q.data := by
    have := List.isPrefixOf_iff_prefix.mp hpre
    exact this
  have hle : p.data.length ≤ q.data.length := hp.length_le
  have hlt : p.data.length ≠ q.data.length := by
    intro heq
    exact hne (congrArg String.mk (List.IsPrefix.eq_of_length hp heq))
  have : p.length = p.data.length := rfl
  have : q.length = q.data.length := rfl
  simp only [String.length]
  omega

/-- C8. The path mapper, built by `get_path_mappings` and applied by the
first-matching-prefix loop, (i) always yields a list sorted descending by
length of `from`; (ii) leaves a candidate unchanged when no `from` is a
byte-wise prefix of it; (iii) rewrites by the first matching pair; and
(iv) when two configured prefixes P1 ⊂ P2 (proper prefix) both exist and a
string starts with P2, the pair actually applied has a `from` at least as
long as P2 and strictly longer than P1 — the string is not rewritten by
P1's rule. -/
theorem C8_path_mapper :
    (∀ st : Settings, LenSorted st.get_path_mappings) ∧
    (∀ (ms : List (String × String)) (arg : String),
      (∀ p ∈ ms, strStartsWith arg p.1 = false) → applyPathMappings ms arg = arg) ∧
    (∀ (pre post : List (String × String)) (frm toP arg : String),
      (∀ p ∈ pre, strStartsWith arg p.1 = false) → strStartsWith arg frm = true →
      applyPathMappings (pre ++ (frm, toP) :: post) arg = toP ++ strDrop arg frm.length) ∧
    (∀ (st : Settings) (arg : String) (p1 p2 : String × String),
      p1 ∈ st.get_path_mappings → p2 ∈ st.get_path_mappings →
      strStartsWith p2.1 p1.1 = true → p1.1 ≠ p2.1 →
      strStartsWith arg p2.1 = true →
      ∃ f t, (f, t) ∈ st.get_path_mappings ∧ strStartsWith arg f = true ∧
        p2.1.length ≤ f.length ∧ p1.1.length < f.length ∧
        applyPathMappings st.get_path_mappings arg = t ++ strDrop arg f.length) := by
  refine ⟨get_path_mappings_sorted, applyPathMappings_noMatch, ?_, ?_⟩
  · intro pre post frm toP arg h1 h2
    exact applyPathMappings_firstMatch pre post frm toP arg h1 h2
  · intro st arg p1 p2 hp1 hp2 hpre hne hm
    obtain ⟨f, t, hmem, hmf, hlen, happ⟩ :=
      applyPathMappings_selects st.get_path_mappings arg (get_path_mappings_sorted st) p2 hp2 hm
    have hlt : p1.1.length < p2.1.length := strStartsWith_length_lt hpre hne
    exact ⟨f, t, hmem, hmf, hlen, by omega, happ⟩

/-- Concrete instantiation of `C8_path_mapper`: with `/media ↦ /mnt` and
`/media/tv ↦ /srv/tv` configured, the candidate `/media/tv/x.mkv` is
rewritten by the longer prefix. -/
theorem C8_path_mapper_witness :
    (LenSorted (Settings.get_path_mappings
      { media_path_from := some "/media", media_path_to := some "/mnt",
        path_mappings := some "/media/tv=/srv/tv" })) ∧
    applyPathMappings [("/opt", "/x")] "/media/a" = "/media/a" ∧
    applyPathMappings [("/media/tv", "/srv/tv"), ("/media", "/mnt")] "/media/tv/x.mkv" =
      "/srv/tv" ++ strDrop "/media/tv/x.mkv" 9 ∧
    ∃ f t,
      (f, t) ∈ Settings.get_path_mappings
        { media_path_from := some "/media", media_path_to := some "/mnt",
          path_mappings := some "/media/tv=/srv/tv" } ∧
      strStartsWith "/media/tv/x.mkv" f = true ∧
      ("/media/tv" : String).length ≤ f.length ∧
      ("/media" : String).length < f.length ∧
      applyPathMappings (Settings.get_path_mappings
        { media_path_from := some "/media", media_path_to := some "/mnt",
          path_mappings := some "/media/tv=/srv/tv" }) "/media/tv/x.mkv" =
        t ++ strDrop "/media/tv/x.mkv" f.length := by
  refine ⟨C8_path_mapper.1 _, ?_, ?_, ?_⟩
  · exact C8_path_mapper.2.1 [("/opt", "/x")] "/media/a" (by decide)
  · exact C8_path_mapper.2.2.1 [] [("/media", "/mnt")] "/media/tv" "/srv/tv" "/media/tv/x.mkv"
      (by intro p hp; cases hp) (by decide)
  · exact C8_path_mapper.2.2.2 _ "/media/tv/x.mkv" ("/media", "/mnt") ("/media/tv", "/srv/tv")
      (by decide) (by decide) (by decide) (by decide) (by decide)

/-! ## Progress parser (`transcoder.py`, `FFmpegTranscoder._update_progress_from_line`). -/

/-- Numeric value of a list of decimal digit characters. -/
def digitsVal (l : List Char) : Nat :=
  l.foldl (fun a c => a * 10 + (c.toNat - 48)) 0

/-- Python `value.isdigit()` (restricted to ASCII digits, which is all the
FFmpeg progress stream produces). -/
def isDigits (s : String) : Bool :=
  ¬ s.data.isEmpty ∧ s.data.all Char.isDigit

/-- Python `int(value)` on an already-stripped string: optional sign followed
by at least one digit; anything else raises `ValueError`, modelled as `none`. -/
def pyInt (s : String) : Option Int :=
  match s.data with
  | '+' :: rest =>
    if ¬ rest.isEmpty ∧ rest.all Char.isDigit then some (digitsVal rest) else none
  | '-' :: rest =>
    if ¬ rest.isEmpty ∧ rest.all Char.isDigit then some (-(digitsVal rest : Int)) else none
  | l => if ¬ l.isEmpty ∧ l.all Char.isDigit then some (digitsVal l) else none

/-- Mantissa of a Python float literal: `digits [. digits]` or `. digits`,
as an exact rational. -/
def parseMantissa (l : List Char) : Option Rat :=
  let ip := l.takeWhile Char.isDigit
  let rest := l.dropWhile Char.isDigit
  match rest with
  | [] => if ip.isEmpty then none else some (digitsVal ip : Rat)
  | '.' :: rest2 =>
    let fp := rest2.takeWhile Char.isDigit
    let rest3 := rest2.dropWhile Char.isDigit
    if ¬ rest3.isEmpty then none
    else if ip.isEmpty ∧ fp.isEmpty then none
    else some ((digitsVal ip : Rat) + (digitsVal fp : Rat) / ((10 : Rat) ^ fp.length))
  | _ => none

/-- Split a float literal at the first exponent marker `e`/`E`. -/
def splitExpChar : List Char → List Char × Option (List Char)
  | [] => ([], none)
  | c :: rest =>
    if c = 'e' ∨ c = 'E' then ([], some rest)
    else
      let (m, e) := splitExpChar rest
      (c :: m, e)

/-- Unsigned part of Python `float(value)` as an exact rational. -/
def pyFloatUnsigned (l : List Char) : Option Rat :=
  let (m, e) := splitExpChar l
  match parseMantissa m, e with
  | some q, none => some q
  | some q, some ex =>
    match pyInt ⟨ex⟩ with
    | some z => some (q * (10 : Rat) ^ z)
    | none => none
  | none, _ => none

/-- Python `float(value)` on an already-stripped string, as an exact
rational; `none` models `ValueError`. -/
def pyFloat (s : String) : Option Rat :=
  match s.data with
  | '+' :: rest => pyFloatUnsigned rest
  | '-' :: rest => (pyFloatUnsigned rest).map Neg.neg
  | l => pyFloatUnsigned l

/-- `TranscodeProgress` (python dataclass): the per-job progress record. -/
structure TranscodeProgress where
  job_id : String
  frame : Int := 0
  fps : Rat := 0
  bitrate : String := ""
  total_size : Int := 0
  out_time_ms : Int := 0
  speed : Rat := 0
  progress : Rat := 0
  current_segment : Option Int := none
  status : String := "running"
  error : Option String := none
deriving DecidableEq

/-- The greedy match of the regex group `([\d.]+)` at the start of a string:
the maximal leading run of digits and dots. -/
def speedGroup (value : String) : List Char :=
  value.data.takeWhile (fun c => c.isDigit || c = '.')

/-- Key dispatch of `FFmpegTranscoder._update_progress_from_line`, applied
to the already-stripped key and value. A `ValueError` on a value (`none`
from the parsers) is caught and leaves the record unchanged. -/
def updateKV (p : TranscodeProgress) (key value : String) : TranscodeProgress :=
  if key = "frame" then
      match pyInt value with
      | some n => { p with frame := n }
      | none => p
    else if key = "fps" then
      if value = "" then { p with fps := 0 }
      else match pyFloat value with
        | some q => { p with fps := q }
        | none => p
    else if key = "bitrate" then { p with bitrate := value }
    else if key = "total_size" then
      { p with total_size := if isDigits value then (digitsVal value.data : Int) else 0 }
    else if key = "out_time_ms" then
      { p with out_time_ms := if isDigits value then (digitsVal value.data : Int) else 0 }
    else if key = "speed" then
      if (speedGroup value).isEmpty then p
      else match pyFloat ⟨speedGroup value⟩ with
        | some q => { p with speed := q }
        | none => p
    else if key = "progress" then
      if value = "end" then { p with progress := 100, status := "completed" } else p
    else p

/-- `FFmpegTranscoder._update_progress_from_line`: update the progress
record from one `key=value` line of FFmpeg's progress stream. Lines without
`=` return the record unchanged; key and value are stripped before
dispatch. -/
def updateProgressFromLine (p : TranscodeProgress) (line : String) : TranscodeProgress :=
  match splitOnce line '=' with
  | none => p
  | some (k, v) => updateKV p (pyStrip k) (pyStrip v)

/-- The keys the progress parser recognizes. -/
def recognizedKeys : List String :=
  ["frame", "fps", "bitrate", "total_size", "out_time_ms", "speed", "progress"]

theorem splitOnceAux_append (sep : Char) (l r : List Char) (h : sep ∉ l) :
    splitOnceAux sep (l ++ sep :: r) = some (l, r) := by
  induction l with
  | nil => simp [splitOnceAux]
  | cons c cs ih =>
    have hc : c ≠ sep := fun hh => h (hh ▸ List.mem_cons_self c cs)
    simp only [List.cons_append, splitOnceAux, if_neg hc]
    rw [show cs.append (sep :: r) = cs ++ sep :: r from rfl,
      ih (fun hm => h (List.mem_cons_of_mem _ hm))]

theorem splitOnce_append (k v : String) (h : '=' ∉ k.data) :
    splitOnce (k ++ "=" ++ v) '=' = some (k, v) := by
  unfold splitOnce
  have : (k ++ "=" ++ v).data = k.data ++ '=' :: v.data := by
    simp [String.data_append]
  rw [this, splitOnceAux_append '=' k.data v.data h]

theorem updateProgressFromLine_append (p : TranscodeProgress) (k v : String)
    (h : '=' ∉ k.data) :
    updateProgressFromLine p (k ++ "=" ++ v) = updateKV p (pyStrip k) (pyStrip v) := by
  unfold updateProgressFromLine
  rw [splitOnce_append k v h]

/-- C9 as stated is false: a malformed value for the recognized key
`total_size` does not leave the progress record unchanged — the source sets
the field to 0 (`int(value) if value.isdigit() else 0`). Here FFmpeg's
common placeholder `N/A` resets a previously recorded size of 5 to 0. -/
theorem C9_counterexample :
    (updateProgressFromLine { job_id := "j", total_size := 5 } "total_size=N/A").total_size = 0 ∧
    ({ job_id := "j", total_size := 5 : TranscodeProgress }).total_size = 5 := by
  constructor <;> decide

/-- C9 (amended). For the progress parser: a `progress=end` line sets
percent complete to 100 and status to completed; a line with an unknown key
leaves the record unchanged; a malformed value for `frame` or `speed`, a
malformed non-empty value for `fps`, and a line without `=` leave the record
unchanged; but a non-digit value for `total_size` or `out_time_ms` resets
that field to 0 (rather than leaving it unchanged). Parsing never aborts:
the update is a total function. -/
theorem C9_progress_line_rules :
    (∀ (p : TranscodeProgress) (k v : String), '=' ∉ k.data →
      updateProgressFromLine p (k ++ "=" ++ v) = updateKV p (pyStrip k) (pyStrip v)) ∧
    (∀ p : TranscodeProgress, updateProgressFromLine p "progress=end" =
      { p with progress := 100, status := "completed" }) ∧
    (∀ (p : TranscodeProgress) (key value : String), key ∉ recognizedKeys →
      updateKV p key value = p) ∧
    (∀ (p : TranscodeProgress) (line : String), splitOnce line '=' = none →
      updateProgressFromLine p line = p) ∧
    (∀ (p : TranscodeProgress) (value : String), pyInt value = none →
      updateKV p "frame" value = p) ∧
    (∀ (p : TranscodeProgress) (value : String), value ≠ "" → pyFloat value = none →
      updateKV p "fps" value = p) ∧
    (∀ (p : TranscodeProgress) (value : String),
      (speedGroup value).isEmpty = true ∨ pyFloat ⟨speedGroup value⟩ = none →
      updateKV p "speed" value = p) ∧
    (∀ (p : TranscodeProgress) (value : String), isDigits value = false →
      updateKV p "total_size" value = { p with total_size := 0 } ∧
      updateKV p "out_time_ms" value = { p with out_time_ms := 0 }) := by
  refine ⟨updateProgressFromLine_append, ?_, ?_, ?_, ?_, ?_, ?_, ?_⟩
  · intro p
    have h : updateProgressFromLine p "progress=end" = updateKV p "progress" "end" := by
      unfold updateProgressFromLine
      rw [show splitOnce "progress=end" '=' = some ("progress", "end") from by decide]
      rfl
    rw [h]
    rfl
  · intro p key value hk
    unfold updateKV
    simp only [recognizedKeys, List.mem_cons, List.mem_singleton, not_or] at hk
    obtain ⟨h1, h2, h3, h4, h5, h6, h7, -⟩ := hk
    rw [if_neg h1, if_neg h2, if_neg h3, if_neg h4, if_neg h5, if_neg h6, if_neg h7]
  · intro p line h
    unfold updateProgressFromLine
    rw [h]
  · intro p value hv
    unfold updateKV
    rw [if_pos rfl, hv]
  · intro p value hne hv
    unfold updateKV
    rw [if_neg (by decide), if_pos rfl, if_neg hne, hv]
  · intro p value hv
    unfold updateKV
    rw [if_neg (by decide), if_neg (by decide), if_neg (by decide), if_neg (by decide),
      if_neg (by decide), if_pos rfl]
    rcases hv with hv | hv
    · rw [if_pos hv]
    · rw [hv]
      cases hemp : (speedGroup value).isEmpty <;> simp
  · intro p value hv
    constructor
    · unfold updateKV
      rw [if_neg (by decide), if_neg (by decide), if_neg (by decide), if_pos rfl, hv]
      simp
    · unfold updateKV
      rw [if_neg (by decide), if_neg (by decide), if_neg (by decide), if_neg (by decide),
        if_pos rfl, hv]
      simp

/-- Concrete instantiation of `C9_progress_line_rules`: an unknown key and a
malformed frame value leave a concrete record unchanged, and a non-digit
size resets the size field. -/
theorem C9_progress_line_rules_witness :
    updateProgressFromLine { job_id := "j" } ("unknown_key" ++ "=" ++ "42") =
      updateKV { job_id := "j" } "unknown_key" "42" ∧
    updateKV { job_id := "j" } "unknown_key" "42" = { job_id := "j" } ∧
    updateKV { job_id := "j", frame := 7 } "frame" "N/A" = { job_id := "j", frame := 7 } ∧
    updateKV { job_id := "j" } "total_size" "N/A" = { job_id := "j", total_size := 0 } := by
  refine ⟨?_, ?_, ?_, ?_⟩
  · have h := C9_progress_line_rules.1 { job_id := "j" } "unknown_key" "42" (by decide)
    rw [h]
    decide
  · exact C9_progress_line_rules.2.2.1 { job_id := "j" } "unknown_key" "42" (by decide)
  · exact C9_progress_line_rules.2.2.2.2.1 { job_id := "j", frame := 7 } "N/A" (by decide)
  · exact (C9_progress_line_rules.2.2.2.2.2.2.2 { job_id := "j" } "N/A" (by decide)).1

/-! ## Dialect-A rewriter (`transcoder.py`, `FFmpegTranscoder._extract_plex_info`
and `FFmpegTranscoder._build_plex_command`). -/

/-- Decimal digit character for a value below 10. -/
def digitChar (n : Nat) : Char :=
  Char.ofNat (48 + n)

/-- Fuel-driven digit expansion for decimal rendering; `natDec` supplies
fuel at least the value, which is always enough since each step divides the
value by 10. -/
def natDecGo : Nat → Nat → List Char
  | 0, n => [digitChar n]
  | fuel + 1, n =>
    if n < 10 then [digitChar n] else natDecGo fuel (n / 10) ++ [digitChar (n % 10)]

/-- Decimal rendering of a natural number (Python `str(int)`), most
significant digit first. -/
def natDec (n : Nat) : List Char :=
  natDecGo n n

/-- String form of `natDec`. -/
def natDecStr (n : Nat) : String :=
  ⟨natDec n⟩

/-- Hexadecimal digit test matching the regex class `[0-9a-fA-F]`. -/
def isHexChar (c : Char) : Bool :=
  c.isDigit || ('a' ≤ c ∧ c ≤ 'f') || ('A' ≤ c ∧ c ≤ 'F')

/-- Value of one hexadecimal digit character. -/
def hexCharVal (c : Char) : Nat :=
  if c.isDigit then c.toNat - 48
  else if 'a' ≤ c ∧ c ≤ 'f' then c.toNat - 87
  else c.toNat - 55

/-- Python `int(digits, 16)`. -/
def hexVal (l : List Char) : Nat :=
  l.foldl (fun a c => a * 16 + hexCharVal c) 0

/-- Fuel-driven digit expansion for lowercase hexadecimal rendering. -/
def natHexGo : Nat → Nat → List Char
  | 0, n => [if n < 10 then digitChar n else Char.ofNat (87 + n)]
  | fuel + 1, n =>
    if n < 16 then [if n < 10 then digitChar n else Char.ofNat (87 + n)]
    else natHexGo fuel (n / 16) ++
      [if n % 16 < 10 then digitChar (n % 16) else Char.ofNat (87 + n % 16)]

/-- Lowercase hexadecimal rendering of a natural number. -/
def natHex (n : Nat) : List Char :=
  natHexGo n n

theorem dropWhileLenLe (p : Char → Bool) (l : List Char) :
    (l.dropWhile p).length ≤ l.length := by
  induction l with
  | nil => simp [List.dropWhile]
  | cons a t ih =>
    by_cases h : p a = true
    · rw [List.dropWhile_cons_of_pos h]
      simp only [List.length_cons]
      omega
    · rw [List.dropWhile_cons_of_neg h]

/-- Fuel-driven scan for `hexSub`; the fuel bounds the remaining length, so
supplying the input length is always enough. When `#0x` is not followed by
a hex digit no match can begin inside the literal `0x`, so those characters
are copied wholesale. -/
def hexSubGo : Nat → List Char → List Char
  | 0, l => l
  | _ + 1, [] => []
  | fuel + 1, c :: rest =>
    if c = '#' then
      match rest with
      | '0' :: 'x' :: r2 =>
        let ds := r2.takeWhile isHexChar
        if ds.isEmpty then '#' :: '0' :: 'x' :: hexSubGo fuel r2
        else natDec (hexVal ds) ++ hexSubGo fuel (r2.dropWhile isHexChar)
      | _ => c :: hexSubGo fuel rest
    else c :: hexSubGo fuel rest

/-- The regex substitution `re.sub(r'#0x([0-9a-fA-F]+)', …)` converting Plex
hexadecimal stream ids to decimal, scanning left to right: at a position
starting `#0x` followed by at least one hex digit, the whole token is
replaced by the decimal rendering of its value and scanning resumes after
the digits; everywhere else the character is copied. -/
def hexSub (l : List Char) : List Char :=
  hexSubGo l.length l

/-- The regex substitution `re.sub(r'\[0:\d+\]', '[0:a:0]', af, count=1)`:
the first absolute stream reference `[0:N]` is collapsed to `[0:a:0]` and
the remainder is copied unchanged. -/
def bracketSub : List Char → List Char
  | [] => []
  | c :: rest =>
    if c = '[' then
      match rest with
      | '0' :: ':' :: r2 =>
        let ds := r2.takeWhile Char.isDigit
        (match r2.dropWhile Char.isDigit with
         | ']' :: r3 => if ds.isEmpty then c :: bracketSub rest else "[0:a:0]".data ++ r3
         | _ => c :: bracketSub rest)
      | _ => c :: bracketSub rest
    else c :: bracketSub rest

/-- Python `af.replace('ochl=', 'ocl=')` (all occurrences, left to right,
non-overlapping). -/
def replaceOchl : List Char → List Char
  | 'o' :: 'c' :: 'h' :: 'l' :: '=' :: rest => 'o' :: 'c' :: 'l' :: '=' :: replaceOchl rest
  | c :: rest => c :: replaceOchl rest
  | [] => []

/-- The regex test `re.match(r'0:\d+$', map_val)`: the whole string is `0:`
followed by one or more digits. -/
def matchZeroColonDigits (s : String) : Bool :=
  match s.data with
  | '0' :: ':' :: rest => ¬rest.isEmpty ∧ rest.all Char.isDigit
  | _ => false

/-- The regex search `re.search(r'\[(\d+)\]$', fc)`: when the string ends
with a bracketed run of digits, that bracketed label. -/
def lastBracketLabel (s : String) : Option String :=
  match s.data.reverse with
  | ']' :: rest =>
    let ds := rest.takeWhile Char.isDigit
    if ds.isEmpty then none
    else match rest.dropWhile Char.isDigit with
      | '[' :: _ => some ⟨'[' :: (ds.reverse ++ [']'])⟩
      | _ => none
  | _ => none

/-- One audio stream descriptor extracted from the Plex argument vector. -/
structure AudioStream where
  map : String
  codec : Option String := none
  bitrate : Option String := none
  copypriorss : Option String := none
deriving DecidableEq

/-- The `info` dictionary of `_extract_plex_info`. -/
structure PlexInfo where
  input_path : Option String := none
  seek : Option String := none
  duration : Option String := none
  start_at_zero : Bool := false
  copyts : Bool := false
  framerate : Option String := none
  keyframe_expr : Option String := none
  audio_filter : Option String := none
  audio_streams : List AudioStream := []
  metadata : List (String × String) := []
  output_format : Option String := none
  output_path : Option String := none
  has_video : Bool := true
deriving DecidableEq

/-- Update the audio stream at (integer) index `i` when it is in bounds,
modelling `if 0 <= audio_idx < len(...): ...[audio_idx][k] = v`. -/
def setStreamAt (l : List AudioStream) (i : Int) (f : AudioStream → AudioStream) :
    List AudioStream :=
  if 0 ≤ i ∧ i < l.length then
    l.mapIdx (fun j a => if (j : Int) = i then f a else a)
  else l

/-- First pass of `_extract_plex_info`: the trailing bracketed label of the
last `-filter_complex` body containing `aresample`. -/
def firstPassLabel (acc : Option String) : List String → Option String
  | [] => acc
  | a :: rest =>
    let acc' :=
      if a = "-filter_complex" then
        match rest.head? with
        | some fc =>
          if containsSub fc "aresample" then
            match lastBracketLabel fc with
            | some lab => some lab
            | none => acc
          else acc
        | none => acc
      else acc
    firstPassLabel acc' rest

/-- The `-r:N` / `-force_key_frames:N` / `-codec:N` / `-b:N` /
`-copypriorss:N` index guard: the argument starts with the given flag name
followed by `:` and the tail is parsed with Python `int`, which raises
(modelled as `none`) when it is not an integer literal. The regex guard
`\d+` additionally requires the first character after the colon to be a
digit. -/
def colonIdx (arg flagColon : String) : Option Int :=
  if strStartsWith arg flagColon then
    match (strSplit arg ':').get? 1 with
    | some part => pyInt part
    | none => none
  else none

/-- The regex prefix test `re.match(r'<flag>:\d+', arg)`. -/
def matchFlagDigits (arg flagColon : String) : Bool :=
  strStartsWith arg flagColon &&
    (match (arg.data.drop flagColon.length).head? with
     | some c => c.isDigit
     | none => false)

/-- Audio transformation applied to a retained `-filter_complex` body:
hex stream ids to decimal, first `[0:N]` collapsed to `[0:a:0]`, and
`ochl=` downgraded to `ocl=` for FFmpeg major versions below 5. -/
def audioFilterFix (major : Nat) (fc : String) : String :=
  let af := hexSub fc.data
  let af := bracketSub af
  let af := if major < 5 then replaceOchl af else af
  ⟨af⟩

/-- Map-value transformation of `_extract_plex_info`: hex ids to decimal,
then whole values `0:N` (N ≥ 1 digit run, other than `0:0`) collapsed to
`0:a:0`. -/
def mapValFix (v : String) : String :=
  let mv : String := ⟨hexSub v.data⟩
  if matchZeroColonDigits mv ∧ mv ≠ "0:0" then "0:a:0" else mv

/-- Main scan of `_extract_plex_info` (`while i < len(raw_args)`), recursing
over the remaining arguments with the running info record and `-map` count.
`none` models an uncaught `ValueError` from an index parse. When only one
argument remains, `nxt` is `None`, so only the two flag-only branches
(`-start_at_zero`, `-copyts`) can fire. -/
def extractLoop (major : Nat) (label : Option String) (hasVideo : Bool) :
    PlexInfo → Nat → List String → Option (PlexInfo × Nat)
  | info, mc, [] => some (info, mc)
  | info, mc, [arg] =>
    if arg = "-start_at_zero" then some ({ info with start_at_zero := true }, mc)
    else if arg = "-copyts" then some ({ info with copyts := true }, mc)
    else some (info, mc)
  | info, mc, arg :: nv :: rest =>
    let t : Bool := nv ≠ ""
    if arg = "-i" ∧ t then
      extractLoop major label hasVideo { info with input_path := some nv } mc rest
    else if arg = "-ss" ∧ t then
      extractLoop major label hasVideo { info with seek := some nv } mc rest
    else if arg = "-t" ∧ t then
      extractLoop major label hasVideo { info with duration := some nv } mc rest
    else if arg = "-start_at_zero" then
      extractLoop major label hasVideo { info with start_at_zero := true } mc (nv :: rest)
    else if arg = "-copyts" then
      extractLoop major label hasVideo { info with copyts := true } mc (nv :: rest)
    else if strStartsWith arg "-r:" ∧ t then
      extractLoop major label hasVideo { info with framerate := some nv } mc rest
    else if strStartsWith arg "-force_key_frames:" ∧ t then
      extractLoop major label hasVideo { info with keyframe_expr := some nv } mc rest
    else if arg = "-filter_complex" ∧ t then
      let info' := if containsSub nv "aresample" then
          { info with audio_filter := some (audioFilterFix major nv) }
        else info
      extractLoop major label hasVideo info' mc rest
    else if arg = "-map" ∧ t then
      let mc' := mc + 1
      let mv := mapValFix nv
      if hasVideo ∧ mc' = 1 ∧ label ≠ some mv then
        extractLoop major label hasVideo info mc' rest
      else
        extractLoop major label hasVideo
          { info with audio_streams := info.audio_streams ++ [{ map := mv }] } mc' rest
    else if matchFlagDigits arg "-codec:" ∧ t then
      match colonIdx arg "-codec:" with
      | none => none
      | some idx =>
        let ai := idx - (if hasVideo then 1 else 0)
        let c := if nv = "aac_lc" then "aac" else nv
        extractLoop major label hasVideo
          { info with audio_streams :=
              setStreamAt info.audio_streams ai (fun a => { a with codec := some c }) }
          mc rest
    else if matchFlagDigits arg "-b:" ∧ t then
      match colonIdx arg "-b:" with
      | none => none
      | some idx =>
        let ai := idx - (if hasVideo then 1 else 0)
        extractLoop major label hasVideo
          { info with audio_streams :=
              setStreamAt info.audio_streams ai (fun a => { a with bitrate := some nv }) }
          mc rest
    else if matchFlagDigits arg "-copypriorss:" ∧ t then
      match colonIdx arg "-copypriorss:" with
      | none => none
      | some idx =>
        let ai := idx - (if hasVideo then 1 else 0)
        extractLoop major label hasVideo
          { info with audio_streams :=
              setStreamAt info.audio_streams ai (fun a => { a with copypriorss := some nv }) }
          mc rest
    else if strStartsWith arg "-metadata:s:" ∧ t then
      extractLoop major label hasVideo
        { info with metadata := info.metadata ++ [(arg, nv)] } mc rest
    else if arg = "-f" ∧ t then
      extractLoop major label hasVideo { info with output_format := some nv } mc rest
    else
      extractLoop major label hasVideo info mc (nv :: rest)

/-- `FFmpegTranscoder._extract_plex_info`. -/
def extractPlexInfo (major : Nat) (raw : List String) : Option PlexInfo :=
  let hasVn := raw.contains "-vn"
  let hasEae := raw.any (fun a => strStartsWith a "-eae_prefix")
  let hasVideo := ¬hasVn ∧ ¬hasEae
  let label := firstPassLabel none raw
  match extractLoop major label hasVideo { has_video := hasVideo } 0 raw with
  | none => none
  | some (info, _) =>
    let info := match raw.getLast? with
      | some last => if ¬ strStartsWith last "-" then { info with output_path := some last }
          else info
      | none => info
    some info

/-- Python `Path(s).name`: the final path component. -/
def baseName (s : String) : String :=
  ⟨(s.data.reverse.takeWhile (· ≠ '/')).reverse⟩

/-- VAAPI device resolution `settings.qsv_device or "/dev/dri/renderD128"`. -/
def vaapiDevice (st : Settings) : String :=
  if truthy st.qsv_device then st.qsv_device.getD "" else "/dev/dri/renderD128"

/-- Hardware-acceleration segment of `_build_plex_command`, emitted before
`-i` when video is present. NVENC deliberately emits nothing (CPU decode
feeds `hwupload_cuda` in the filter chain). -/
def hwAccelSegA (st : Settings) (hw : String) (hasVideo : Bool) : List String :=
  if hasVideo then
    if hw = "qsv" then
      ["-hwaccel", "qsv"] ++
        (if truthy st.qsv_device then ["-qsv_device", st.qsv_device.getD ""] else []) ++
        ["-hwaccel_output_format", "qsv", "-extra_hw_frames", "8"]
    else if hw = "vaapi" then ["-hwaccel", "vaapi", "-vaapi_device", vaapiDevice st]
    else []
  else []

/-- Input segment of `_build_plex_command`: `pipe:0` for beam streaming, the
uploaded file in beam-upload mode, otherwise the extracted input path after
path mapping. -/
def inputSegA (st : Settings) (jobId : String) (info : PlexInfo)
    (beamStream beamMode : Bool) : List String :=
  if beamMode then
    ["-i", if beamStream then "pipe:0" else st.temp_dir ++ "/" ++ jobId ++ "/input"]
  else
    ["-i", applyPathMappings st.get_path_mappings (info.input_path.getD "")]

/-- Video segment of `_build_plex_command`: `-map 0:v:0`, the
accelerator-specific scale filter and encoder with its preset table, then
re-applied framerate and forced-keyframe settings. -/
def videoSegA (st : Settings) (hw : String) (info : PlexInfo) (beamMode : Bool) : List String :=
  if info.has_video then
    ["-map", "0:v:0"] ++
    (if hw = "nvenc" then
      ["-vf", "scale=1920:-2:flags=fast_bilinear:sws_dither=none,format=nv12,hwupload_cuda",
       "-c:v", "h264_nvenc"] ++
      (if beamMode ∧ truthy st.beam_max_bitrate then
        ["-preset", "p1", "-tune", "ull",
         "-rc", "cbr", "-b:v", st.beam_max_bitrate.getD "",
         "-rc-lookahead", "0", "-delay", "0",
         "-bf", "0", "-multipass", "disabled",
         "-forced-idr", "1", "-g", "24",
         "-maxrate", st.beam_max_bitrate.getD "",
         "-bufsize", st.beam_max_bitrate.getD ""]
      else
        ["-preset", "p1", "-tune", "ull",
         "-rc", "constqp", "-qp", "25",
         "-rc-lookahead", "0", "-delay", "0",
         "-bf", "0", "-multipass", "disabled",
         "-maxrate", "10M", "-bufsize", "5M"])
    else if hw = "qsv" then
      ["-vf", "scale_qsv=w=1920:h=-1:format=nv12", "-c:v", "h264_qsv",
       "-preset", "veryfast", "-global_quality", "25",
       "-low_power", "1", "-async_depth", "1"]
    else if hw = "vaapi" then
      ["-vf", "scale=1920:-2:flags=fast_bilinear,format=nv12,hwupload",
       "-c:v", "h264_vaapi", "-low_power", "1", "-qp", "25"]
    else
      ["-vf", "scale=1920:-2:flags=fast_bilinear:sws_dither=none", "-c:v", "libx264",
       "-preset", "veryfast", "-crf", "25"]) ++
    (if truthy info.framerate then ["-r:0", info.framerate.getD ""] else []) ++
    (if truthy info.keyframe_expr then ["-force_key_frames:0", info.keyframe_expr.getD ""]
     else [])
  else []

/-- One audio stream's emission: `-map` plus per-output-stream codec,
bitrate and copy-prior-to-seek flags, with the output stream index offset by
one when video is present. -/
def audioStreamSegA (hasVideo : Bool) (idx : Nat) (a : AudioStream) : List String :=
  let k := idx + (if hasVideo then 1 else 0)
  ["-map", a.map] ++
  (if truthy a.codec then ["-codec:" ++ toString k, a.codec.getD ""] else []) ++
  (if truthy a.bitrate then ["-b:" ++ toString k, a.bitrate.getD ""] else []) ++
  (if truthy a.copypriorss then ["-copypriorss:" ++ toString k, a.copypriorss.getD ""] else [])

/-- Audio segment of `_build_plex_command`: the retained `aresample`
filter graph (when any), then every extracted audio stream. -/
def audioSegA (info : PlexInfo) : List String :=
  (if truthy info.audio_filter then ["-filter_complex", info.audio_filter.getD ""] else []) ++
  ((List.range info.audio_streams.length).zip info.audio_streams).flatMap
    (fun p => audioStreamSegA info.has_video p.1 p.2)

/-- Metadata segment: extracted `-metadata:s:…` pairs, passed through. -/
def metaSegA (info : PlexInfo) : List String :=
  info.metadata.flatMap (fun p => [p.1, p.2])

/-- Resolved output format: extracted, defaulting to `dash`. -/
def outFmtA (info : PlexInfo) : String :=
  if truthy info.output_format then info.output_format.getD "" else "dash"

/-- Output-format segment: `-f`, the DASH segment type when applicable, the
always-on flags, and the beam-mode low-latency segment duration. -/
def fmtSegA (info : PlexInfo) (beamMode : Bool) : List String :=
  ["-f", outFmtA info] ++
  (if outFmtA info = "dash" then ["-dash_segment_type", "mp4"] else []) ++
  ["-avoid_negative_ts", "disabled", "-map_metadata", "-1", "-map_chapters", "-1"] ++
  (if beamMode then ["-seg_duration", "1"] else [])

/-- Resolved output path of `_build_plex_command`: in beam mode the output
is forced into the worker temp tree keyed by job id (with `dash`/`hls`
placeholders renamed to manifest names); otherwise a missing path becomes
`dash` and path mappings apply. -/
def outPathA (st : Settings) (jobId : String) (info : PlexInfo) (beamMode : Bool) : String :=
  if beamMode then
    let name0 := if truthy info.output_path then baseName (info.output_path.getD "") else "dash"
    let name := if name0 = "dash" ∨ name0 = "hls" ∨ name0 = "" then
        (if outFmtA info = "dash" then "output.mpd" else "output.m3u8")
      else name0
    st.temp_dir ++ "/" ++ jobId ++ "/" ++ name
  else
    let op := if truthy info.output_path then info.output_path.getD "" else "dash"
    applyPathMappings st.get_path_mappings op

/-- Everything `_build_plex_command` emits after the input/seek block:
timestamp flags, duration, `-y`, then the video, audio, metadata, format
and output-path segments in their fixed order. -/
def buildTailA (st : Settings) (hw : String) (jobId : String) (info : PlexInfo)
    (beamMode : Bool) : List String :=
  (if info.start_at_zero then ["-start_at_zero"] else []) ++
  (if info.copyts then ["-copyts"] else []) ++
  (if truthy info.duration then ["-t", info.duration.getD ""] else []) ++
  ["-y"] ++
  videoSegA st hw info beamMode ++
  audioSegA info ++
  metaSegA info ++
  fmtSegA info beamMode ++
  [outPathA st jobId info beamMode]

/-- `FFmpegTranscoder._build_plex_command` on an already-extracted info
record: the emitted argument vector, as the ordered concatenation of its
segments. The `hw_encoder` parameter exists in the source signature but is
unused by its body. -/
def buildPlexParts (st : Settings) (hw hw_encoder : String) (jobId : String)
    (info : PlexInfo) (beamStream uploadedExists : Bool) : List String :=
  let beamMode := beamStream || uploadedExists
  hwAccelSegA st hw info.has_video ++
  (if truthy info.seek ∧ beamStream = false then ["-ss", info.seek.getD ""] else []) ++
  inputSegA st jobId info beamStream beamMode ++
  (if truthy info.seek ∧ beamStream = true then ["-ss", info.seek.getD ""] else []) ++
  buildTailA st hw jobId info beamMode

/-- `FFmpegTranscoder._build_plex_command` from the raw argument vector:
extraction followed by emission; `none` models the uncaught `ValueError`
paths of extraction. -/
def buildPlexCommand (st : Settings) (hw hw_encoder : String) (major : Nat) (jobId : String)
    (raw : List String) (beamStream uploadedExists : Bool) : Option (List String) :=
  (extractPlexInfo major raw).map
    (fun info => buildPlexParts st hw hw_encoder jobId info beamStream uploadedExists)

/-! ### Dialect B: `_filter_standard_args` (Jellyfin-style argument vectors)
and its helpers `_split_scale_args` / `_convert_vf_to_gpu`. -/

/-- `_split_scale_args`: split a scale-filter body on `:` at parenthesis
depth zero. The depth is an integer, as in the source, so that an
unbalanced `)` makes it negative rather than saturating at zero. -/
def splitScaleGo : Int → List Char → List Char → List (List Char)
  | _, cur, [] => [cur.reverse]
  | depth, cur, c :: rest =>
    if c = '(' then splitScaleGo (depth + 1) (c :: cur) rest
    else if c = ')' then splitScaleGo (depth - 1) (c :: cur) rest
    else if c = ':' ∧ depth = 0 then cur.reverse :: splitScaleGo depth [] rest
    else splitScaleGo depth (c :: cur) rest

/-- `re.split(r'(?<!\\),', s)`: split on commas not directly preceded by a
backslash. -/
def splitUnescGo : Option Char → List Char → List Char → List (List Char)
  | _, cur, [] => [cur.reverse]
  | prev, cur, c :: rest =>
    if c = ',' ∧ prev ≠ some '\x5c' then cur.reverse :: splitUnescGo (some c) [] rest
    else splitUnescGo (some c) (c :: cur) rest

/-- The filter-chain scan of `_convert_vf_to_gpu`: walk the split filters,
recording the latest scale width/height expressions, skipping `format=` and
`setparams=` entries, and failing on anything else. -/
def scanFilters : List String → Option String → Option String →
    Option (Option String × Option String)
  | [], w, h => some (w, h)
  | f :: rest, w, h =>
    if strStartsWith f "scale=" then
      match splitScaleGo 0 [] (strDrop f 6).data with
      | a :: b :: _ => scanFilters rest (some ⟨a⟩) (some ⟨b⟩)
      | [a] => scanFilters rest (some ⟨a⟩) (some "-1")
      | [] => scanFilters rest w h
    else if strStartsWith f "format=" ∨ strStartsWith f "setparams=" then
      scanFilters rest w h
    else none

/-- `_convert_vf_to_gpu`: bail out on subtitle burn-in, split the chain on
unescaped commas, scan for a scale filter, and emit the accelerator's GPU
filter string (`none` when conversion is impossible). -/
def convertVfToGpu (vf : String) (hw : String) : Option String :=
  if containsSub vf "subtitles=" || containsSub vf "ass=" || containsSub vf "overlay" then
    none
  else
    match scanFilters ((splitUnescGo none [] vf.data).map (fun l => pyStrip ⟨l⟩))
        none none with
    | none => none
    | some (none, _) => none
    | some (some w, hOpt) =>
      let h := hOpt.getD "-1"
      if hw = "qsv" then
        some ("scale_qsv=w=" ++ w ++ ":h=" ++ (if h = "-2" then "-1" else h) ++
          ":format=nv12")
      else if hw = "nvenc" then
        some ("scale_cuda=" ++ w ++ ":" ++ (if h = "-2" then "-1" else h) ++
          ":format=nv12")
      else if hw = "vaapi" then
        some ("scale=w=" ++ w ++ ":h=" ++ h ++
          ":flags=fast_bilinear,format=nv12,hwupload")
      else none

/-- The encoder-flag tuple `("-codec:v:0", "-codec:0", "-c:v", "-c:v:0",
"-vcodec")` of `_filter_standard_args`. -/
def encFlags : List String := ["-codec:v:0", "-codec:0", "-c:v", "-c:v:0", "-vcodec"]

/-- The adjacent-pair scan inside `needs_hw_replace`: some argument is an
encoder flag directly followed by `libx264`/`libx265`. -/
def hasEncPair : List String → Bool
  | a :: b :: rest =>
    (decide (a ∈ encFlags) && (b == "libx264" || b == "libx265")) ||
      hasEncPair (b :: rest)
  | _ => false

/-- `needs_hw_replace`. -/
def needsHwReplace (hw : String) (raw : List String) : Bool :=
  hw != "none" && hasEncPair raw

/-- One iteration of the `_filter_standard_args` loop body, on the current
raw argument, the raw previous argument (`raw_args[i-1]`) and the raw next
argument (`raw_args[i+1]`). Returns the emitted tokens and whether the next
argument is consumed (`skip_next`). -/
def stepB (st : Settings) (ms : List (String × String)) (hw hw_encoder : String)
    (needsHw beamMode beamStream : Bool) (uploaded : String)
    (prev : Option String) (arg0 : String) (next : Option String) :
    List String × Bool :=
  let arg := stripFilePrefix arg0
  if beamMode ∧ arg = "-i" ∧ next ≠ none then
    (["-i", if beamStream then "pipe:0" else uploaded], true)
  else if arg = "-vf" ∧ next ≠ none ∧ needsHw ∧ (convertVfToGpu (next.getD "") hw).isSome then
    (["-vf", (convertVfToGpu (next.getD "") hw).getD ""], true)
  else if needsHw ∧ arg ∈ encFlags ∧ (next.getD "" = "libx264" ∨ next.getD "" = "libx265") then
    (arg :: hw_encoder ::
      (if hw = "qsv" then
        (if st.qsv_low_power then ["-low_power", "1"] else []) ++ ["-async_depth", "1"]
      else if hw = "nvenc" then ["-tune", st.nvenc_tune]
      else []), true)
  else if hw ≠ "none" ∧ strStartsWith arg "-x264opts" then ([], true)
  else if needsHw ∧ (arg = "-maxrate" ∨ arg = "-bufsize") then ([], true)
  else if hw = "qsv" ∧ (arg = "-crf" ∨ arg = "-crf:0") then (["-global_quality"], false)
  else if hw = "vaapi" ∧ (arg = "-preset" ∨ arg = "-preset:0") then ([], true)
  else
    let arg := if (hw = "qsv" ∨ hw = "nvenc") ∧
        (prev = some "-preset" ∨ prev = some "-preset:0") ∧
        (arg = "ultrafast" ∨ arg = "superfast") then "veryfast" else arg
    let arg := if arg = "libfdk_aac" then "aac" else arg
    let arg := if arg = "vod" ∧ prev = some "-hls_playlist_type" then "event" else arg
    let arg := if beamMode then arg else applyPathMappings ms arg
    ([arg], false)

/-- The `for i, arg in enumerate(raw_args)` loop of `_filter_standard_args`,
with `skip_next` realised by consuming two list elements; `prev` carries
`raw_args[i-1]`. -/
def loopB (st : Settings) (ms : List (String × String)) (hw hw_encoder : String)
    (needsHw beamMode beamStream : Bool) (uploaded : String) :
    Option String → List String → List String
  | _, [] => []
  | prev, arg0 :: rest =>
    match stepB st ms hw hw_encoder needsHw beamMode beamStream uploaded prev arg0
        rest.head? with
    | (out, true) =>
      match rest with
      | v :: rest' =>
        out ++ loopB st ms hw hw_encoder needsHw beamMode beamStream uploaded (some v) rest'
      | [] => out
    | (out, false) =>
      out ++ loopB st ms hw hw_encoder needsHw beamMode beamStream uploaded (some arg0) rest

/-- `str.endswith`. -/
def strEndsWith (s p : String) : Bool := List.isPrefixOf p.data.reverse s.data.reverse

/-- `filtered_args[filtered_args.index(flag) + 1]`: the element directly
after the first occurrence of `flag` (`none` when the index is out of
range). -/
def valueAfterFlag (flag : String) : List String → Option String
  | [] => none
  | a :: rest => if a = flag then rest.head? else valueAfterFlag flag rest

/-- The hardware filter keywords of the injection stage. -/
def hwFilterKeywords : List String :=
  ["scale_qsv", "scale_cuda", "scale_vaapi", "hwupload", "hwupload_cuda"]

/-- The `has_sw_filter` scan: some `-vf`/`-filter_complex` whose following
value contains none of the hardware filter keywords. -/
def hasSwFilter : List String → Bool
  | [] => false
  | a :: rest =>
    if (a = "-vf" ∨ a = "-filter_complex") ∧ rest ≠ [] then
      if !(hwFilterKeywords.any (fun k => containsSub (rest.headD "") k)) then true
      else hasSwFilter rest
    else hasSwFilter rest

/-- `filtered_args[idx:idx] = hwaccel_args` before the first `-i`. -/
def insertBeforeFirstI (ins : List String) : List String → List String
  | [] => []
  | a :: rest => if a = "-i" then ins ++ a :: rest else a :: insertBeforeFirstI ins rest

/-- The `hwaccel_args` of the injection stage of `_filter_standard_args`. -/
def hwArgsB (st : Settings) (hw : String) : List String :=
  if hw = "qsv" then
    ["-hwaccel", "qsv"] ++
      (if truthy st.qsv_device then ["-qsv_device", st.qsv_device.getD ""] else []) ++
      ["-hwaccel_output_format", "qsv", "-extra_hw_frames", "8"]
  else if hw = "nvenc" then ["-hwaccel", "cuda", "-hwaccel_output_format", "cuda"]
  else if hw = "vaapi" then ["-hwaccel", "vaapi", "-vaapi_device", vaapiDevice st]
  else []

/-- The hardware-acceleration injection stage: when HW replacement is on
and no software filter survives, insert the accelerator's init args before
the first `-i`. -/
def injectStage (st : Settings) (hw : String) (needsHw : Bool) (fa : List String) :
    List String :=
  if needsHw then
    if !(hasSwFilter fa) then
      let hwargs := hwArgsB st hw
      if hwargs ≠ [] then insertBeforeFirstI hwargs fa else fa
    else fa
  else fa

/-- The beam-mode output-redirect stage: an absolute last argument (POSIX:
leading `/`) or a bare `dash`/`hls` placeholder is rewritten into the
worker's temp tree. -/
def beamRedirect (st : Settings) (jid : String) (fa : List String) : List String :=
  match fa.getLast? with
  | none => fa
  | some last =>
    if strStartsWith last "/" ∨ last = "dash" ∨ last = "hls" then
      let name0 := baseName last
      let name := if name0 = "dash" then "output.mpd"
        else if name0 = "hls" then "output.m3u8" else name0
      fa.dropLast ++ [st.temp_dir ++ "/" ++ jid ++ "/" ++ name]
    else fa

/-- `_filter_standard_args`. `uploadedExists` is the ghost truth of
`uploaded_input.exists()`. The two `none` results model uncaught
exceptions: building `beam_output_dir` from a missing `job_id` in beam
streaming, and the `list.index` arithmetic of the DASH detection running
past the end of the vector. -/
def filterStandardArgs (st : Settings) (jobId : Option String)
    (beamStream uploadedExists : Bool) (raw : List String) : Option (List String) :=
  let hw := st.hw_accel
  let hw_encoder := st.get_video_encoder
  let ms := st.get_path_mappings
  let beamMode := beamStream || (jobId.isSome && uploadedExists)
  if beamMode ∧ jobId = none then none
  else
    let uploaded := st.temp_dir ++ "/" ++ jobId.getD "" ++ "/input"
    let needsHw := needsHwReplace hw raw
    let fa := loopB st ms hw hw_encoder needsHw beamMode beamStream uploaded none raw
    let fa := if beamMode ∧ fa ≠ [] then beamRedirect st (jobId.getD "") fa else fa
    if beamMode ∧ fa ≠ [] then
      match (if "-f" ∈ fa then
          (valueAfterFlag "-f" fa).map
            (fun v => strEndsWith (fa.getLast?.getD "") ".mpd" || v == "dash")
        else some (strEndsWith (fa.getLast?.getD "") ".mpd")) with
      | none => none
      | some isDash =>
        let fa := if isDash then fa.dropLast ++ ["-seg_duration", "1", fa.getLast?.getD ""]
          else fa
        some (injectStage st hw needsHw fa)
    else some (injectStage st hw needsHw fa)

/-! ### C5 vocabulary: encoder directives and clean tokens. -/

/-- The video encoder names the worker can designate: the two software
encoders it replaces and the three hardware H.264 encoders it replaces them
with. -/
def encNames : List String := ["libx264", "libx265", "h264_qsv", "h264_nvenc", "h264_vaapi"]

/-- A token that is none of the artifacts C5 constrains: not an encoder
name, not `-hwaccel`, not an `-x264opts…` flag, not `libfdk_aac`. -/
def cleanOutTok (x : String) : Bool :=
  decide (x ∉ encNames) && (x != "-hwaccel") && !(strStartsWith x "-x264opts") &&
    (x != "libfdk_aac")

/-- A free-form token of a dialect-B vector: routine flags and values that
trigger none of the rewriter's consuming branches and carry none of the
constrained artifacts. -/
def cleanTokB (x : String) : Bool :=
  decide (x ∉ encNames) && !(strStartsWith x "-x264opts") && (x != "-hwaccel") &&
    !(strStartsWith x "file:") && (x != "-i") && (x != "-vf") &&
    decide (x ∉ encFlags) && (x != "-maxrate") && (x != "-bufsize") &&
    (x != "-preset") && (x != "-preset:0")

theorem strStartsWith_head {a p : String} {c : Char} (h : strStartsWith a p = true)
    (hc : p.data.head? = some c) : a.data.head? = some c := by
  unfold strStartsWith at h
  have hpre : p.data <+: a.data := by
    simpa [List.isPrefixOf_iff_prefix ] using h
  obtain ⟨t, ht⟩ := hpre
  rcases hp : p.data with _ | ⟨c0, cs⟩
  · rw [hp] at hc
    exact absurd hc (by simp)
  · rw [hp] at ht hc
    rw [← ht]
    simpa using hc

theorem head_append (a b : String) {c : Char} (h : a.data.head? = some c) :
    (a ++ b).data.head? = some c := by
  rw [String.data_append]
  rcases ha : a.data with _ | ⟨c0, cs⟩
  · rw [ha] at h
    exact absurd h (by simp)
  · rw [ha] at h
    simpa using h

theorem cleanOutTok_of_head (x : String) (c : Char) (hc : x.data.head? = some c)
    (h1 : c ≠ 'l') (h2 : c ≠ 'h') (h3 : c ≠ '-') : cleanOutTok x = true := by
  have hne : ∀ y : String, y.data.head? = some 'l' ∨ y.data.head? = some 'h' ∨
      y.data.head? = some '-' → x ≠ y := by
    intro y hy he
    subst he
    rcases hy with hy | hy | hy
    · rw [hc] at hy; exact h1 (by simpa using hy)
    · rw [hc] at hy; exact h2 (by simpa using hy)
    · rw [hc] at hy; exact h3 (by simpa using hy)
  have hsw : strStartsWith x "-x264opts" = false := by
    by_contra hx
    rw [Bool.not_eq_false] at hx
    have := strStartsWith_head hx (show ("-x264opts").data.head? = some '-' from rfl)
    rw [hc] at this
    exact h3 (by simpa using this)
  have hmem : x ∉ encNames := by
    intro hm
    simp only [encNames, List.mem_cons, List.not_mem_nil, or_false] at hm
    rcases hm with hm | hm | hm | hm | hm
    · exact hne "libx264" (Or.inl (by decide)) hm
    · exact hne "libx265" (Or.inl (by decide)) hm
    · exact hne "h264_qsv" (Or.inr (Or.inl (by decide))) hm
    · exact hne "h264_nvenc" (Or.inr (Or.inl (by decide))) hm
    · exact hne "h264_vaapi" (Or.inr (Or.inl (by decide))) hm
  simp only [cleanOutTok, Bool.and_eq_true, decide_eq_true_eq, bne_iff_ne, ne_eq,
    Bool.not_eq_true']
  exact ⟨⟨⟨hmem, hne "-hwaccel" (Or.inr (Or.inr (by decide)))⟩, hsw⟩,
    hne "libfdk_aac" (Or.inl (by decide))⟩

theorem append_ne_str (pre t : String) (n : Nat) (hn1 : n ≤ pre.data.length)
    (hn2 : n ≤ t.data.length) (hne : pre.data.take n ≠ t.data.take n) (s : String) :
    pre ++ s ≠ t := by
  intro he
  apply hne
  have hd : pre.data ++ s.data = t.data := by
    rw [← String.data_append, he]
  have := congrArg (List.take n) hd
  rwa [List.take_append_of_le_length hn1] at this

theorem not_startsWith_append (pre q : String) (n : Nat) (hn1 : n ≤ pre.data.length)
    (hn2 : n ≤ q.data.length) (hne : pre.data.take n ≠ q.data.take n) (s : String) :
    strStartsWith (pre ++ s) q = false := by
  by_contra hx
  rw [Bool.not_eq_false] at hx
  unfold strStartsWith at hx
  have hpre : q.data <+: (pre ++ s).data := by
    simpa [List.isPrefixOf_iff_prefix ] using hx
  obtain ⟨t, ht⟩ := hpre
  rw [String.data_append] at ht
  apply hne
  have := congrArg (List.take n) ht
  rw [List.take_append_of_le_length hn2, List.take_append_of_le_length hn1] at this
  exact this.symm

theorem cleanOutTok_dashPre (pre : String)
    (hpre : pre = "-codec:" ∨ pre = "-b:" ∨ pre = "-copypriorss:") (s : String) :
    cleanOutTok (pre ++ s) = true := by
  have hmem : (pre ++ s) ∉ encNames := by
    intro hm
    simp only [encNames, List.mem_cons, List.not_mem_nil, or_false] at hm
    rcases hpre with rfl | rfl | rfl <;>
      rcases hm with hm | hm | hm | hm | hm <;>
      exact append_ne_str _ _ 1 (by decide) (by decide) (by decide) _ hm
  have hhw : (pre ++ s) ≠ "-hwaccel" := by
    rcases hpre with rfl | rfl | rfl <;>
      exact append_ne_str _ _ 3 (by decide) (by decide) (by decide) _
  have hsw : strStartsWith (pre ++ s) "-x264opts" = false := by
    rcases hpre with rfl | rfl | rfl <;>
      exact not_startsWith_append _ _ 3 (by decide) (by decide) (by decide) _
  have hfdk : (pre ++ s) ≠ "libfdk_aac" := by
    rcases hpre with rfl | rfl | rfl <;>
      exact append_ne_str _ _ 1 (by decide) (by decide) (by decide) _
  simp only [cleanOutTok, Bool.and_eq_true, decide_eq_true_eq, bne_iff_ne, ne_eq,
    Bool.not_eq_true']
  exact ⟨⟨⟨hmem, hhw⟩, hsw⟩, hfdk⟩

theorem all_clean_counts {l : List String} (h : ∀ x ∈ l, cleanOutTok x = true) :
    l.countP (fun x => decide (x ∈ encNames)) = 0 ∧
    l.countP (fun x => x == "-hwaccel") = 0 ∧
    (∀ x ∈ l, strStartsWith x "-x264opts" = false) ∧ "libfdk_aac" ∉ l := by
  have hc : ∀ x ∈ l, x ∉ encNames ∧ x ≠ "-hwaccel" ∧
      strStartsWith x "-x264opts" = false ∧ x ≠ "libfdk_aac" := by
    intro x hx
    have := h x hx
    simpa [cleanOutTok, Bool.and_eq_true, and_assoc] using this
  refine ⟨List.countP_eq_zero.mpr ?_, List.countP_eq_zero.mpr ?_, ?_, ?_⟩
  · intro x hx
    simpa using (hc x hx).1
  · intro x hx
    simpa using (hc x hx).2.1
  · intro x hx
    exact (hc x hx).2.2.1
  · intro hm
    exact (hc _ hm).2.2.2 rfl

/-- The unit grammar of dialect-B HW-replace inputs: an input vector is a
concatenation of input units, encoder units, `-vf` units, wholesale-stripped
pairs, routine flag/value pairs and routine single tokens. -/
inductive BUnit where
  | io (path : String)
  | enc (flag val : String)
  | vf (val : String)
  | strip2 (flag val : String)
  | pair (flag val : String)
  | single (tok : String)
deriving DecidableEq

/-- The raw tokens a unit contributes to the argument vector. -/
def unitToks : BUnit → List String
  | .io p => ["-i", p]
  | .enc f v => [f, v]
  | .vf v => ["-vf", v]
  | .strip2 f v => [f, v]
  | .pair f v => [f, v]
  | .single t => [t]

def isEncUnit : BUnit → Bool
  | .enc _ _ => true
  | _ => false

/-- Validity of a unit: the encoder unit designates `libx264`/`libx265`
behind an encoder flag; stripped pairs are `-x264opts…`, `-maxrate`,
`-bufsize` or (under VAAPI) `-preset`; all free-form strings are clean. -/
def unitOkB (hw : String) : BUnit → Bool
  | .io p => cleanTokB p
  | .enc f v => decide (f ∈ encFlags) && (v == "libx264" || v == "libx265")
  | .vf v => cleanTokB v
  | .strip2 f v =>
    (strStartsWith f "-x264opts" || f == "-maxrate" || f == "-bufsize" ||
      ((hw == "vaapi") && (f == "-preset" || f == "-preset:0"))) && cleanTokB v
  | .pair f v => cleanTokB f && cleanTokB v
  | .single t => cleanTokB t

theorem stripFilePrefix_id {a : String} (h : strStartsWith a "file:" = false) :
    stripFilePrefix a = a := by
  unfold stripFilePrefix
  have h2 : ¬ (strStartsWith a "file:\x22" = true ∧ a.data.getLast? = some '\x22') := by
    rintro ⟨h1, -⟩
    have hq : ("file:\x22").data <+: a.data := by
      simpa [strStartsWith, List.isPrefixOf_iff_prefix ] using h1
    have hp : ("file:").data <+: ("file:\x22").data := ⟨['\x22'], rfl⟩
    have : strStartsWith a "file:" = true := by
      simpa [strStartsWith, List.isPrefixOf_iff_prefix ] using hp.trans hq
    rw [h] at this
    exact Bool.false_ne_true this
  have h5 : ¬ (strStartsWith a "file:" = true) := by
    rw [h]
    exact Bool.false_ne_true
  rw [if_neg h2, if_neg h5]

theorem cleanTokB_spec {x : String} (h : cleanTokB x = true) :
    x ∉ encNames ∧ strStartsWith x "-x264opts" = false ∧ x ≠ "-hwaccel" ∧
    strStartsWith x "file:" = false ∧ x ≠ "-i" ∧ x ≠ "-vf" ∧ x ∉ encFlags ∧
    x ≠ "-maxrate" ∧ x ≠ "-bufsize" ∧ x ≠ "-preset" ∧ x ≠ "-preset:0" := by
  simp only [cleanTokB, Bool.and_eq_true, decide_eq_true_eq, bne_iff_ne, ne_eq,
    Bool.not_eq_true'] at h
  obtain ⟨⟨⟨⟨⟨⟨⟨⟨⟨⟨h1, h2⟩, h3⟩, h4⟩, h5⟩, h6⟩, h7⟩, h8⟩, h9⟩, h10⟩, h11⟩ := h
  exact ⟨h1, h2, h3, h4, h5, h6, h7, h8, h9, h10, h11⟩

/-- A clean token passes the loop as a single (possibly substituted) clean
token. -/
theorem stepB_single (st : Settings) (hw hwe upl : String)
    (prev next : Option String) (t : String) (ht : cleanTokB t = true) :
    ∃ x, stepB st [] hw hwe true false false upl prev t next = ([x], false) ∧
      cleanOutTok x = true := by
  obtain ⟨henc, hx264, hhw, hfile, hi, hvf, hef, hmr, hbs, hp1, hp2⟩ := cleanTokB_spec ht
  simp only [stepB]
  rw [stripFilePrefix_id hfile]
  rw [if_neg (fun h => Bool.false_ne_true h.1)]
  rw [if_neg (fun h => hvf h.1)]
  rw [if_neg (fun h => hef h.2.1)]
  rw [if_neg (fun h => by rw [hx264] at h; exact Bool.false_ne_true h.2)]
  rw [if_neg (fun h => h.2.elim hmr hbs)]
  by_cases hcrf : hw = "qsv" ∧ (t = "-crf" ∨ t = "-crf:0")
  · rw [if_pos hcrf]
    exact ⟨"-global_quality", rfl, by decide⟩
  · rw [if_neg hcrf]
    rw [if_neg (fun h => h.2.elim hp1 hp2)]
    by_cases hrm : (hw = "qsv" ∨ hw = "nvenc") ∧
        (prev = some "-preset" ∨ prev = some "-preset:0") ∧
        (t = "ultrafast" ∨ t = "superfast")
    · rw [if_pos hrm, if_neg (by decide), if_neg (by simp)]
      exact ⟨"veryfast", by simp [applyPathMappings], by decide⟩
    · rw [if_neg hrm]
      by_cases hfd : t = "libfdk_aac"
      · rw [if_pos hfd, if_neg (by simp)]
        exact ⟨"aac", by simp [applyPathMappings], by decide⟩
      · rw [if_neg hfd]
        by_cases hvod : t = "vod" ∧ prev = some "-hls_playlist_type"
        · rw [if_pos hvod]
          exact ⟨"event", by simp [applyPathMappings], by decide⟩
        · rw [if_neg hvod]
          refine ⟨t, by simp [applyPathMappings], ?_⟩
          simp only [cleanOutTok, Bool.and_eq_true, decide_eq_true_eq, bne_iff_ne, ne_eq,
            Bool.not_eq_true']
          exact ⟨⟨⟨henc, hhw⟩, hx264⟩, hfd⟩

/-- The `-i` flag itself passes through untouched (non-beam mode). -/
theorem stepB_dashI (st : Settings) (hw hwe upl : String) (prev next : Option String) :
    stepB st [] hw hwe true false false upl prev "-i" next = (["-i"], false) := by
  simp +decide [stepB, applyPathMappings]

/-- A convertible `-vf` pair becomes the GPU filter string. -/
theorem stepB_vf_some (st : Settings) (hw hwe upl : String) (prev : Option String)
    (v g : String) (hg : convertVfToGpu v hw = some g) :
    stepB st [] hw hwe true false false upl prev "-vf" (some v) = (["-vf", g], true) := by
  simp only [stepB]
  rw [show stripFilePrefix "-vf" = "-vf" from by decide]
  have hcnd : ("-vf" : String) = "-vf" ∧ some v ≠ none ∧ True ∧
      (convertVfToGpu ((some v).getD "") hw).isSome = true :=
    ⟨rfl, by simp, trivial, by simp [hg]⟩
  rw [if_pos hcnd]
  simp [hg]

/-- An inconvertible `-vf` flag falls through and is emitted as-is. -/
theorem stepB_vf_none (st : Settings) (hw hwe upl : String) (prev : Option String)
    (next : Option String) (hg : (convertVfToGpu (next.getD "") hw).isSome = false) :
    stepB st [] hw hwe true false false upl prev "-vf" next = (["-vf"], false) := by
  simp only [stepB]
  rw [show stripFilePrefix "-vf" = "-vf" from by decide]
  rw [if_neg (fun h => Bool.false_ne_true h.1)]
  rw [if_neg (fun h => by rw [hg] at h; exact Bool.false_ne_true h.2.2.2)]
  simp +decide [applyPathMappings]

theorem stepB_enc_core (st : Settings) (hw hwe upl : String) (prev : Option String)
    (f v : String) (hsf : stripFilePrefix f = f) (hvf : f ≠ "-vf")
    (hf : f ∈ encFlags) (hv : v = "libx264" ∨ v = "libx265") :
    stepB st [] hw hwe true false false upl prev f (some v) =
      (f :: hwe :: (if hw = "qsv" then
          (if st.qsv_low_power then ["-low_power", "1"] else []) ++ ["-async_depth", "1"]
        else if hw = "nvenc" then ["-tune", st.nvenc_tune] else []), true) := by
  simp only [stepB]
  rw [hsf]
  rw [if_neg (fun h => Bool.false_ne_true h.1)]
  rw [if_neg (fun h => hvf h.1)]
  have hcnd : True ∧ f ∈ encFlags ∧
      ((some v).getD "" = "libx264" ∨ (some v).getD "" = "libx265") :=
    ⟨trivial, hf, by simpa using hv⟩
  rw [if_pos hcnd]

/-- The encoder unit is rewritten to the hardware encoder plus its
accelerator-specific speed flags. -/
theorem stepB_enc (st : Settings) (hw hwe upl : String) (prev : Option String)
    (f v : String) (hf : f ∈ encFlags) (hv : v = "libx264" ∨ v = "libx265") :
    stepB st [] hw hwe true false false upl prev f (some v) =
      (f :: hwe :: (if hw = "qsv" then
          (if st.qsv_low_power then ["-low_power", "1"] else []) ++ ["-async_depth", "1"]
        else if hw = "nvenc" then ["-tune", st.nvenc_tune] else []), true) := by
  have hf' := hf
  simp only [encFlags, List.mem_cons, List.not_mem_nil, or_false] at hf'
  have hsf : stripFilePrefix f = f := by
    rcases hf' with rfl | rfl | rfl | rfl | rfl <;> decide
  have hvf : f ≠ "-vf" := by
    rcases hf' with rfl | rfl | rfl | rfl | rfl <;> decide
  exact stepB_enc_core st hw hwe upl prev f v hsf hvf hf hv

/-- Stripped pairs vanish: `-x264opts…`, `-maxrate`, `-bufsize`, and
`-preset` under VAAPI, each with their value. -/
theorem stepB_strip2 (st : Settings) (hw hwe upl : String) (prev : Option String)
    (f : String) (next : Option String)
    (hcase : strStartsWith f "-x264opts" = true ∨ f = "-maxrate" ∨ f = "-bufsize" ∨
      (hw = "vaapi" ∧ (f = "-preset" ∨ f = "-preset:0")))
    (hhw3 : hw = "qsv" ∨ hw = "nvenc" ∨ hw = "vaapi") :
    stepB st [] hw hwe true false false upl prev f next = ([], true) := by
  have hwn : hw ≠ "none" := by
    rcases hhw3 with rfl | rfl | rfl <;> decide
  rcases hcase with hx | rfl | rfl | ⟨rfl, hp⟩
  · have hsf : stripFilePrefix f = f := by
      apply stripFilePrefix_id
      by_contra hc
      rw [Bool.not_eq_false] at hc
      have h1 := strStartsWith_head hx (show ("-x264opts").data.head? = some '-' from rfl)
      have h2 := strStartsWith_head hc (show ("file:").data.head? = some 'f' from rfl)
      rw [h1] at h2
      have h3 : ('-' : Char) = 'f' := by simpa using h2
      exact absurd h3 (by decide)
    have hef : f ∉ encFlags := by
      intro hm
      simp only [encFlags, List.mem_cons, List.not_mem_nil, or_false] at hm
      rcases hm with rfl | rfl | rfl | rfl | rfl <;> exact absurd hx (by decide)
    have hvf : f ≠ "-vf" := fun he => by rw [he] at hx; exact absurd hx (by decide)
    simp only [stepB]
    rw [hsf]
    rw [if_neg (fun h => Bool.false_ne_true h.1)]
    rw [if_neg (fun h => hvf h.1)]
    rw [if_neg (fun h => hef h.2.1)]
    rw [if_pos ⟨hwn, hx⟩]
  · simp +decide [stepB]
  · simp +decide [stepB]
  · rcases hp with rfl | rfl <;> simp +decide [stepB]

theorem loopB_cons_one (st : Settings) (ms : List (String × String)) (hw hwe : String)
    (n bm bs : Bool) (upl : String) (prev : Option String) (t : String)
    (rest : List String) (x : String)
    (hstep : stepB st ms hw hwe n bm bs upl prev t rest.head? = ([x], false)) :
    loopB st ms hw hwe n bm bs upl prev (t :: rest) =
      x :: loopB st ms hw hwe n bm bs upl (some t) rest := by
  simp only [loopB]
  rw [hstep]
  rfl

theorem loopB_cons_two (st : Settings) (ms : List (String × String)) (hw hwe : String)
    (n bm bs : Bool) (upl : String) (prev : Option String) (t v : String)
    (rest : List String) (out : List String)
    (hstep : stepB st ms hw hwe n bm bs upl prev t (some v) = (out, true)) :
    loopB st ms hw hwe n bm bs upl prev (t :: v :: rest) =
      out ++ loopB st ms hw hwe n bm bs upl (some v) rest := by
  simp only [loopB, List.head?_cons]
  rw [hstep]

theorem cleanOutTok_spec {x : String} (h : cleanOutTok x = true) :
    x ∉ encNames ∧ x ≠ "-hwaccel" ∧ strStartsWith x "-x264opts" = false ∧
    x ≠ "libfdk_aac" := by
  simpa [cleanOutTok, Bool.and_eq_true, and_assoc] using h

theorem encFlag_clean {f : String} (hf : f ∈ encFlags) : cleanOutTok f = true := by
  simp only [encFlags, List.mem_cons, List.not_mem_nil, or_false] at hf
  rcases hf with rfl | rfl | rfl | rfl | rfl <;> decide

theorem encName_clean3 {e : String} (he : e ∈ encNames) :
    e ≠ "-hwaccel" ∧ strStartsWith e "-x264opts" = false ∧ e ≠ "libfdk_aac" := by
  simp only [encNames, List.mem_cons, List.not_mem_nil, or_false] at he
  rcases he with rfl | rfl | rfl | rfl | rfl <;> exact ⟨by decide, by decide, by decide⟩

/-- Every successful `_convert_vf_to_gpu` output begins with `scale…`, so
it is none of the constrained artifacts. -/
theorem convertVf_clean (vf hw g : String) (hg : convertVfToGpu vf hw = some g) :
    cleanOutTok g = true := by
  unfold convertVfToGpu at hg
  split at hg
  · exact absurd hg (by simp)
  · split at hg
    · exact absurd hg (by simp)
    · exact absurd hg (by simp)
    · dsimp only at hg
      split at hg
      · obtain rfl := Option.some.inj hg
        apply cleanOutTok_of_head _ 's'
        · exact head_append _ _ (head_append _ _ (head_append _ _ (head_append _ _
            (by decide))))
        · decide
        · decide
        · decide
      · split at hg
        · obtain rfl := Option.some.inj hg
          apply cleanOutTok_of_head _ 's'
          · exact head_append _ _ (head_append _ _ (head_append _ _ (head_append _ _
              (by decide))))
          · decide
          · decide
          · decide
        · split at hg
          · obtain rfl := Option.some.inj hg
            apply cleanOutTok_of_head _ 's'
            · exact head_append _ _ (head_append _ _ (head_append _ _ (head_append _ _
                (by decide))))
            · decide
            · decide
            · decide
          · exact absurd hg (by simp)

/-- The accelerator-specific speed flags injected next to the hardware
encoder are clean. -/
theorem speed_clean (st : Settings) (hw : String)
    (htune : cleanOutTok st.nvenc_tune = true) :
    ∀ x ∈ (if hw = "qsv" then
        (if st.qsv_low_power then ["-low_power", "1"] else []) ++ ["-async_depth", "1"]
      else if hw = "nvenc" then ["-tune", st.nvenc_tune] else []),
      cleanOutTok x = true := by
  intro x hx
  split at hx
  · split at hx
    · simp only [List.mem_append, List.mem_cons, List.not_mem_nil, or_false] at hx
      rcases hx with (rfl | rfl) | (rfl | rfl) <;> decide
    · simp only [List.nil_append, List.mem_cons, List.not_mem_nil, or_false] at hx
      rcases hx with rfl | rfl <;> decide
  · split at hx
    · simp only [List.mem_cons, List.not_mem_nil, or_false] at hx
      rcases hx with rfl | rfl
      · decide
      · exact htune
    · exact absurd hx (List.not_mem_nil x)

theorem c5_combine (outU tail : List String) (k m : Nat)
    (h1 : outU.countP (fun x => decide (x ∈ encNames)) = k)
    (h2 : outU.countP (fun x => x == "-hwaccel") = 0)
    (h3 : ∀ x ∈ outU, strStartsWith x "-x264opts" = false)
    (h4 : "libfdk_aac" ∉ outU)
    (t1 : tail.countP (fun x => decide (x ∈ encNames)) = m)
    (t2 : tail.countP (fun x => x == "-hwaccel") = 0)
    (t3 : ∀ x ∈ tail, strStartsWith x "-x264opts" = false)
    (t4 : "libfdk_aac" ∉ tail) :
    (outU ++ tail).countP (fun x => decide (x ∈ encNames)) = k + m ∧
    (outU ++ tail).countP (fun x => x == "-hwaccel") = 0 ∧
    (∀ x ∈ outU ++ tail, strStartsWith x "-x264opts" = false) ∧
    "libfdk_aac" ∉ outU ++ tail := by
  refine ⟨?_, ?_, ?_, ?_⟩
  · rw [List.countP_append, h1, t1]
  · rw [List.countP_append, h2, t2]
  · intro x hx
    rcases List.mem_append.mp hx with h | h
    exacts [h3 x h, t3 x h]
  · intro hm
    rcases List.mem_append.mp hm with h | h
    exacts [h4 h, t4 h]

/-- The core of the dialect-B half of C5: over any vector assembled from
valid units, the loop's output has as many encoder names as there are
encoder units, no `-hwaccel`, no `-x264opts…`, and no `libfdk_aac`. -/
theorem loopB_units (st : Settings) (hw hwe upl : String)
    (hhw3 : hw = "qsv" ∨ hw = "nvenc" ∨ hw = "vaapi")
    (htune : cleanOutTok st.nvenc_tune = true) (hwe_enc : hwe ∈ encNames) :
    ∀ (units : List BUnit) (prev : Option String),
    (∀ u ∈ units, unitOkB hw u = true) →
    (loopB st [] hw hwe true false false upl prev (units.flatMap unitToks)).countP
        (fun x => decide (x ∈ encNames)) = units.countP isEncUnit ∧
    (loopB st [] hw hwe true false false upl prev (units.flatMap unitToks)).countP
        (fun x => x == "-hwaccel") = 0 ∧
    (∀ x ∈ loopB st [] hw hwe true false false upl prev (units.flatMap unitToks),
      strStartsWith x "-x264opts" = false) ∧
    "libfdk_aac" ∉ loopB st [] hw hwe true false false upl prev
      (units.flatMap unitToks) := by
  intro units
  induction units with
  | nil =>
    intro prev _
    simp [loopB]
  | cons u rest ih =>
    intro prev hok
    have hu := hok u (List.mem_cons_self u rest)
    have hrest : ∀ x ∈ rest, unitOkB hw x = true :=
      fun x hx => hok x (List.mem_cons_of_mem u hx)
    rw [List.flatMap_cons]
    cases u with
    | single t =>
      have ht : cleanTokB t = true := by simpa [unitOkB] using hu
      obtain ⟨x, hstep, hcx⟩ := stepB_single st hw hwe upl prev
        ((rest.flatMap unitToks).head?) t ht
      simp only [unitToks, List.singleton_append]
      rw [loopB_cons_one st [] hw hwe true false false upl prev t
        (rest.flatMap unitToks) x hstep]
      obtain ⟨ih1, ih2, ih3, ih4⟩ := ih (some t) hrest
      obtain ⟨hx1, hx2, hx3, hx4⟩ := cleanOutTok_spec hcx
      have := c5_combine [x] _ 0 _ (by simp [hx1]) (by simp [hx2]) (by
          intro y hy
          simp only [List.mem_cons, List.not_mem_nil, or_false] at hy
          subst hy
          exact hx3) (by
          intro hm
          simp only [List.mem_cons, List.not_mem_nil, or_false] at hm
          exact hx4 hm.symm) ih1 ih2 ih3 ih4
      simpa [isEncUnit, List.countP_cons] using this
    | io p =>
      have hp : cleanTokB p = true := by simpa [unitOkB] using hu
      simp only [unitToks, List.cons_append, List.singleton_append, List.nil_append]
      rw [loopB_cons_one st [] hw hwe true false false upl prev "-i"
        (p :: rest.flatMap unitToks) "-i"
        (stepB_dashI st hw hwe upl prev ((p :: rest.flatMap unitToks).head?))]
      obtain ⟨x, hstep, hcx⟩ := stepB_single st hw hwe upl (some "-i")
        ((rest.flatMap unitToks).head?) p hp
      rw [loopB_cons_one st [] hw hwe true false false upl (some "-i") p
        (rest.flatMap unitToks) x hstep]
      obtain ⟨ih1, ih2, ih3, ih4⟩ := ih (some p) hrest
      obtain ⟨hx1, hx2, hx3, hx4⟩ := cleanOutTok_spec hcx
      have := c5_combine ["-i", x] _ 0 _ (by simp +decide [hx1]) (by simp +decide [hx2]) (by
          intro y hy
          simp only [List.mem_cons, List.not_mem_nil, or_false] at hy
          rcases hy with rfl | rfl
          · decide
          · exact hx3) (by
          intro hm
          simp only [List.mem_cons, List.not_mem_nil, or_false] at hm
          rcases hm with hm | hm
          · exact absurd hm.symm (by decide)
          · exact hx4 hm.symm) ih1 ih2 ih3 ih4
      simpa [isEncUnit, List.countP_cons] using this
    | enc f v =>
      have hu' : f ∈ encFlags ∧ (v = "libx264" ∨ v = "libx265") := by
        simpa [unitOkB, Bool.and_eq_true, Bool.or_eq_true] using hu
      obtain ⟨hf, hv⟩ := hu'
      simp only [unitToks, List.cons_append, List.singleton_append, List.nil_append]
      rw [loopB_cons_two st [] hw hwe true false false upl prev f v
        (rest.flatMap unitToks) _ (stepB_enc st hw hwe upl prev f v hf hv)]
      obtain ⟨ih1, ih2, ih3, ih4⟩ := ih (some v) hrest
      have hsp := speed_clean st hw htune
      obtain ⟨s1, s2, s3, s4⟩ := all_clean_counts hsp
      obtain ⟨f1, f2, f3, f4⟩ := cleanOutTok_spec (encFlag_clean hf)
      obtain ⟨e2, e3, e4⟩ := encName_clean3 hwe_enc
      have hcnt1 : (f :: hwe :: (if hw = "qsv" then
          (if st.qsv_low_power then ["-low_power", "1"] else []) ++ ["-async_depth", "1"]
        else if hw = "nvenc" then ["-tune", st.nvenc_tune] else [])).countP
          (fun x => decide (x ∈ encNames)) = 1 := by
        rw [List.countP_cons, List.countP_cons, s1]
        simp [f1, hwe_enc]
      have hcnt2 : (f :: hwe :: (if hw = "qsv" then
          (if st.qsv_low_power then ["-low_power", "1"] else []) ++ ["-async_depth", "1"]
        else if hw = "nvenc" then ["-tune", st.nvenc_tune] else [])).countP
          (fun x => x == "-hwaccel") = 0 := by
        rw [List.countP_cons, List.countP_cons, s2]
        simp [f2, e2]
      have hmem3 : ∀ x ∈ (f :: hwe :: (if hw = "qsv" then
          (if st.qsv_low_power then ["-low_power", "1"] else []) ++ ["-async_depth", "1"]
        else if hw = "nvenc" then ["-tune", st.nvenc_tune] else [])),
          strStartsWith x "-x264opts" = false := by
        intro x hx
        rcases List.mem_cons.mp hx with rfl | hx
        · exact f3
        · rcases List.mem_cons.mp hx with rfl | hx
          · exact e3
          · exact (cleanOutTok_spec (hsp x hx)).2.2.1
      have hmem4 : "libfdk_aac" ∉ (f :: hwe :: (if hw = "qsv" then
          (if st.qsv_low_power then ["-low_power", "1"] else []) ++ ["-async_depth", "1"]
        else if hw = "nvenc" then ["-tune", st.nvenc_tune] else [])) := by
        intro hm
        rcases List.mem_cons.mp hm with hm | hm
        · exact f4 hm.symm
        · rcases List.mem_cons.mp hm with hm | hm
          · exact e4 hm.symm
          · exact (cleanOutTok_spec (hsp _ hm)).2.2.2 rfl
      have := c5_combine _ _ _ _ hcnt1 hcnt2 hmem3 hmem4 ih1 ih2 ih3 ih4
      simpa [isEncUnit, List.countP_cons, Nat.add_comm] using this
    | strip2 f v =>
      have hu' : (strStartsWith f "-x264opts" = true ∨ f = "-maxrate" ∨ f = "-bufsize" ∨
          (hw = "vaapi" ∧ (f = "-preset" ∨ f = "-preset:0"))) ∧ cleanTokB v = true := by
        simpa [unitOkB, Bool.and_eq_true, Bool.or_eq_true, and_assoc, or_assoc] using hu
      obtain ⟨hcase, hv⟩ := hu'
      simp only [unitToks, List.cons_append, List.singleton_append, List.nil_append]
      rw [loopB_cons_two st [] hw hwe true false false upl prev f v
        (rest.flatMap unitToks) [] (stepB_strip2 st hw hwe upl prev f (some v) hcase hhw3)]
      rw [List.nil_append]
      obtain ⟨ih1, ih2, ih3, ih4⟩ := ih (some v) hrest
      refine ⟨?_, ih2, ih3, ih4⟩
      rw [List.countP_cons]
      simpa [isEncUnit] using ih1
    | vf v =>
      have hv : cleanTokB v = true := by simpa [unitOkB] using hu
      simp only [unitToks, List.cons_append, List.singleton_append, List.nil_append]
      by_cases hc : (convertVfToGpu v hw).isSome = true
      · obtain ⟨g, hg⟩ := Option.isSome_iff_exists.mp hc
        rw [loopB_cons_two st [] hw hwe true false false upl prev "-vf" v
          (rest.flatMap unitToks) _ (stepB_vf_some st hw hwe upl prev v g hg)]
        obtain ⟨ih1, ih2, ih3, ih4⟩ := ih (some v) hrest
        obtain ⟨g1, g2, g3, g4⟩ := cleanOutTok_spec (convertVf_clean v hw g hg)
        have := c5_combine ["-vf", g] _ 0 _ (by simp +decide [g1]) (by simp +decide [g2]) (by
            intro y hy
            simp only [List.mem_cons, List.not_mem_nil, or_false] at hy
            rcases hy with rfl | rfl
            · decide
            · exact g3) (by
            intro hm
            simp only [List.mem_cons, List.not_mem_nil, or_false] at hm
            rcases hm with hm | hm
            · exact absurd hm.symm (by decide)
            · exact g4 hm.symm) ih1 ih2 ih3 ih4
        simpa [isEncUnit, List.countP_cons] using this
      · have hc' : (convertVfToGpu ((some v).getD "") hw).isSome = false := by
          simpa using (Bool.not_eq_true _).mp hc
        have hstep0 : stepB st [] hw hwe true false false upl prev "-vf"
            ((v :: rest.flatMap unitToks).head?) = (["-vf"], false) := by
          rw [List.head?_cons]
          exact stepB_vf_none st hw hwe upl prev (some v) hc'
        rw [loopB_cons_one st [] hw hwe true false false upl prev "-vf"
          (v :: rest.flatMap unitToks) "-vf" hstep0]
        obtain ⟨x, hstep, hcx⟩ := stepB_single st hw hwe upl (some "-vf")
          ((rest.flatMap unitToks).head?) v hv
        rw [loopB_cons_one st [] hw hwe true false false upl (some "-vf") v
          (rest.flatMap unitToks) x hstep]
        obtain ⟨ih1, ih2, ih3, ih4⟩ := ih (some v) hrest
        obtain ⟨hx1, hx2, hx3, hx4⟩ := cleanOutTok_spec hcx
        have := c5_combine ["-vf", x] _ 0 _ (by simp +decide [hx1]) (by simp +decide [hx2]) (by
            intro y hy
            simp only [List.mem_cons, List.not_mem_nil, or_false] at hy
            rcases hy with rfl | rfl
            · decide
            · exact hx3) (by
            intro hm
            simp only [List.mem_cons, List.not_mem_nil, or_false] at hm
            rcases hm with hm | hm
            · exact absurd hm.symm (by decide)
            · exact hx4 hm.symm) ih1 ih2 ih3 ih4
        simpa [isEncUnit, List.countP_cons] using this
    | pair f v =>
      have hu' : cleanTokB f = true ∧ cleanTokB v = true := by
        simpa [unitOkB, Bool.and_eq_true] using hu
      obtain ⟨hf, hv⟩ := hu'
      simp only [unitToks, List.cons_append, List.singleton_append, List.nil_append]
      obtain ⟨x, hstepf, hcxf⟩ := stepB_single st hw hwe upl prev
        ((v :: rest.flatMap unitToks).head?) f hf
      rw [loopB_cons_one st [] hw hwe true false false upl prev f
        (v :: rest.flatMap unitToks) x hstepf]
      obtain ⟨y, hstepv, hcxv⟩ := stepB_single st hw hwe upl (some f)
        ((rest.flatMap unitToks).head?) v hv
      rw [loopB_cons_one st [] hw hwe true false false upl (some f) v
        (rest.flatMap unitToks) y hstepv]
      obtain ⟨ih1, ih2, ih3, ih4⟩ := ih (some v) hrest
      obtain ⟨x1, x2, x3, x4⟩ := cleanOutTok_spec hcxf
      obtain ⟨y1, y2, y3, y4⟩ := cleanOutTok_spec hcxv
      have := c5_combine [x, y] _ 0 _ (by simp [x1, y1]) (by simp [x2, y2]) (by
          intro z hz
          simp only [List.mem_cons, List.not_mem_nil, or_false] at hz
          rcases hz with rfl | rfl
          · exact x3
          · exact y3) (by
          intro hm
          simp only [List.mem_cons, List.not_mem_nil, or_false] at hm
          rcases hm with hm | hm
          · exact x4 hm.symm
          · exact y4 hm.symm) ih1 ih2 ih3 ih4
      simpa [isEncUnit, List.countP_cons] using this

theorem hasEncPair_cons (x : String) (l : List String) (h : hasEncPair l = true) :
    hasEncPair (x :: l) = true := by
  cases l with
  | nil => exact absurd h (by decide)
  | cons b rest =>
    show hasEncPair (x :: b :: rest) = true
    simp only [hasEncPair]
    rw [h, Bool.or_true]

theorem hasEncPair_append (pre l : List String) (h : hasEncPair l = true) :
    hasEncPair (pre ++ l) = true := by
  induction pre with
  | nil => simpa using h
  | cons a rest ih => exact hasEncPair_cons a _ ih

/-- A unit vector containing an encoder unit passes the `needs_hw_replace`
scan. -/
theorem units_hasEncPair (hw : String) :
    ∀ (units : List BUnit), 0 < units.countP isEncUnit →
    (∀ u ∈ units, unitOkB hw u = true) →
    hasEncPair (units.flatMap unitToks) = true := by
  intro units
  induction units with
  | nil => intro h _; simp at h
  | cons u rest ih =>
    intro hpos hok
    have hrest : ∀ x ∈ rest, unitOkB hw x = true :=
      fun x hx => hok x (List.mem_cons_of_mem u hx)
    rw [List.flatMap_cons]
    have hku := hok u (List.mem_cons_self u rest)
    by_cases hu : isEncUnit u = true
    · cases u with
      | enc f v =>
        have hu' : f ∈ encFlags ∧ (v = "libx264" ∨ v = "libx265") := by
          simpa [unitOkB, Bool.and_eq_true, Bool.or_eq_true] using hku
        simp only [unitToks, List.cons_append, List.singleton_append, hasEncPair]
        rcases hu'.2 with rfl | rfl <;>
          simp [hu'.1]
      | io p => exact absurd hu (by simp [isEncUnit])
      | vf v => exact absurd hu (by simp [isEncUnit])
      | strip2 f v => exact absurd hu (by simp [isEncUnit])
      | pair f v => exact absurd hu (by simp [isEncUnit])
      | single t => exact absurd hu (by simp [isEncUnit])
    · have hpos' : 0 < rest.countP isEncUnit := by
        rw [List.countP_cons] at hpos
        simpa [hu] using hpos
      exact hasEncPair_append _ _ (ih hpos' hrest)

theorem mem_insertBeforeFirstI (ins l : List String) (x : String)
    (h : x ∈ insertBeforeFirstI ins l) : x ∈ ins ∨ x ∈ l := by
  induction l with
  | nil => exact absurd h (by simp [insertBeforeFirstI])
  | cons a rest ih =>
    simp only [insertBeforeFirstI] at h
    split at h
    · rcases List.mem_append.mp h with h | h
      · exact Or.inl h
      · exact Or.inr h
    · rcases List.mem_cons.mp h with rfl | h
      · exact Or.inr (List.mem_cons_self x rest)
      · rcases ih h with h | h
        · exact Or.inl h
        · exact Or.inr (List.mem_cons_of_mem a h)

theorem countP_insertBeforeFirstI_le (p : String → Bool) (ins l : List String) :
    (insertBeforeFirstI ins l).countP p ≤ ins.countP p + l.countP p := by
  induction l with
  | nil => simp [insertBeforeFirstI]
  | cons a rest ih =>
    simp only [insertBeforeFirstI]
    split
    · rw [List.countP_append]
    · rw [List.countP_cons, List.countP_cons]
      omega

theorem countP_insertBeforeFirstI_ge (p : String → Bool) (ins l : List String) :
    l.countP p ≤ (insertBeforeFirstI ins l).countP p := by
  induction l with
  | nil => simp [insertBeforeFirstI]
  | cons a rest ih =>
    simp only [insertBeforeFirstI]
    split
    · rw [List.countP_append]
      omega
    · rw [List.countP_cons, List.countP_cons]
      omega

theorem vaapiDevice_clean (st : Settings)
    (hdev : ∀ d, st.qsv_device = some d → cleanOutTok d = true) :
    cleanOutTok (vaapiDevice st) = true := by
  unfold vaapiDevice
  rcases hd : st.qsv_device with _ | d
  · decide
  · by_cases htr : truthy (some d) = true
    · rw [if_pos htr]
      exact hdev d hd
    · rw [if_neg (by simpa using htr)]
      decide

theorem hwArgsB_facts (st : Settings) (hw : String)
    (hhw3 : hw = "qsv" ∨ hw = "nvenc" ∨ hw = "vaapi")
    (hdev : ∀ d, st.qsv_device = some d → cleanOutTok d = true) :
    (hwArgsB st hw).countP (fun x => decide (x ∈ encNames)) = 0 ∧
    (hwArgsB st hw).countP (fun x => x == "-hwaccel") ≤ 1 ∧
    (∀ x ∈ hwArgsB st hw, strStartsWith x "-x264opts" = false) ∧
    "libfdk_aac" ∉ hwArgsB st hw := by
  rcases hhw3 with rfl | rfl | rfl
  · rcases hd : st.qsv_device with _ | d
    · have he : hwArgsB st "qsv" =
          ["-hwaccel", "qsv", "-hwaccel_output_format", "qsv", "-extra_hw_frames", "8"] := by
        simp [hwArgsB, hd, truthy]
      rw [he]
      refine ⟨by decide, by decide, by decide, by decide⟩
    · obtain ⟨d1, d2, d3, d4⟩ := cleanOutTok_spec (hdev d hd)
      by_cases htr : truthy (some d) = true
      · have he : hwArgsB st "qsv" =
            ["-hwaccel", "qsv", "-qsv_device", d, "-hwaccel_output_format", "qsv",
              "-extra_hw_frames", "8"] := by
          simp [hwArgsB, hd, htr]
        rw [he]
        refine ⟨?_, ?_, ?_, ?_⟩
        · simp +decide [List.countP_cons, d1]
        · simp +decide [List.countP_cons, d2]
        · intro x hx
          simp only [List.mem_cons, List.not_mem_nil, or_false] at hx
          rcases hx with rfl | rfl | rfl | rfl | rfl | rfl | rfl | rfl <;>
            first
            | decide
            | exact d3
        · intro hm
          simp only [List.mem_cons, List.not_mem_nil, or_false] at hm
          rcases hm with hm | hm | hm | hm | hm | hm | hm | hm <;>
            first
            | exact absurd hm.symm (by decide)
            | exact d4 hm.symm
      · have he : hwArgsB st "qsv" =
            ["-hwaccel", "qsv", "-hwaccel_output_format", "qsv", "-extra_hw_frames", "8"] := by
          simp [hwArgsB, hd, htr]
        rw [he]
        refine ⟨by decide, by decide, by decide, by decide⟩
  · have he : hwArgsB st "nvenc" = ["-hwaccel", "cuda", "-hwaccel_output_format", "cuda"] := by
      simp [hwArgsB]
    rw [he]
    refine ⟨by decide, by decide, by decide, by decide⟩
  · have he : hwArgsB st "vaapi" = ["-hwaccel", "vaapi", "-vaapi_device", vaapiDevice st] := by
      simp [hwArgsB]
    rw [he]
    obtain ⟨v1, v2, v3, v4⟩ := cleanOutTok_spec (vaapiDevice_clean st hdev)
    refine ⟨?_, ?_, ?_, ?_⟩
    · simp +decide [List.countP_cons, v1]
    · simp +decide [List.countP_cons, v2]
    · intro x hx
      simp only [List.mem_cons, List.not_mem_nil, or_false] at hx
      rcases hx with rfl | rfl | rfl | hx
      · decide
      · decide
      · decide
      · rw [hx]
        exact v3
    · intro hm
      simp only [List.mem_cons, List.not_mem_nil, or_false] at hm
      rcases hm with hm | hm | hm | hm
      · exact absurd hm.symm (by decide)
      · exact absurd hm.symm (by decide)
      · exact absurd hm.symm (by decide)
      · exact v4 hm.symm

/-- The injection stage preserves the C5 bundle, adding at most one
`-hwaccel`. -/
theorem injectStage_facts (st : Settings) (hw : String) (needsHw : Bool)
    (hhw3 : hw = "qsv" ∨ hw = "nvenc" ∨ hw = "vaapi")
    (hdev : ∀ d, st.qsv_device = some d → cleanOutTok d = true) (fa : List String)
    (h1 : fa.countP (fun x => decide (x ∈ encNames)) = 1)
    (h2 : fa.countP (fun x => x == "-hwaccel") = 0)
    (h3 : ∀ x ∈ fa, strStartsWith x "-x264opts" = false)
    (h4 : "libfdk_aac" ∉ fa) :
    (injectStage st hw needsHw fa).countP (fun x => decide (x ∈ encNames)) = 1 ∧
    (injectStage st hw needsHw fa).countP (fun x => x == "-hwaccel") ≤ 1 ∧
    (∀ x ∈ injectStage st hw needsHw fa, strStartsWith x "-x264opts" = false) ∧
    "libfdk_aac" ∉ injectStage st hw needsHw fa := by
  obtain ⟨a1, a2, a3, a4⟩ := hwArgsB_facts st hw hhw3 hdev
  unfold injectStage
  dsimp only
  split
  · split
    · split
      · refine ⟨?_, ?_, ?_, ?_⟩
        · have hle := countP_insertBeforeFirstI_le
            (fun x => decide (x ∈ encNames)) (hwArgsB st hw) fa
          have hge := countP_insertBeforeFirstI_ge
            (fun x => decide (x ∈ encNames)) (hwArgsB st hw) fa
          omega
        · have hle := countP_insertBeforeFirstI_le
            (fun x => x == "-hwaccel") (hwArgsB st hw) fa
          omega
        · intro x hx
          rcases mem_insertBeforeFirstI _ _ _ hx with h | h
          exacts [a3 x h, h3 x h]
        · intro hm
          rcases mem_insertBeforeFirstI _ _ _ hm with h | h
          exacts [a4 h, h4 h]
      · exact ⟨h1, by omega, h3, h4⟩
    · exact ⟨h1, by omega, h3, h4⟩
  · exact ⟨h1, by omega, h3, h4⟩

/-- With no job id, no beam streaming and no uploaded file,
`_filter_standard_args` is the plain loop followed by the injection
stage. -/
theorem filterStandardArgs_noBeam (st : Settings) (raw : List String) :
    filterStandardArgs st none false false raw =
      some (injectStage st st.hw_accel (needsHwReplace st.hw_accel raw)
        (loopB st st.get_path_mappings st.hw_accel st.get_video_encoder
          (needsHwReplace st.hw_accel raw) false false
          (st.temp_dir ++ "/" ++ "" ++ "/input") none raw)) := by
  rfl

/-! ### C5, dialect A: cleanliness of extracted Plex info and segment
facts for `_build_plex_command`. -/

def optCleanA : Option String → Bool
  | none => true
  | some x => cleanOutTok x

def streamCleanA (a : AudioStream) : Bool :=
  cleanOutTok a.map && optCleanA a.codec && optCleanA a.bitrate && optCleanA a.copypriorss

/-- All free-form strings of an extracted info record avoid the artifacts
C5 constrains. -/
def infoCleanA (info : PlexInfo) : Bool :=
  optCleanA info.input_path && optCleanA info.seek && optCleanA info.duration &&
  optCleanA info.framerate && optCleanA info.keyframe_expr &&
  optCleanA info.audio_filter && info.audio_streams.all streamCleanA &&
  info.metadata.all (fun p => cleanOutTok p.1 && cleanOutTok p.2) &&
  optCleanA info.output_format && optCleanA info.output_path

theorem optPair_clean (flag : String) (hf : cleanOutTok flag = true) (o : Option String)
    (ho : optCleanA o = true) :
    ∀ x ∈ (if truthy o then [flag, o.getD ""] else []), cleanOutTok x = true := by
  intro x hx
  rcases o with _ | v
  · rw [if_neg (by decide)] at hx
    exact absurd hx (List.not_mem_nil x)
  · by_cases htr : truthy (some v) = true
    · rw [if_pos htr] at hx
      simp only [List.mem_cons, List.not_mem_nil, or_false, Option.getD_some] at hx
      rcases hx with rfl | rfl
      · exact hf
      · simpa [optCleanA] using ho
    · rw [if_neg htr] at hx
      exact absurd hx (List.not_mem_nil x)

theorem hwAccelSegA_facts (st : Settings) (hw : String) (hv : Bool)
    (hdev : ∀ d, st.qsv_device = some d → cleanOutTok d = true) :
    (hwAccelSegA st hw hv).countP (fun x => decide (x ∈ encNames)) = 0 ∧
    (hwAccelSegA st hw hv).countP (fun x => x == "-hwaccel") ≤ 1 ∧
    (∀ x ∈ hwAccelSegA st hw hv, strStartsWith x "-x264opts" = false) ∧
    "libfdk_aac" ∉ hwAccelSegA st hw hv := by
  cases hv with
  | false =>
    have he : hwAccelSegA st hw false = [] := rfl
    rw [he]
    refine ⟨by decide, by decide, by decide, by decide⟩
  | true =>
    by_cases hq : hw = "qsv"
    · subst hq
      rcases hd : st.qsv_device with _ | d
      · have he : hwAccelSegA st "qsv" true =
            ["-hwaccel", "qsv", "-hwaccel_output_format", "qsv", "-extra_hw_frames", "8"] := by
          simp [hwAccelSegA, hd, truthy]
        rw [he]
        refine ⟨by decide, by decide, by decide, by decide⟩
      · obtain ⟨d1, d2, d3, d4⟩ := cleanOutTok_spec (hdev d hd)
        by_cases htr : truthy (some d) = true
        · have he : hwAccelSegA st "qsv" true =
              ["-hwaccel", "qsv", "-qsv_device", d, "-hwaccel_output_format", "qsv",
                "-extra_hw_frames", "8"] := by
            simp [hwAccelSegA, hd, htr]
          rw [he]
          refine ⟨?_, ?_, ?_, ?_⟩
          · simp +decide [List.countP_cons, d1]
          · simp +decide [List.countP_cons, d2]
          · intro x hx
            simp only [List.mem_cons, List.not_mem_nil, or_false] at hx
            rcases hx with rfl | rfl | rfl | rfl | rfl | rfl | rfl | rfl <;>
              first
              | decide
              | exact d3
          · intro hm
            simp only [List.mem_cons, List.not_mem_nil, or_false] at hm
            rcases hm with hm | hm | hm | hm | hm | hm | hm | hm <;>
              first
              | exact absurd hm.symm (by decide)
              | exact d4 hm.symm
        · have he : hwAccelSegA st "qsv" true =
              ["-hwaccel", "qsv", "-hwaccel_output_format", "qsv", "-extra_hw_frames", "8"] := by
            simp [hwAccelSegA, hd, htr]
          rw [he]
          refine ⟨by decide, by decide, by decide, by decide⟩
    · by_cases hva : hw = "vaapi"
      · subst hva
        have he : hwAccelSegA st "vaapi" true =
            ["-hwaccel", "vaapi", "-vaapi_device", vaapiDevice st] := by
          simp [hwAccelSegA]
        rw [he]
        obtain ⟨v1, v2, v3, v4⟩ := cleanOutTok_spec (vaapiDevice_clean st hdev)
        refine ⟨?_, ?_, ?_, ?_⟩
        · simp +decide [List.countP_cons, v1]
        · simp +decide [List.countP_cons, v2]
        · intro x hx
          simp only [List.mem_cons, List.not_mem_nil, or_false] at hx
          rcases hx with rfl | rfl | rfl | hx
          · decide
          · decide
          · decide
          · rw [hx]
            exact v3
        · intro hm
          simp only [List.mem_cons, List.not_mem_nil, or_false] at hm
          rcases hm with hm | hm | hm | hm
          · exact absurd hm.symm (by decide)
          · exact absurd hm.symm (by decide)
          · exact absurd hm.symm (by decide)
          · exact v4 hm.symm
      · have he : hwAccelSegA st hw true = [] := by
          simp [hwAccelSegA, hq, hva]
        rw [he]
        refine ⟨by decide, by decide, by decide, by decide⟩

theorem videoSegA_facts (st : Settings) (hw : String) (info : PlexInfo)
    (hvid : info.has_video = true)
    (hfr : optCleanA info.framerate = true) (hkf : optCleanA info.keyframe_expr = true) :
    (videoSegA st hw info false).countP (fun x => decide (x ∈ encNames)) = 1 ∧
    (videoSegA st hw info false).countP (fun x => x == "-hwaccel") = 0 ∧
    (∀ x ∈ videoSegA st hw info false, strStartsWith x "-x264opts" = false) ∧
    "libfdk_aac" ∉ videoSegA st hw info false := by
  have hfrc := optPair_clean "-r:0" (by decide) info.framerate hfr
  have hkfc := optPair_clean "-force_key_frames:0" (by decide) info.keyframe_expr hkf
  obtain ⟨fr1, fr2, fr3, fr4⟩ := all_clean_counts hfrc
  obtain ⟨kf1, kf2, kf3, kf4⟩ := all_clean_counts hkfc
  have hbranch : ∃ br : List String,
      (if hw = "nvenc" then
        ["-vf", "scale=1920:-2:flags=fast_bilinear:sws_dither=none,format=nv12,hwupload_cuda",
         "-c:v", "h264_nvenc"] ++
        (if (false : Bool) ∧ truthy st.beam_max_bitrate then
          ["-preset", "p1", "-tune", "ull",
           "-rc", "cbr", "-b:v", st.beam_max_bitrate.getD "",
           "-rc-lookahead", "0", "-delay", "0",
           "-bf", "0", "-multipass", "disabled",
           "-forced-idr", "1", "-g", "24",
           "-maxrate", st.beam_max_bitrate.getD "",
           "-bufsize", st.beam_max_bitrate.getD ""]
        else
          ["-preset", "p1", "-tune", "ull",
           "-rc", "constqp", "-qp", "25",
           "-rc-lookahead", "0", "-delay", "0",
           "-bf", "0", "-multipass", "disabled",
           "-maxrate", "10M", "-bufsize", "5M"])
      else if hw = "qsv" then
        ["-vf", "scale_qsv=w=1920:h=-1:format=nv12", "-c:v", "h264_qsv",
         "-preset", "veryfast", "-global_quality", "25",
         "-low_power", "1", "-async_depth", "1"]
      else if hw = "vaapi" then
        ["-vf", "scale=1920:-2:flags=fast_bilinear,format=nv12,hwupload",
         "-c:v", "h264_vaapi", "-low_power", "1", "-qp", "25"]
      else
        ["-vf", "scale=1920:-2:flags=fast_bilinear:sws_dither=none", "-c:v", "libx264",
         "-preset", "veryfast", "-crf", "25"]) = br ∧
      br.countP (fun x => decide (x ∈ encNames)) = 1 ∧
      br.countP (fun x => x == "-hwaccel") = 0 ∧
      (∀ x ∈ br, strStartsWith x "-x264opts" = false) ∧
      "libfdk_aac" ∉ br := by
    by_cases h1 : hw = "nvenc"
    · rw [if_pos h1, if_neg (fun h => Bool.false_ne_true h.1)]
      exact ⟨_, rfl, by decide, by decide, by decide, by decide⟩
    · rw [if_neg h1]
      by_cases h2 : hw = "qsv"
      · rw [if_pos h2]
        exact ⟨_, rfl, by decide, by decide, by decide, by decide⟩
      · rw [if_neg h2]
        by_cases h3 : hw = "vaapi"
        · rw [if_pos h3]
          exact ⟨_, rfl, by decide, by decide, by decide, by decide⟩
        · rw [if_neg h3]
          exact ⟨_, rfl, by decide, by decide, by decide, by decide⟩
  obtain ⟨br, hbr, b1, b2, b3, b4⟩ := hbranch
  have he : videoSegA st hw info false = ["-map", "0:v:0"] ++ br ++
      (if truthy info.framerate then ["-r:0", info.framerate.getD ""] else []) ++
      (if truthy info.keyframe_expr then
        ["-force_key_frames:0", info.keyframe_expr.getD ""] else []) := by
    unfold videoSegA
    rw [if_pos hvid, hbr]
  rw [he]
  refine ⟨?_, ?_, ?_, ?_⟩
  · simp only [List.countP_append, b1, fr1, kf1]
    decide
  · simp only [List.countP_append, b2, fr2, kf2]
    decide
  · intro x hx
    simp only [List.mem_append] at hx
    rcases hx with ((hx | hx) | hx) | hx
    · simp only [List.mem_cons, List.not_mem_nil, or_false] at hx
      rcases hx with rfl | rfl <;> decide
    · exact b3 x hx
    · exact fr3 x hx
    · exact kf3 x hx
  · intro hm
    simp only [List.mem_append] at hm
    rcases hm with ((hm | hm) | hm) | hm
    · simp only [List.mem_cons, List.not_mem_nil, or_false] at hm
      rcases hm with hm | hm <;> exact absurd hm.symm (by decide)
    · exact b4 hm
    · exact fr4 hm
    · exact kf4 hm

theorem audioStreamSegA_clean (hv : Bool) (k : Nat) (a : AudioStream)
    (ha : streamCleanA a = true) :
    ∀ x ∈ audioStreamSegA hv k a, cleanOutTok x = true := by
  have ha' : cleanOutTok a.map = true ∧ optCleanA a.codec = true ∧
      optCleanA a.bitrate = true ∧ optCleanA a.copypriorss = true := by
    simpa [streamCleanA, Bool.and_eq_true, and_assoc] using ha
  obtain ⟨hm, hc, hb, hcp⟩ := ha'
  intro x hx
  unfold audioStreamSegA at hx
  dsimp only at hx
  rcases List.mem_append.mp hx with hx | hx
  · rcases List.mem_append.mp hx with hx | hx
    · rcases List.mem_append.mp hx with hx | hx
      · rcases List.mem_cons.mp hx with rfl | hx
        · decide
        · rcases List.mem_cons.mp hx with rfl | hx
          · exact hm
          · exact absurd hx (List.not_mem_nil x)
      · exact optPair_clean _ (cleanOutTok_dashPre "-codec:" (Or.inl rfl) _) a.codec hc x hx
    · exact optPair_clean _ (cleanOutTok_dashPre "-b:" (Or.inr (Or.inl rfl)) _)
        a.bitrate hb x hx
  · exact optPair_clean _ (cleanOutTok_dashPre "-copypriorss:" (Or.inr (Or.inr rfl)) _)
      a.copypriorss hcp x hx

theorem audioSegA_clean (info : PlexInfo)
    (hfl : optCleanA info.audio_filter = true)
    (hst : info.audio_streams.all streamCleanA = true) :
    ∀ x ∈ audioSegA info, cleanOutTok x = true := by
  intro x hx
  unfold audioSegA at hx
  rcases List.mem_append.mp hx with hx | hx
  · exact optPair_clean "-filter_complex" (by decide) info.audio_filter hfl x hx
  · obtain ⟨p, hp, hxp⟩ := List.mem_flatMap.mp hx
    have hpa : p.2 ∈ info.audio_streams := (List.of_mem_zip hp).2
    exact audioStreamSegA_clean info.has_video p.1 p.2
      (by simpa using List.all_eq_true.mp hst p.2 hpa) x hxp

theorem metaSegA_clean (info : PlexInfo)
    (hmd : info.metadata.all (fun p => cleanOutTok p.1 && cleanOutTok p.2) = true) :
    ∀ x ∈ metaSegA info, cleanOutTok x = true := by
  intro x hx
  unfold metaSegA at hx
  obtain ⟨p, hp, hxp⟩ := List.mem_flatMap.mp hx
  have := List.all_eq_true.mp hmd p hp
  simp only [Bool.and_eq_true] at this
  simp only [List.mem_cons, List.not_mem_nil, or_false] at hxp
  rcases hxp with rfl | rfl
  · exact this.1
  · exact this.2

theorem outFmtA_clean (info : PlexInfo) (ho : optCleanA info.output_format = true) :
    cleanOutTok (outFmtA info) = true := by
  unfold outFmtA
  rcases hof : info.output_format with _ | v
  · decide
  · rw [hof] at ho
    by_cases htr : truthy (some v) = true
    · rw [if_pos htr]
      simpa [optCleanA] using ho
    · rw [if_neg htr]
      decide

theorem fmtSegA_clean (info : PlexInfo) (ho : optCleanA info.output_format = true) :
    ∀ x ∈ fmtSegA info false, cleanOutTok x = true := by
  intro x hx
  unfold fmtSegA at hx
  simp only [List.mem_append, List.mem_cons, List.not_mem_nil, or_false] at hx
  rcases hx with ((hx | hx) | hx) | hx
  · rcases hx with rfl | rfl
    · decide
    · exact outFmtA_clean info ho
  · split at hx
    · simp only [List.mem_cons, List.not_mem_nil, or_false] at hx
      rcases hx with rfl | rfl <;> decide
    · exact absurd hx (List.not_mem_nil x)
  · rcases hx with rfl | rfl | rfl | rfl | rfl | rfl <;> decide
  · rw [if_neg (fun h => Bool.false_ne_true h)] at hx
    exact absurd hx (List.not_mem_nil x)

theorem outPathA_clean (st : Settings) (jobId : String) (info : PlexInfo)
    (hms : st.get_path_mappings = []) (ho : optCleanA info.output_path = true) :
    cleanOutTok (outPathA st jobId info false) = true := by
  unfold outPathA
  rw [if_neg (fun h => Bool.false_ne_true h)]
  dsimp only
  rw [hms]
  rcases hop : info.output_path with _ | v
  · decide
  · rw [hop] at ho
    by_cases htr : truthy (some v) = true
    · rw [if_pos htr]
      simpa [applyPathMappings, optCleanA] using ho
    · rw [if_neg htr]
      decide

theorem seekSeg_clean (o : Option String) (ho : optCleanA o = true) (c : Prop)
    [Decidable c] :
    ∀ x ∈ (if truthy o ∧ c then ["-ss", o.getD ""] else []), cleanOutTok x = true := by
  intro x hx
  rcases o with _ | v
  · rw [if_neg (fun h => by exact absurd h.1 (by decide))] at hx
    exact absurd hx (List.not_mem_nil x)
  · by_cases hc : truthy (some v) ∧ c
    · rw [if_pos hc] at hx
      rcases List.mem_cons.mp hx with rfl | hx
      · decide
      · rcases List.mem_cons.mp hx with rfl | hx
        · simpa [optCleanA] using ho
        · exact absurd hx (List.not_mem_nil x)
    · rw [if_neg hc] at hx
      exact absurd hx (List.not_mem_nil x)

theorem inputSegA_clean (st : Settings) (jobId : String) (info : PlexInfo)
    (hms : st.get_path_mappings = []) (hip : optCleanA info.input_path = true) :
    ∀ x ∈ inputSegA st jobId info false false, cleanOutTok x = true := by
  intro x hx
  unfold inputSegA at hx
  rw [if_neg (fun h => Bool.false_ne_true h)] at hx
  rw [hms] at hx
  rcases List.mem_cons.mp hx with rfl | hx
  · decide
  · rcases List.mem_cons.mp hx with rfl | hx
    · rcases hip2 : info.input_path with _ | v
      · decide
      · rw [hip2] at hip
        simpa [applyPathMappings, optCleanA] using hip
    · exact absurd hx (List.not_mem_nil x)

theorem boolFlag_clean (b : Bool) (tok : String) (ht : cleanOutTok tok = true) :
    ∀ x ∈ (if b then [tok] else []), cleanOutTok x = true := by
  intro x hx
  cases b
  · exact absurd hx (List.not_mem_nil x)
  · rcases List.mem_cons.mp hx with rfl | hx
    · exact ht
    · exact absurd hx (List.not_mem_nil x)

theorem buildTailA_facts (st : Settings) (hw jobId : String) (info : PlexInfo)
    (hvid : info.has_video = true) (hms : st.get_path_mappings = [])
    (hdur : optCleanA info.duration = true)
    (hfr : optCleanA info.framerate = true) (hkf : optCleanA info.keyframe_expr = true)
    (hfl : optCleanA info.audio_filter = true)
    (hstr : info.audio_streams.all streamCleanA = true)
    (hmd : info.metadata.all (fun p => cleanOutTok p.1 && cleanOutTok p.2) = true)
    (hof : optCleanA info.output_format = true)
    (hop : optCleanA info.output_path = true) :
    (buildTailA st hw jobId info false).countP (fun x => decide (x ∈ encNames)) = 1 ∧
    (buildTailA st hw jobId info false).countP (fun x => x == "-hwaccel") = 0 ∧
    (∀ x ∈ buildTailA st hw jobId info false, strStartsWith x "-x264opts" = false) ∧
    "libfdk_aac" ∉ buildTailA st hw jobId info false := by
  obtain ⟨v1, v2, v3, v4⟩ := videoSegA_facts st hw info hvid hfr hkf
  have hz := boolFlag_clean info.start_at_zero "-start_at_zero" (by decide)
  have hcp := boolFlag_clean info.copyts "-copyts" (by decide)
  have hdu := optPair_clean "-t" (by decide) info.duration hdur
  have hy : ∀ x ∈ ["-y"], cleanOutTok x = true := by
    intro x hx
    rcases List.mem_cons.mp hx with rfl | hx
    · decide
    · exact absurd hx (List.not_mem_nil x)
  have hau := audioSegA_clean info hfl hstr
  have hme := metaSegA_clean info hmd
  have hfm := fmtSegA_clean info hof
  have hou : ∀ x ∈ [outPathA st jobId info false], cleanOutTok x = true := by
    intro x hx
    rcases List.mem_cons.mp hx with rfl | hx
    · exact outPathA_clean st jobId info hms hop
    · exact absurd hx (List.not_mem_nil x)
  obtain ⟨z1, z2, z3, z4⟩ := all_clean_counts hz
  obtain ⟨p1, p2, p3, p4⟩ := all_clean_counts hcp
  obtain ⟨d1, d2, d3, d4⟩ := all_clean_counts hdu
  obtain ⟨y1, y2, y3, y4⟩ := all_clean_counts hy
  obtain ⟨a1, a2, a3, a4⟩ := all_clean_counts hau
  obtain ⟨m1, m2, m3, m4⟩ := all_clean_counts hme
  obtain ⟨f1, f2, f3, f4⟩ := all_clean_counts hfm
  obtain ⟨o1, o2, o3, o4⟩ := all_clean_counts hou
  refine ⟨?_, ?_, ?_, ?_⟩
  · simp only [buildTailA, List.countP_append, z1, p1, d1, y1, v1, a1, m1, f1, o1]
  · simp only [buildTailA, List.countP_append, z2, p2, d2, y2, v2, a2, m2, f2, o2]
  · intro x hx
    simp only [buildTailA, List.mem_append] at hx
    rcases hx with ((((((((hx | hx) | hx) | hx) | hx) | hx) | hx) | hx) | hx)
    exacts [z3 x hx, p3 x hx, d3 x hx, y3 x hx, v3 x hx, a3 x hx, m3 x hx, f3 x hx,
      o3 x hx]
  · intro hm
    simp only [buildTailA, List.mem_append] at hm
    rcases hm with ((((((((hm | hm) | hm) | hm) | hm) | hm) | hm) | hm) | hm)
    exacts [z4 hm, p4 hm, d4 hm, y4 hm, v4 hm, a4 hm, m4 hm, f4 hm, o4 hm]

/-- Dialect A: on every clean, video-bearing extracted info, the command
`_build_plex_command` emits has exactly one encoder name, at most one
`-hwaccel`, no `-x264opts…` and no `libfdk_aac`. -/
theorem buildPlexParts_c5 (st : Settings) (hw hwe jobId : String) (info : PlexInfo)
    (hvid : info.has_video = true) (hms : st.get_path_mappings = [])
    (hdev : ∀ d, st.qsv_device = some d → cleanOutTok d = true)
    (hinfo : infoCleanA info = true) :
    (buildPlexParts st hw hwe jobId info false false).countP
      (fun x => decide (x ∈ encNames)) = 1 ∧
    (buildPlexParts st hw hwe jobId info false false).countP
      (fun x => x == "-hwaccel") ≤ 1 ∧
    (∀ x ∈ buildPlexParts st hw hwe jobId info false false,
      strStartsWith x "-x264opts" = false) ∧
    "libfdk_aac" ∉ buildPlexParts st hw hwe jobId info false false := by
  have hinfo' : optCleanA info.input_path = true ∧ optCleanA info.seek = true ∧
      optCleanA info.duration = true ∧ optCleanA info.framerate = true ∧
      optCleanA info.keyframe_expr = true ∧ optCleanA info.audio_filter = true ∧
      info.audio_streams.all streamCleanA = true ∧
      info.metadata.all (fun p => cleanOutTok p.1 && cleanOutTok p.2) = true ∧
      optCleanA info.output_format = true ∧ optCleanA info.output_path = true := by
    simpa [infoCleanA, Bool.and_eq_true, and_assoc] using hinfo
  obtain ⟨hip, hsk, hdur, hfr, hkf, hfl, hstr, hmd, hof, hop⟩ := hinfo'
  have he : buildPlexParts st hw hwe jobId info false false =
      hwAccelSegA st hw info.has_video ++
      (if truthy info.seek ∧ (false : Bool) = false then ["-ss", info.seek.getD ""]
        else []) ++
      inputSegA st jobId info false false ++
      (if truthy info.seek ∧ (false : Bool) = true then ["-ss", info.seek.getD ""]
        else []) ++
      buildTailA st hw jobId info false := rfl
  obtain ⟨h1, h2, h3, h4⟩ := hwAccelSegA_facts st hw info.has_video hdev
  have hs1 := seekSeg_clean info.seek hsk ((false : Bool) = false)
  have hs2 := seekSeg_clean info.seek hsk ((false : Bool) = true)
  have hin := inputSegA_clean st jobId info hms hip
  obtain ⟨s11, s12, s13, s14⟩ := all_clean_counts hs1
  obtain ⟨s21, s22, s23, s24⟩ := all_clean_counts hs2
  obtain ⟨i1, i2, i3, i4⟩ := all_clean_counts hin
  obtain ⟨t1, t2, t3, t4⟩ := buildTailA_facts st hw jobId info hvid hms hdur hfr hkf
    hfl hstr hmd hof hop
  rw [he]
  refine ⟨?_, ?_, ?_, ?_⟩
  · rw [List.countP_append, List.countP_append, List.countP_append, List.countP_append,
      h1, s11, s21, i1, t1]
  · rw [List.countP_append, List.countP_append, List.countP_append, List.countP_append,
      s12, s22, i2, t2]
    simpa using h2
  · intro x hx
    rcases List.mem_append.mp hx with hx | hx
    · rcases List.mem_append.mp hx with hx | hx
      · rcases List.mem_append.mp hx with hx | hx
        · rcases List.mem_append.mp hx with hx | hx
          · exact h3 x hx
          · exact s13 x hx
        · exact i3 x hx
      · exact s23 x hx
    · exact t3 x hx
  · intro hm
    rcases List.mem_append.mp hm with hm | hm
    · rcases List.mem_append.mp hm with hm | hm
      · rcases List.mem_append.mp hm with hm | hm
        · rcases List.mem_append.mp hm with hm | hm
          · exact h4 hm
          · exact s14 hm
        · exact i4 hm
      · exact s24 hm
    · exact t4 hm

theorem get_path_mappings_nil (st : Settings) (h1 : st.media_path_from = none)
    (h2 : st.path_mappings = none) : st.get_path_mappings = [] := by
  unfold Settings.get_path_mappings
  rw [h1, h2]
  rfl

/-- C5 as stated is false: with accelerator `none` and dialect B, an input
vector that designates `libx264` and carries `-x264opts` is passed through
with the `-x264opts` flag intact — the stripping branch requires
`hw_accel != "none"`. -/
theorem C5_counterexample :
    filterStandardArgs { hw_accel := "none" } none false false
      ["-i", "/m/x.mkv", "-c:v", "libx264", "-x264opts", "bframes=3", "out.mp4"] =
      some ["-i", "/m/x.mkv", "-c:v", "libx264", "-x264opts", "bframes=3", "out.mp4"] ∧
    "-x264opts" ∈ (filterStandardArgs { hw_accel := "none" } none false false
      ["-i", "/m/x.mkv", "-c:v", "libx264", "-x264opts", "bframes=3", "out.mp4"]).getD [] := by
  constructor <;> decide

/-- C5 (amended). For the hardware accelerators {qsv, nvenc, vaapi}: (B)
every dialect-B vector assembled from valid units with exactly one encoder
unit is rewritten (with no path mappings, non-beam) into a vector with
exactly one encoder name, at most one `-hwaccel`, no `-x264opts…` and no
`libfdk_aac`; (A) every dialect-A emission for a clean, video-bearing
extracted info record satisfies the same four properties (here `none` also
qualifies, emitting `libx264` itself). Accelerator `none` under dialect B
is excluded: it retains `-x264opts` (see the counterexample). -/
theorem C5_encoder_rewrite :
    (∀ (st : Settings) (units : List BUnit) (out : List String),
      (st.hw_accel = "qsv" ∨ st.hw_accel = "nvenc" ∨ st.hw_accel = "vaapi") →
      st.media_path_from = none → st.path_mappings = none →
      cleanOutTok st.nvenc_tune = true →
      (∀ d, st.qsv_device = some d → cleanOutTok d = true) →
      units.countP isEncUnit = 1 →
      (∀ u ∈ units, unitOkB st.hw_accel u = true) →
      filterStandardArgs st none false false (units.flatMap unitToks) = some out →
      out.countP (fun x => decide (x ∈ encNames)) = 1 ∧
      out.countP (fun x => x == "-hwaccel") ≤ 1 ∧
      (∀ x ∈ out, strStartsWith x "-x264opts" = false) ∧
      "libfdk_aac" ∉ out) ∧
    (∀ (st : Settings) (hw hwe jobId : String) (info : PlexInfo),
      info.has_video = true → st.media_path_from = none → st.path_mappings = none →
      (∀ d, st.qsv_device = some d → cleanOutTok d = true) →
      infoCleanA info = true →
      (buildPlexParts st hw hwe jobId info false false).countP
        (fun x => decide (x ∈ encNames)) = 1 ∧
      (buildPlexParts st hw hwe jobId info false false).countP
        (fun x => x == "-hwaccel") ≤ 1 ∧
      (∀ x ∈ buildPlexParts st hw hwe jobId info false false,
        strStartsWith x "-x264opts" = false) ∧
      "libfdk_aac" ∉ buildPlexParts st hw hwe jobId info false false) := by
  constructor
  · intro st units out hhw3 hmf hpm htune hdev hcnt hok hout
    have hms : st.get_path_mappings = [] := get_path_mappings_nil st hmf hpm
    have hneeds : needsHwReplace st.hw_accel (units.flatMap unitToks) = true := by
      unfold needsHwReplace
      rw [units_hasEncPair st.hw_accel units (by rw [hcnt]; exact Nat.one_pos) hok]
      rcases hhw3 with h | h | h <;> simp [h]
    have hwe_enc : st.get_video_encoder ∈ encNames := by
      rcases hhw3 with h | h | h <;> simp [Settings.get_video_encoder, h, encNames]
    rw [filterStandardArgs_noBeam, hms, hneeds] at hout
    obtain rfl := Option.some.inj hout
    obtain ⟨l1, l2, l3, l4⟩ := loopB_units st st.hw_accel st.get_video_encoder
      (st.temp_dir ++ "/" ++ "" ++ "/input") hhw3 htune hwe_enc units none hok
    rw [hcnt] at l1
    exact injectStage_facts st st.hw_accel true hhw3 hdev _ l1 l2 l3 l4
  · intro st hw hwe jobId info hvid hmf hpm hdev hinfo
    exact buildPlexParts_c5 st hw hwe jobId info hvid
      (get_path_mappings_nil st hmf hpm) hdev hinfo

/-- Concrete instantiation of `C5_encoder_rewrite`: a QSV worker rewriting
a Jellyfin-style vector (dialect B) and a Plex-style extraction (dialect
A). -/
theorem C5_encoder_rewrite_witness :
    ((["-hwaccel", "qsv", "-hwaccel_output_format", "qsv", "-extra_hw_frames", "8",
        "-i", "/media/in.mkv", "-c:v", "h264_qsv", "-low_power", "1",
        "-async_depth", "1", "-c:a", "aac", "-hls_playlist_type", "event",
        "out.m3u8"] : List String).countP (fun x => decide (x ∈ encNames)) = 1 ∧
      (["-hwaccel", "qsv", "-hwaccel_output_format", "qsv", "-extra_hw_frames", "8",
        "-i", "/media/in.mkv", "-c:v", "h264_qsv", "-low_power", "1",
        "-async_depth", "1", "-c:a", "aac", "-hls_playlist_type", "event",
        "out.m3u8"] : List String).countP (fun x => x == "-hwaccel") ≤ 1 ∧
      (∀ x ∈ (["-hwaccel", "qsv", "-hwaccel_output_format", "qsv",
        "-extra_hw_frames", "8", "-i", "/media/in.mkv", "-c:v", "h264_qsv",
        "-low_power", "1", "-async_depth", "1", "-c:a", "aac",
        "-hls_playlist_type", "event", "out.m3u8"] : List String),
        strStartsWith x "-x264opts" = false) ∧
      "libfdk_aac" ∉ (["-hwaccel", "qsv", "-hwaccel_output_format", "qsv",
        "-extra_hw_frames", "8", "-i", "/media/in.mkv", "-c:v", "h264_qsv",
        "-low_power", "1", "-async_depth", "1", "-c:a", "aac",
        "-hls_playlist_type", "event", "out.m3u8"] : List String)) ∧
    ((buildPlexParts { hw_accel := "qsv" } "qsv" "h264_qsv" "j1"
        { input_path := some "/media/in.mkv", seek := some "600",
          audio_streams :=
            [{ map := "0:1", codec := some "aac", bitrate := some "128k" }],
          metadata := [("-metadata:s:1", "language=eng")],
          output_path := some "/tmp/out/dash" } false false).countP
        (fun x => decide (x ∈ encNames)) = 1 ∧
      (buildPlexParts { hw_accel := "qsv" } "qsv" "h264_qsv" "j1"
        { input_path := some "/media/in.mkv", seek := some "600",
          audio_streams :=
            [{ map := "0:1", codec := some "aac", bitrate := some "128k" }],
          metadata := [("-metadata:s:1", "language=eng")],
          output_path := some "/tmp/out/dash" } false false).countP
        (fun x => x == "-hwaccel") ≤ 1 ∧
      (∀ x ∈ buildPlexParts { hw_accel := "qsv" } "qsv" "h264_qsv" "j1"
        { input_path := some "/media/in.mkv", seek := some "600",
          audio_streams :=
            [{ map := "0:1", codec := some "aac", bitrate := some "128k" }],
          metadata := [("-metadata:s:1", "language=eng")],
          output_path := some "/tmp/out/dash" } false false,
        strStartsWith x "-x264opts" = false) ∧
      "libfdk_aac" ∉ buildPlexParts { hw_accel := "qsv" } "qsv" "h264_qsv" "j1"
        { input_path := some "/media/in.mkv", seek := some "600",
          audio_streams :=
            [{ map := "0:1", codec := some "aac", bitrate := some "128k" }],
          metadata := [("-metadata:s:1", "language=eng")],
          output_path := some "/tmp/out/dash" } false false) := by
  constructor
  · exact C5_encoder_rewrite.1 { hw_accel := "qsv" }
      [BUnit.io "/media/in.mkv", BUnit.enc "-c:v" "libx264",
        BUnit.strip2 "-x264opts" "subme=0", BUnit.pair "-c:a" "libfdk_aac",
        BUnit.pair "-hls_playlist_type" "vod", BUnit.single "out.m3u8"]
      ["-hwaccel", "qsv", "-hwaccel_output_format", "qsv", "-extra_hw_frames", "8",
        "-i", "/media/in.mkv", "-c:v", "h264_qsv", "-low_power", "1",
        "-async_depth", "1", "-c:a", "aac", "-hls_playlist_type", "event",
        "out.m3u8"]
      (Or.inl rfl) rfl rfl (by decide) (fun d h => Option.noConfusion h)
      (by decide) (by decide) (by decide)
  · exact C5_encoder_rewrite.2 { hw_accel := "qsv" } "qsv" "h264_qsv" "j1"
      { input_path := some "/media/in.mkv", seek := some "600",
        audio_streams :=
          [{ map := "0:1", codec := some "aac", bitrate := some "128k" }],
        metadata := [("-metadata:s:1", "language=eng")],
        output_path := some "/tmp/out/dash" }
      rfl rfl rfl (fun d h => Option.noConfusion h) (by decide)

theorem ss_not_mem_hwAccelSegA (st : Settings) (hw : String) (hv : Bool)
    (hdev : st.qsv_device ≠ some "-ss") : "-ss" ∉ hwAccelSegA st hw hv := by
  intro hmem
  unfold hwAccelSegA vaapiDevice at hmem
  rcases hd : st.qsv_device with _ | d
  · rw [hd] at hmem
    split_ifs at hmem <;> simp_all [truthy]
  · rw [hd] at hmem
    have hds : d ≠ "-ss" := fun hc => hdev (by rw [hd, hc])
    split_ifs at hmem <;> simp_all [truthy]

theorem inputSegA_shape (st : Settings) (jobId : String) (info : PlexInfo)
    (beamStream beamMode : Bool) :
    ∃ x, inputSegA st jobId info beamStream beamMode = ["-i", x] := by
  unfold inputSegA
  rcases beamMode with _ | _
  · exact ⟨_, rfl⟩
  · rcases beamStream with _ | _ <;> exact ⟨_, rfl⟩

/-- C7. In dialect-A rewriting, whenever a (truthy) seek value was
extracted: for a non-beam-stream job the emitted vector contains
`-ss <seek>` immediately before `-i`, with no earlier `-ss`; for a
beam-stream job it contains `-ss <seek>` immediately after the
`-i pipe:0` pair and no `-ss` anywhere before it. The only side condition
is that the configured device path is not itself the string `-ss`. -/
theorem C7_seek_placement (st : Settings) (hw hw_encoder : String) (major : Nat)
    (jobId : String) (raw : List String) (info : PlexInfo) (s : String)
    (uploadedExists : Bool)
    (hex : extractPlexInfo major raw = some info)
    (hs : info.seek = some s) (hne : s ≠ "")
    (hdev : st.qsv_device ≠ some "-ss") :
    (∃ l r, buildPlexCommand st hw hw_encoder major jobId raw false uploadedExists =
        some (l ++ "-ss" :: s :: "-i" :: r) ∧ "-ss" ∉ l) ∧
    (∃ l r, buildPlexCommand st hw hw_encoder major jobId raw true uploadedExists =
        some (l ++ "-i" :: "pipe:0" :: "-ss" :: s :: r) ∧ "-ss" ∉ l) := by
  have htr : truthy info.seek = true := by
    rw [hs]
    simpa [truthy] using hne
  constructor
  · obtain ⟨x, hxeq⟩ := inputSegA_shape st jobId info false (false || uploadedExists)
    refine ⟨hwAccelSegA st hw info.has_video,
      x :: buildTailA st hw jobId info (false || uploadedExists), ?_,
      ss_not_mem_hwAccelSegA st hw _ hdev⟩
    unfold buildPlexCommand
    rw [hex]
    unfold buildPlexParts
    refine congrArg some ?_
    dsimp only
    rw [hxeq]
    rw [if_pos ⟨htr, rfl⟩, if_neg (by simp)]
    rw [hs]
    simp only [Option.getD_some, List.append_assoc, List.cons_append, List.nil_append,
      List.append_nil]
  · have hinp : inputSegA st jobId info true (true || uploadedExists) = ["-i", "pipe:0"] := by
      unfold inputSegA
      simp
    refine ⟨hwAccelSegA st hw info.has_video,
      buildTailA st hw jobId info (true || uploadedExists), ?_,
      ss_not_mem_hwAccelSegA st hw _ hdev⟩
    unfold buildPlexCommand
    rw [hex]
    unfold buildPlexParts
    refine congrArg some ?_
    dsimp only
    rw [hinp]
    rw [if_neg (by simp), if_pos ⟨htr, rfl⟩]
    rw [hs]
    simp only [Option.getD_some, List.append_assoc, List.cons_append, List.nil_append,
      List.append_nil]

/-- Concrete instantiation of `C7_seek_placement` at a seek of 600 seconds
against `/m/x.mkv` under default (QSV) settings. -/
theorem C7_seek_placement_witness :
    (∃ l r, buildPlexCommand {} "qsv" "h264_qsv" 4 "j1" ["-ss", "600", "-i", "/m/x.mkv"]
        false false = some (l ++ "-ss" :: "600" :: "-i" :: r) ∧ "-ss" ∉ l) ∧
    (∃ l r, buildPlexCommand {} "qsv" "h264_qsv" 4 "j1" ["-ss", "600", "-i", "/m/x.mkv"]
        true false = some (l ++ "-i" :: "pipe:0" :: "-ss" :: "600" :: r) ∧ "-ss" ∉ l) :=
  C7_seek_placement {} "qsv" "h264_qsv" 4 "j1" ["-ss", "600", "-i", "/m/x.mkv"]
    { input_path := some "/m/x.mkv", seek := some "600", has_video := true,
      output_path := some "/m/x.mkv" }
    "600" false (by decide) (by decide) (by decide) (by decide)

/-! Facts about decimal rendering and the hex/bracket substitutions, used to
settle the hex-selector claim. -/

theorem digitChar_isDigit {k : Nat} (h : k ≤ 9) : (digitChar k).isDigit = true := by
  interval_cases k <;> decide

theorem natDecGo_digits : ∀ (fuel n : Nat), n ≤ fuel + 9 →
    ∀ c ∈ natDecGo fuel n, c.isDigit = true := by
  intro fuel
  induction fuel with
  | zero =>
    intro n hn c hc
    simp only [natDecGo, List.mem_singleton] at hc
    subst hc
    exact digitChar_isDigit (by omega)
  | succ f ih =>
    intro n hn c hc
    simp only [natDecGo] at hc
    by_cases h10 : n < 10
    · rw [if_pos h10] at hc
      simp only [List.mem_singleton] at hc
      subst hc
      exact digitChar_isDigit (by omega)
    · rw [if_neg h10] at hc
      rcases List.mem_append.mp hc with h | h
      · exact ih (n / 10) (by omega) c h
      · simp only [List.mem_singleton] at h
        subst h
        exact digitChar_isDigit (by omega)

theorem natDec_digits (n : Nat) : ∀ c ∈ natDec n, c.isDigit = true :=
  natDecGo_digits n n (by omega)

theorem natDec_ne_nil (n : Nat) : natDec n ≠ [] := by
  unfold natDec
  cases n with
  | zero => simp [natDecGo]
  | succ m =>
    simp only [natDecGo]
    by_cases h : m + 1 < 10
    · simp [h]
    · simp [h]

theorem digit_not_special {c : Char} (h : c.isDigit = true) :
    c ≠ '[' ∧ c ≠ ']' ∧ c ≠ '#' ∧ c ≠ ':' := by
  refine ⟨?_, ?_, ?_, ?_⟩ <;> (rintro rfl; exact absurd h (by decide))

theorem takeWhile_append_stop (p : Char → Bool) :
    ∀ (l r : List Char), (∀ c ∈ l, p c = true) → (∀ c, r.head? = some c → p c = false) →
    (l ++ r).takeWhile p = l ∧ (l ++ r).dropWhile p = r := by
  intro l
  induction l with
  | nil =>
    intro r _ hr
    cases r with
    | nil => simp [List.takeWhile, List.dropWhile]
    | cons c cs =>
      have := hr c rfl
      simp [List.takeWhile, List.dropWhile, this]
  | cons a l' ih =>
    intro r hl hr
    have ha : p a = true := hl a (List.mem_cons_self _ _)
    have := ih r (fun c hc => hl c (List.mem_cons_of_mem _ hc)) hr
    simp only [List.cons_append, List.takeWhile_cons_of_pos ha,
      List.dropWhile_cons_of_pos ha]
    exact ⟨by rw [this.1], this.2⟩

theorem hexSubGo_nil : ∀ f, hexSubGo f [] = [] := by
  intro f
  cases f <;> rfl

theorem hexSubGo_copy : ∀ (pre post : List Char) (f : Nat), '#' ∉ pre →
    (pre ++ post).length ≤ f →
    hexSubGo f (pre ++ post) = pre ++ hexSubGo (f - pre.length) post := by
  intro pre
  induction pre with
  | nil => intro post f _ _; simp
  | cons c pre' ih =>
    intro post f hn hf
    have hc : c ≠ '#' := fun hh => hn (hh ▸ List.mem_cons_self c pre')
    cases f with
    | zero => simp at hf
    | succ f' =>
      have hstep : hexSubGo (f' + 1) (c :: (pre' ++ post)) =
          (if c = '#' then
            match pre' ++ post with
            | '0' :: 'x' :: r2 =>
              if (r2.takeWhile isHexChar).isEmpty then
                '#' :: '0' :: 'x' :: hexSubGo f' r2
              else natDec (hexVal (r2.takeWhile isHexChar)) ++
                hexSubGo f' (r2.dropWhile isHexChar)
            | _ => c :: hexSubGo f' (pre' ++ post)
          else c :: hexSubGo f' (pre' ++ post)) := rfl
      rw [List.cons_append, hstep, if_neg hc]
      rw [ih post f' (fun hm => hn (List.mem_cons_of_mem _ hm))
        (by simp only [List.length_append, List.length_cons, List.length_nil] at hf ⊢; omega)]
      simp only [List.length_cons, List.cons_append]
      congr 3
      omega

theorem hexSubGo_all_copy (l : List Char) (f : Nat) (hn : '#' ∉ l) (hf : l.length ≤ f) :
    hexSubGo f l = l := by
  have := hexSubGo_copy l [] f hn (by simpa using hf)
  simpa [hexSubGo_nil] using this

theorem hexSubGo_hex (f : Nat) (ds post : List Char) (hne : ds ≠ [])
    (hds : ∀ c ∈ ds, isHexChar c = true)
    (hpost : ∀ c, post.head? = some c → isHexChar c = false) :
    hexSubGo (f + 1) ('#' :: '0' :: 'x' :: (ds ++ post)) =
      natDec (hexVal ds) ++ hexSubGo f post := by
  obtain ⟨ht, hd⟩ := takeWhile_append_stop isHexChar ds post hds hpost
  have hstep : hexSubGo (f + 1) ('#' :: '0' :: 'x' :: (ds ++ post)) =
      (if ((ds ++ post).takeWhile isHexChar).isEmpty then
        '#' :: '0' :: 'x' :: hexSubGo f (ds ++ post)
      else natDec (hexVal ((ds ++ post).takeWhile isHexChar)) ++
        hexSubGo f ((ds ++ post).dropWhile isHexChar)) := rfl
  rw [hstep, ht, hd, if_neg (by simpa using hne)]

theorem bracketSub_cons_ne (c : Char) (rest : List Char) (hc : c ≠ '[') :
    bracketSub (c :: rest) = c :: bracketSub rest := by
  simp only [bracketSub, if_neg hc]

theorem bracketSub_copy : ∀ (l t : List Char), (∀ c ∈ l, c ≠ '[') →
    bracketSub (l ++ t) = l ++ bracketSub t := by
  intro l
  induction l with
  | nil => intro t _; simp
  | cons c l' ih =>
    intro t hl
    rw [List.cons_append, bracketSub_cons_ne c _ (hl c (List.mem_cons_self _ _))]
    rw [ih t (fun x hx => hl x (List.mem_cons_of_mem _ hx))]
    simp

theorem bracketSub_collapse (ds t : List Char) (hne : ds ≠ [])
    (hds : ∀ c ∈ ds, Char.isDigit c = true) :
    bracketSub ('[' :: '0' :: ':' :: (ds ++ ']' :: t)) = "[0:a:0]".data ++ t := by
  obtain ⟨ht, hd⟩ := takeWhile_append_stop Char.isDigit ds (']' :: t) hds
    (by intro c hc; simp only [List.head?_cons, Option.some_inj] at hc; subst hc; decide)
  have hstep : bracketSub ('[' :: '0' :: ':' :: (ds ++ ']' :: t)) =
      (match (ds ++ ']' :: t).dropWhile Char.isDigit with
       | ']' :: r3 =>
         if ((ds ++ ']' :: t).takeWhile Char.isDigit).isEmpty then
           '[' :: bracketSub ('0' :: ':' :: (ds ++ ']' :: t))
         else "[0:a:0]".data ++ r3
       | _ => '[' :: bracketSub ('0' :: ':' :: (ds ++ ']' :: t))) := rfl
  rw [hstep, ht, hd]
  have hred : (match ']' :: t with
      | ']' :: r3 =>
        if ds.isEmpty = true then
          '[' :: bracketSub ('0' :: ':' :: (ds ++ ']' :: t))
        else "[0:a:0]".data ++ r3
      | _ => '[' :: bracketSub ('0' :: ':' :: (ds ++ ']' :: t))) =
      (if ds.isEmpty = true then
        '[' :: bracketSub ('0' :: ':' :: (ds ++ ']' :: t))
      else "[0:a:0]".data ++ t) := rfl
  rw [hred, if_neg (by simpa using hne)]

theorem containsSubList_append_left (n l r : List Char) (h : containsSubList n r = true) :
    containsSubList n (l ++ r) = true := by
  induction l with
  | nil => simpa using h
  | cons c l' ih =>
    simp only [List.cons_append, containsSubList, Bool.or_eq_true]
    exact Or.inr ih

theorem mkStr_ne_empty (l : List Char) (h : l ≠ []) : (⟨l⟩ : String) ≠ "" := by
  intro hc
  exact h (congrArg String.data hc)

theorem natDec_not_lbrack (n : Nat) : ∀ c ∈ natDec n, c ≠ '[' :=
  fun c hc => (digit_not_special (natDec_digits n c hc)).1

/-- `hexSub` on a bare hex selector `#0xNN`: the decimal rendering of its
value. -/
theorem hexSub_bare (ds : List Char) (hne : ds ≠ []) (hds : ∀ c ∈ ds, isHexChar c = true) :
    hexSub ('#' :: '0' :: 'x' :: ds) = natDec (hexVal ds) := by
  unfold hexSub
  have hlen : ('#' :: '0' :: 'x' :: ds).length = ds.length + 2 + 1 := by
    simp only [List.length_cons]
  rw [hlen]
  rw [show ('#' :: '0' :: 'x' :: ds) = ('#' :: '0' :: 'x' :: (ds ++ [])) by simp]
  rw [hexSubGo_hex (ds.length + 2) ds [] hne hds (by intro c hc; simp at hc)]
  simp [hexSubGo_nil]

/-- `mapValFix` on a bare hex selector: the decimal value (which, being all
digits, is not further collapsed by the `0:N` rule). -/
theorem mapValFix_hex (ds : List Char) (hne : ds ≠ []) (hds : ∀ c ∈ ds, isHexChar c = true) :
    mapValFix ⟨'#' :: '0' :: 'x' :: ds⟩ = ⟨natDec (hexVal ds)⟩ := by
  unfold mapValFix
  rw [show (⟨'#' :: '0' :: 'x' :: ds⟩ : String).data = '#' :: '0' :: 'x' :: ds from rfl]
  rw [hexSub_bare ds hne hds]
  have hmz : matchZeroColonDigits ⟨natDec (hexVal ds)⟩ = false := by
    unfold matchZeroColonDigits
    split
    · next rest heq =>
      exfalso
      have hmem : ':' ∈ natDec (hexVal ds) := by
        have : (⟨natDec (hexVal ds)⟩ : String).data = '0' :: ':' :: rest := heq
        rw [show (⟨natDec (hexVal ds)⟩ : String).data = natDec (hexVal ds) from rfl] at this
        rw [this]
        simp
      exact absurd (natDec_digits _ ':' hmem) (by decide)
    · rfl
  simp [hmz]

/-- `bracketSub` copies the canonical already-collapsed audio filter prefix
unchanged. -/
theorem bracketSub_pre (t : List Char) :
    bracketSub ("[0:a:0]aresample=ocl=".data ++ t) =
      "[0:a:0]aresample=ocl=".data ++ bracketSub t := rfl

/-- `audioFilterFix` for local FFmpeg major versions of at least 5 performs
only the hex-to-decimal and `[0:N]`-collapse substitutions (no `ochl=`
downgrade). -/
theorem audioFilterFix_ge5 (major : Nat) (h : ¬ major < 5) (s : String) :
    audioFilterFix major s = ⟨bracketSub (hexSub s.data)⟩ := by
  unfold audioFilterFix
  dsimp only
  rw [if_neg h]

/-- `audioFilterFix` on a filter whose hex selector sits outside any `[0:N]`
context: the selector is rewritten to decimal and everything else is kept. -/
theorem audioFilterFix_decimal (ds : List Char) (hne : ds ≠ [])
    (hds : ∀ c ∈ ds, isHexChar c = true) :
    audioFilterFix 5 ⟨"[0:a:0]aresample=ocl=#0x".data ++ ds ++ "[7]".data⟩ =
      ⟨"[0:a:0]aresample=ocl=".data ++ natDec (hexVal ds) ++ "[7]".data⟩ := by
  have hdata : ("[0:a:0]aresample=ocl=#0x".data ++ ds ++ "[7]".data) =
      "[0:a:0]aresample=ocl=".data ++ ('#' :: '0' :: 'x' :: (ds ++ "[7]".data)) := by
    rw [show "[0:a:0]aresample=ocl=#0x".data =
      "[0:a:0]aresample=ocl=".data ++ ['#', '0', 'x'] from rfl]
    simp [List.append_assoc]
  have hhex : hexSub ("[0:a:0]aresample=ocl=#0x".data ++ ds ++ "[7]".data) =
      "[0:a:0]aresample=ocl=".data ++ (natDec (hexVal ds) ++ "[7]".data) := by
    rw [hdata]
    unfold hexSub
    rw [hexSubGo_copy "[0:a:0]aresample=ocl=".data ('#' :: '0' :: 'x' :: (ds ++ "[7]".data)) _
      (by decide) (le_refl _)]
    have hfuel : ("[0:a:0]aresample=ocl=".data ++
        ('#' :: '0' :: 'x' :: (ds ++ "[7]".data))).length -
        ("[0:a:0]aresample=ocl=".data).length = (ds.length + 5) + 1 := by
      simp only [List.length_append, List.length_cons, List.length_nil]
      try simp only [show ("[0:a:0]aresample=ocl=".data).length = 21 from rfl,
        show ("[7]".data).length = 3 from rfl]
      omega
    rw [hfuel]
    rw [hexSubGo_hex (ds.length + 5) ds "[7]".data hne hds
      (by intro c hc
          simp only [show ("[7]".data).head? = some '[' from rfl, Option.some_inj] at hc
          subst hc
          decide)]
    rw [hexSubGo_all_copy "[7]".data (ds.length + 5) (by decide)
      (by simp only [show ("[7]".data).length = 3 from rfl]; omega)]
  have hbr : bracketSub ("[0:a:0]aresample=ocl=".data ++ (natDec (hexVal ds) ++ "[7]".data)) =
      "[0:a:0]aresample=ocl=".data ++ (natDec (hexVal ds) ++ "[7]".data) := by
    rw [bracketSub_pre]
    rw [bracketSub_copy (natDec (hexVal ds)) "[7]".data (natDec_not_lbrack _)]
    rw [show bracketSub "[7]".data = "[7]".data from rfl]
  rw [audioFilterFix_ge5 5 (by omega)]
  rw [show (⟨"[0:a:0]aresample=ocl=#0x".data ++ ds ++ "[7]".data⟩ : String).data =
    "[0:a:0]aresample=ocl=#0x".data ++ ds ++ "[7]".data from rfl]
  rw [hhex, hbr]
  exact congrArg String.mk (by simp [List.append_assoc])

/-- `audioFilterFix` on a filter whose hex selector sits inside `[0:N]`: the
selector is first rewritten to decimal, and the whole reference is then
collapsed to `[0:a:0]`, so the decimal digits do not survive. -/
theorem audioFilterFix_collapse (ds : List Char) (hne : ds ≠ [])
    (hds : ∀ c ∈ ds, isHexChar c = true) :
    audioFilterFix 5 ⟨'[' :: '0' :: ':' :: '#' :: '0' :: 'x' :: (ds ++ "]aresample=x[2]".data)⟩ =
      "[0:a:0]aresample=x[2]" := by
  have hhex : hexSub ('[' :: '0' :: ':' :: '#' :: '0' :: 'x' :: (ds ++ "]aresample=x[2]".data)) =
      ['[', '0', ':'] ++ (natDec (hexVal ds) ++ "]aresample=x[2]".data) := by
    rw [show ('[' :: '0' :: ':' :: '#' :: '0' :: 'x' :: (ds ++ "]aresample=x[2]".data)) =
      ['[', '0', ':'] ++ ('#' :: '0' :: 'x' :: (ds ++ "]aresample=x[2]".data)) from rfl]
    unfold hexSub
    rw [hexSubGo_copy ['[', '0', ':'] ('#' :: '0' :: 'x' :: (ds ++ "]aresample=x[2]".data)) _
      (by decide) (le_refl _)]
    have hfuel : ((['[', '0', ':'] : List Char) ++
        ('#' :: '0' :: 'x' :: (ds ++ "]aresample=x[2]".data))).length -
        (['[', '0', ':'] : List Char).length = (ds.length + 17) + 1 := by
      simp only [List.length_append, List.length_cons, List.length_nil]
      try simp only [show ("]aresample=x[2]".data).length = 15 from rfl]
      omega
    rw [hfuel]
    rw [hexSubGo_hex (ds.length + 17) ds "]aresample=x[2]".data hne hds
      (by intro c hc
          simp only [show ("]aresample=x[2]".data).head? = some ']' from rfl,
            Option.some_inj] at hc
          subst hc
          decide)]
    rw [hexSubGo_all_copy "]aresample=x[2]".data (ds.length + 17) (by decide)
      (by simp only [show ("]aresample=x[2]".data).length = 15 from rfl]; omega)]
  rw [audioFilterFix_ge5 5 (by omega)]
  rw [show (⟨'[' :: '0' :: ':' :: '#' :: '0' :: 'x' :: (ds ++ "]aresample=x[2]".data)⟩ :
    String).data = '[' :: '0' :: ':' :: '#' :: '0' :: 'x' :: (ds ++ "]aresample=x[2]".data)
    from rfl]
  rw [hhex]
  rw [show ((['[', '0', ':'] : List Char) ++ (natDec (hexVal ds) ++ "]aresample=x[2]".data)) =
    '[' :: '0' :: ':' :: (natDec (hexVal ds) ++ ']' :: "aresample=x[2]".data) by simp]
  rw [bracketSub_collapse (natDec (hexVal ds)) "aresample=x[2]".data (natDec_ne_nil _)
    (natDec_digits _)]
  rfl

theorem extractPlexInfo_hexMap (ds : List Char) (hne : ds ≠ []) :
    extractPlexInfo 5 ["-vn", "-map", ⟨'#' :: '0' :: 'x' :: ds⟩] =
      some { audio_streams := [{ map := mapValFix ⟨'#' :: '0' :: 'x' :: ds⟩ }],
             has_video := false,
             output_path := some ⟨'#' :: '0' :: 'x' :: ds⟩ } := by
  have ht : (⟨'#' :: '0' :: 'x' :: ds⟩ : String) ≠ "" := mkStr_ne_empty _ (by simp)
  have h1 : (⟨'#' :: '0' :: 'x' :: ds⟩ : String) ≠ "-start_at_zero" := by
    intro hc
    have := congrArg String.data hc
    simp at this
  have h2 : (⟨'#' :: '0' :: 'x' :: ds⟩ : String) ≠ "-copyts" := by
    intro hc
    have := congrArg String.data hc
    simp at this
  have h3 : (⟨'#' :: '0' :: 'x' :: ds⟩ : String) ≠ "-filter_complex" := by
    intro hc
    have := congrArg String.data hc
    simp at this
  simp +decide [extractPlexInfo, extractLoop, firstPassLabel, ht, h1, h2, h3, strStartsWith]

theorem extractPlexInfo_hexFilter (ds : List Char) (hne : ds ≠ []) :
    extractPlexInfo 5 ["-vn", "-filter_complex",
        ⟨'[' :: '0' :: ':' :: '#' :: '0' :: 'x' :: (ds ++ "]aresample=x[2]".data)⟩] =
      some { audio_filter := some (audioFilterFix 5
               ⟨'[' :: '0' :: ':' :: '#' :: '0' :: 'x' :: (ds ++ "]aresample=x[2]".data)⟩),
             has_video := false,
             output_path := some
               ⟨'[' :: '0' :: ':' :: '#' :: '0' :: 'x' :: (ds ++ "]aresample=x[2]".data)⟩ } := by
  have hcs : containsSub
      ⟨'[' :: '0' :: ':' :: '#' :: '0' :: 'x' :: (ds ++ "]aresample=x[2]".data)⟩
      "aresample" = true := by
    unfold containsSub
    simp only [containsSubList, List.isPrefixOf, Bool.or_eq_true]
    refine Or.inr (Or.inr (Or.inr (Or.inr (Or.inr (Or.inr ?_)))))
    rw [show ('a' :: 'r' :: 'e' :: 's' :: 'a' :: 'm' :: 'p' :: 'l' :: 'e' :: []) =
      "aresample".data from rfl]
    exact containsSubList_append_left _ _ _ (by decide)
  have hlab : lastBracketLabel
      ⟨'[' :: '0' :: ':' :: '#' :: '0' :: 'x' :: (ds ++ "]aresample=x[2]".data)⟩ =
      some "[2]" := by
    unfold lastBracketLabel
    simp only [List.reverse_cons, List.reverse_append, List.append_assoc]
    rfl
  have ht : (⟨'[' :: '0' :: ':' :: '#' :: '0' :: 'x' :: (ds ++ "]aresample=x[2]".data)⟩ :
      String) ≠ "" := mkStr_ne_empty _ (by simp)
  simp +decide [extractPlexInfo, extractLoop, firstPassLabel, hcs, hlab, ht, strStartsWith]

/-- C6 as stated is false at `[0:#0x81]`: the hex selector occurs in the
retained `-filter_complex` body, but its decimal value 129 appears nowhere
in the rewritten vector — the `[0:129]` reference produced by the hex
conversion is immediately collapsed to `[0:a:0]`. -/
theorem C6_counterexample :
    containsSub "[0:#0x81]aresample=async=1[2]" "#0x81" = true ∧
    (buildPlexCommand { hw_accel := "none" } "none" "libx264" 4 "j"
        ["-vn", "-filter_complex", "[0:#0x81]aresample=async=1[2]", "-map", "[2]"]
        false false).map
      (fun out => decide (∀ x ∈ out, containsSub x "129" = false)) = some true := by
  constructor
  · decide
  · decide

/-- C6 (amended). Hexadecimal stream selectors `#0xNN` are rewritten to
decimal N, but the result is not kept verbatim everywhere: after the hex
conversion, the first `[0:N]` reference in the retained filter body is
collapsed to `[0:a:0]` (consuming the decimal digits), and a `-map` value
that is exactly `0:N` (N ≠ 0) is collapsed to `0:a:0`. Concretely, for
every non-empty hex digit string: a bare `-map #0xNN` value becomes the
decimal rendering and survives into the emitted vector; a selector outside
any `[0:N]` context inside the retained `aresample` filter becomes its
decimal rendering; and a selector inside `[0:N]` is collapsed, so its
decimal value does not appear. -/
theorem C6_hex_selectors (ds : List Char) (hne : ds ≠ [])
    (hds : ∀ c ∈ ds, isHexChar c = true) :
    mapValFix ⟨'#' :: '0' :: 'x' :: ds⟩ = ⟨natDec (hexVal ds)⟩ ∧
    audioFilterFix 5 ⟨"[0:a:0]aresample=ocl=#0x".data ++ ds ++ "[7]".data⟩ =
      ⟨"[0:a:0]aresample=ocl=".data ++ natDec (hexVal ds) ++ "[7]".data⟩ ∧
    audioFilterFix 5 ⟨'[' :: '0' :: ':' :: '#' :: '0' :: 'x' ::
      (ds ++ "]aresample=x[2]".data)⟩ = "[0:a:0]aresample=x[2]" ∧
    buildPlexCommand {} "none" "libx264" 5 "j"
        ["-vn", "-map", ⟨'#' :: '0' :: 'x' :: ds⟩] false false =
      some ["-i", "", "-y", "-map", ⟨natDec (hexVal ds)⟩, "-f", "dash",
        "-dash_segment_type", "mp4", "-avoid_negative_ts", "disabled",
        "-map_metadata", "-1", "-map_chapters", "-1", ⟨'#' :: '0' :: 'x' :: ds⟩] ∧
    buildPlexCommand {} "none" "libx264" 5 "j"
        ["-vn", "-filter_complex",
          ⟨'[' :: '0' :: ':' :: '#' :: '0' :: 'x' :: (ds ++ "]aresample=x[2]".data)⟩]
        false false =
      some ["-i", "", "-y", "-filter_complex", "[0:a:0]aresample=x[2]", "-f", "dash",
        "-dash_segment_type", "mp4", "-avoid_negative_ts", "disabled",
        "-map_metadata", "-1", "-map_chapters", "-1",
        ⟨'[' :: '0' :: ':' :: '#' :: '0' :: 'x' :: (ds ++ "]aresample=x[2]".data)⟩] := by
  have hmv := mapValFix_hex ds hne hds
  refine ⟨hmv, audioFilterFix_decimal ds hne hds, audioFilterFix_collapse ds hne hds, ?_, ?_⟩
  · unfold buildPlexCommand
    rw [extractPlexInfo_hexMap ds hne, Option.map]
    refine congrArg some ?_
    have htv : truthy (some (⟨'#' :: '0' :: 'x' :: ds⟩ : String)) = true := by
      simp [truthy, mkStr_ne_empty _ (show ('#' :: '0' :: 'x' :: ds) ≠ [] by simp)]
    have htm : truthy (some (mapValFix ⟨'#' :: '0' :: 'x' :: ds⟩)) = true := by
      rw [hmv]
      simp [truthy, mkStr_ne_empty _ (natDec_ne_nil _)]
    have hne0 : (⟨'#' :: '0' :: 'x' :: ds⟩ : String) ≠ "" :=
      mkStr_ne_empty _ (by simp)
    simp [buildPlexParts, buildTailA, hwAccelSegA, inputSegA, videoSegA, audioSegA,
      audioStreamSegA, metaSegA, fmtSegA, outFmtA, outPathA, truthy,
      Settings.get_path_mappings, sortByLenDesc, applyPathMappings, htv, hmv, hne0,
      mkStr_ne_empty _ (natDec_ne_nil (hexVal ds)),
      (show List.range 1 = [0] by decide), List.zip_cons_cons, List.zip_nil_right, List.flatMap_cons,
      List.flatMap_nil]
  · unfold buildPlexCommand
    rw [extractPlexInfo_hexFilter ds hne, Option.map]
    refine congrArg some ?_
    have htv : truthy (some (⟨'[' :: '0' :: ':' :: '#' :: '0' :: 'x' ::
        (ds ++ "]aresample=x[2]".data)⟩ : String)) = true := by
      simp [truthy, mkStr_ne_empty _
        (show ('[' :: '0' :: ':' :: '#' :: '0' :: 'x' :: (ds ++ "]aresample=x[2]".data)) ≠ []
          by simp)]
    have hne0 : (⟨'[' :: '0' :: ':' :: '#' :: '0' :: 'x' ::
        (ds ++ "]aresample=x[2]".data)⟩ : String) ≠ "" := mkStr_ne_empty _ (by simp)
    simp [buildPlexParts, buildTailA, hwAccelSegA, inputSegA, videoSegA, audioSegA,
      audioStreamSegA, metaSegA, fmtSegA, outFmtA, outPathA, truthy,
      Settings.get_path_mappings, sortByLenDesc, applyPathMappings, htv, hne0,
      audioFilterFix_collapse ds hne hds,
      (show List.range 1 = [0] by decide), List.zip_cons_cons, List.zip_nil_right, List.flatMap_cons,
      List.flatMap_nil]

/-- Concrete instantiation of `C6_hex_selectors` at the selector `#0x81`
(decimal 129). -/
theorem C6_hex_selectors_witness :
    mapValFix "#0x81" = "129" ∧
    audioFilterFix 5 "[0:a:0]aresample=ocl=#0x81[7]" = "[0:a:0]aresample=ocl=129[7]" := by
  have h := C6_hex_selectors ['8', '1'] (by decide) (by decide)
  refine ⟨?_, ?_⟩
  · have h1 := h.1
    rw [show (⟨'#' :: '0' :: 'x' :: ['8', '1']⟩ : String) = "#0x81" from rfl] at h1
    rw [h1]
    decide
  · have h2 := h.2.1
    rw [show (⟨"[0:a:0]aresample=ocl=#0x".data ++ ['8', '1'] ++ "[7]".data⟩ : String) =
      "[0:a:0]aresample=ocl=#0x81[7]" from by decide] at h2
    rw [h2]
    decide

/-! ## Job queue and lifecycle (`worker.py`, `JobQueue`, endpoints).

The registry dict, FIFO queue, active set, worker pool, and last-poll map
become explicit fields of a state record; each source operation becomes a
state transformer, and a trace of events drives the machine. Job objects
aliased between the dict and the queue are represented by keeping the dict
as the single source of truth and carrying ids in the queue. A ghost
`spawn_log` records every `create_subprocess_exec` call. -/

/-- Subprocess handle: only the return code is observable to the queue
logic (`None` while running). -/
structure Proc where
  returncode : Option Int := none
deriving DecidableEq

/-- `TranscodeJob`, restricted to the fields the job-lifecycle logic reads:
identity, source tag, raw args, the subprocess handle, timestamps, and the
progress record (whose `status` field is the job status). `spawned` is a
ghost flag set whenever FFmpeg is spawned for this job. -/
structure Job where
  job_id : String
  source : String := "plex"
  raw_args : List String := []
  process : Option Proc := none
  spawned : Bool := false
  started_at : Option Nat := none
  completed_at : Option Nat := none
  progress : TranscodeProgress
deriving DecidableEq

/-- Lookup in an association list modelling a Python dict. -/
def alookup {β : Type} : List (String × β) → String → Option β
  | [], _ => none
  | (k, v) :: rest, key => if key = k then some v else alookup rest key

/-- Dict assignment `m[k] = v`. -/
def aset {β : Type} : List (String × β) → String → β → List (String × β)
  | [], k, v => [(k, v)]
  | (k', v') :: rest, k, v =>
    if k = k' then (k, v) :: rest else (k', v') :: aset rest k v

/-- In-place mutation of the value stored at `k` (Python mutates the job
object that the dict, the queue and the active set all alias). -/
def aupdate {β : Type} : List (String × β) → String → (β → β) → List (String × β)
  | [], _, _ => []
  | (k', v') :: rest, k, f =>
    if k = k' then (k', f v') :: rest else (k', v') :: aupdate rest k f

/-- Python `dict.pop(k, None)`. -/
def apop {β : Type} (m : List (String × β)) (k : String) : List (String × β) :=
  m.filter (fun p => p.1 != k)

/-- Python `set.add`. -/
def activeAdd (l : List String) (id : String) : List String :=
  if id ∈ l then l else l ++ [id]

/-- Python `set.discard`. -/
def activeDiscard (l : List String) (id : String) : List String :=
  l.filter (fun x => x != id)

/-- The whole `JobQueue` state plus the filesystem artifacts the endpoints
write and the ghost spawn log. -/
structure QueueState where
  jobs : List (String × Job) := []
  queue : List String := []
  active_jobs : List String := []
  workers : List (Option String) := []
  last_polled : List (String × Nat) := []
  spawn_log : List String := []
  files : List (String × Nat) := []
deriving DecidableEq

/-- `JobQueue.submit_job`: register the job, mark it queued, enqueue it. -/
def submitJob (s : QueueState) (j : Job) : QueueState :=
  let j' := { j with progress := { j.progress with status := "queued" } }
  { s with jobs := aset s.jobs j.job_id j', queue := s.queue ++ [j.job_id] }

/-- The beam-stream branch of the `/transcode` handler: the job is
registered as pending but not enqueued. -/
def registerBeam (s : QueueState) (j : Job) : QueueState :=
  let j' := { j with progress := { j.progress with status := "pending" } }
  { s with jobs := aset s.jobs j.job_id j' }

/-- `FFmpegTranscoder.cancel`: terminate the live subprocess (modelled by a
negative exit code) and mark the job cancelled; a job without a live
subprocess is left unchanged. -/
def transcoderCancel (j : Job) : Job :=
  match j.process with
  | some p =>
    if p.returncode = none then
      { j with process := some { returncode := some (-15) },
               progress := { j.progress with status := "cancelled" } }
    else j
  | none => j

/-- `JobQueue.cancel_job`: `False` for an unknown id; a running job's
subprocess is cancelled; a queued job is marked cancelled; any other status
is left untouched (and the call still reports success). -/
def cancelJob (s : QueueState) (id : String) : Bool × QueueState :=
  match alookup s.jobs id with
  | none => (false, s)
  | some j =>
    if j.progress.status = "running" then
      (true, { s with jobs := aset s.jobs id (transcoderCancel j) })
    else if j.progress.status = "queued" then
      let j' := { j with progress := { j.progress with status := "cancelled" } }
      (true, { s with jobs := aset s.jobs id j' })
    else (true, s)

/-- One pass of `JobQueue._worker`'s dequeue phase for worker slot `k`:
take the queue head, add it to the active set, and run
`transcoder.transcode`, which immediately marks the job running and spawns
FFmpeg — with no check of a cancellation that raced the queue. -/
def workerStart (s : QueueState) (k : Nat) (now : Nat) : QueueState :=
  match s.workers.get? k, s.queue with
  | some none, id :: qrest =>
    { s with
      queue := qrest,
      workers := s.workers.set k (some id),
      active_jobs := activeAdd s.active_jobs id,
      jobs := aupdate s.jobs id (fun j =>
        { j with started_at := some now, spawned := true,
                 process := some { returncode := none },
                 progress := { j.progress with status := "running" } }),
      spawn_log := s.spawn_log ++ [id] }
  | _, _ => s

/-- Completion phase of `JobQueue._worker` / `transcoder.transcode`: wait
for the subprocess, set completed (progress 100) on exit code 0 and failed
otherwise, release the worker slot and the active set entry. -/
def workerFinish (s : QueueState) (k : Nat) (rc : Int) (now : Nat) : QueueState :=
  match s.workers.get? k with
  | some (some id) =>
    { s with
      workers := s.workers.set k none,
      active_jobs := activeDiscard s.active_jobs id,
      jobs := aupdate s.jobs id (fun j =>
        { j with completed_at := some now,
                 process := some { returncode := some rc },
                 progress := if rc = 0 then
                     { j.progress with status := "completed", progress := 100 }
                   else { j.progress with status := "failed" } }) }
  | _ => s

/-- `/beam/stream/{job_id}`: for a registered job, spawn FFmpeg with a
stdin pipe, mark it running and add it to the active set — with no check
against the concurrency cap. Unknown ids change nothing (404). -/
def beamStreamStart (s : QueueState) (id : String) (now : Nat) : QueueState :=
  match alookup s.jobs id with
  | none => s
  | some _ =>
    { s with
      jobs := aupdate s.jobs id (fun j =>
        { j with spawned := true, process := some { returncode := none },
                 started_at := some now,
                 progress := { j.progress with status := "running" } }),
      active_jobs := activeAdd s.active_jobs id,
      spawn_log := s.spawn_log ++ [id] }

/-- Tail of the `/beam/stream/{job_id}` handler: after EOF the subprocess
is awaited; exit code 0 yields completed (progress 100), anything else
failed, and the job leaves the active set. -/
def beamStreamFinish (s : QueueState) (id : String) (rc : Int) (now : Nat) : QueueState :=
  match alookup s.jobs id with
  | none => s
  | some _ =>
    { s with
      jobs := aupdate s.jobs id (fun j =>
        { j with completed_at := some now,
                 process := some { returncode := some rc },
                 progress := if rc = 0 then
                     { j.progress with status := "completed", progress := 100 }
                   else { j.progress with status := "failed" } }),
      active_jobs := activeDiscard s.active_jobs id }

/-- `JobQueue.record_poll`. -/
def recordPoll (s : QueueState) (id : String) (t : Nat) : QueueState :=
  { s with last_polled := aset s.last_polled id t }

/-- The poll-tracking side effect of `GET /status/{job_id}`: only jobs in
running or queued states have their last-poll time recorded. -/
def statusPoll (s : QueueState) (id : String) (t : Nat) : QueueState :=
  match alookup s.jobs id with
  | none => s
  | some j =>
    if j.progress.status = "running" ∨ j.progress.status = "queued" then
      recordPoll s id t
    else s

/-- One candidate of `JobQueue._orphan_reaper`'s sweep: an entry of the
active set is cancelled (and its poll record dropped) exactly when its
last-poll time exists and lies more than 90 seconds in the past. -/
def reaperStep (now : Nat) (s : QueueState) (id : String) : QueueState :=
  match alookup s.last_polled id with
  | some t =>
    if t + 90 < now then
      let s' := (cancelJob s id).2
      { s' with last_polled := apop s'.last_polled id }
    else s
  | none => s

/-- One wake-up of `JobQueue._orphan_reaper` (the loop body after the 15 s
sleep): sweep a snapshot of the active set. -/
def reaperTick (s : QueueState) (now : Nat) : QueueState :=
  s.active_jobs.foldl (reaperStep now) s

/-- Events driving the queue machine; each corresponds to one source-level
transition. -/
inductive Event where
  | submit (j : Job)
  | register (j : Job)
  | cancel (id : String)
  | wstart (k : Nat) (now : Nat)
  | wfinish (k : Nat) (rc : Int) (now : Nat)
  | bstart (id : String) (now : Nat)
  | bfinish (id : String) (rc : Int) (now : Nat)
  | poll (id : String) (t : Nat)
  | reap (now : Nat)
deriving DecidableEq

/-- Step function dispatching an event to the corresponding operation. -/
def step (s : QueueState) : Event → QueueState
  | .submit j => submitJob s j
  | .register j => registerBeam s j
  | .cancel id => (cancelJob s id).2
  | .wstart k now => workerStart s k now
  | .wfinish k rc now => workerFinish s k rc now
  | .bstart id now => beamStreamStart s id now
  | .bfinish id rc now => beamStreamFinish s id rc now
  | .poll id t => statusPoll s id t
  | .reap now => reaperTick s now

/-- `JobQueue.start_workers`: a fresh queue with exactly
`max_concurrent_jobs` idle worker tasks. -/
def initState (cap : Nat) : QueueState :=
  { workers := List.replicate cap none }

/-- Run a trace of events from the initial state. -/
def runEvents (cap : Nat) (evs : List Event) : QueueState :=
  evs.foldl step (initState cap)

/-- Status of a job in the registry. -/
def jobStatus (s : QueueState) (id : String) : Option String :=
  (alookup s.jobs id).map (fun j => j.progress.status)

/-- Ghost observation: whether FFmpeg was ever spawned for the job. -/
def jobSpawned (s : QueueState) (id : String) : Option Bool :=
  (alookup s.jobs id).map (fun j => j.spawned)

/-- Number of jobs whose status is `running`. -/
def runningCount (s : QueueState) : Nat :=
  s.jobs.countP (fun p => p.2.progress.status == "running")

/-- Number of busy worker slots. -/
def busyCount (s : QueueState) : Nat :=
  s.workers.countP Option.isSome

/-- A minimal job value for concrete traces. -/
def mkJob (id : String) : Job :=
  { job_id := id, progress := { job_id := id } }

/-- Ghost observation: whether the job's subprocess handle is live. -/
def jobProcLive (s : QueueState) (id : String) : Option Bool :=
  (alookup s.jobs id).map (fun j => j.process == some { returncode := none })

theorem alookup_aset_self {β : Type} (m : List (String × β)) (k : String) (v : β) :
    alookup (aset m k v) k = some v := by
  induction m with
  | nil => simp [aset, alookup]
  | cons p rest ih =>
    obtain ⟨k0, v0⟩ := p
    by_cases h : k = k0
    · simp [aset, alookup, h]
    · simp [aset, alookup, h, ih]

theorem alookup_aset_ne {β : Type} (m : List (String × β)) (k k' : String) (v : β)
    (h : k' ≠ k) : alookup (aset m k v) k' = alookup m k' := by
  induction m with
  | nil => simp [aset, alookup, h]
  | cons p rest ih =>
    obtain ⟨k0, v0⟩ := p
    by_cases h0 : k = k0
    · subst h0
      simp [aset, alookup, h]
    · by_cases h1 : k' = k0
      · simp [aset, alookup, h0, h1]
      · simp [aset, alookup, h0, h1, ih]

theorem alookup_aupdate_ne {β : Type} (m : List (String × β)) (k k' : String)
    (f : β → β) (h : k' ≠ k) : alookup (aupdate m k f) k' = alookup m k' := by
  induction m with
  | nil => simp [aupdate, alookup]
  | cons p rest ih =>
    obtain ⟨k0, v0⟩ := p
    by_cases h0 : k = k0
    · subst h0
      simp [aupdate, alookup, h]
    · by_cases h1 : k' = k0
      · simp [aupdate, alookup, h0, h1]
      · simp [aupdate, alookup, h0, h1, ih]

theorem alookup_aupdate_self {β : Type} (m : List (String × β)) (k : String)
    (f : β → β) : alookup (aupdate m k f) k = (alookup m k).map f := by
  induction m with
  | nil => simp [aupdate, alookup]
  | cons p rest ih =>
    obtain ⟨k0, v0⟩ := p
    by_cases h0 : k = k0
    · simp [aupdate, alookup, h0]
    · simp [aupdate, alookup, h0, ih]

theorem alookup_apop_ne {β : Type} (m : List (String × β)) (k k' : String)
    (h : k' ≠ k) : alookup (apop m k) k' = alookup m k' := by
  induction m with
  | nil => rfl
  | cons p rest ih =>
    obtain ⟨k0, v0⟩ := p
    by_cases h0 : k0 = k
    · subst h0
      simp only [apop] at ih ⊢
      rw [List.filter_cons]
      simp [alookup, h, ih]
    · by_cases h1 : k' = k0
      · subst h1
        simp only [apop] at ih ⊢
        rw [List.filter_cons]
        simp [alookup, h0, ih, h]
      · simp only [apop] at ih ⊢
        rw [List.filter_cons]
        by_cases hb : ((k0, v0).1 != k) = true
        · rw [if_pos hb]
          simp [alookup, h1, ih]
        · simp at hb
          exact absurd hb h0

/-! C1: the cancellation race. A job cancelled while queued is nevertheless
dequeued by a worker, marked running, given an FFmpeg subprocess, and
driven to `completed` — the terminal `cancelled` status is not absorbing
and a subprocess is spawned. -/

/-- C1. Evaluating the lifecycle machine at the failing input: submit
`j1`, cancel it while queued (status becomes `cancelled`), then let worker
0 dequeue. The worker runs the job anyway: status becomes `running`, an
FFmpeg subprocess is spawned, and the job finally reports `completed` —
contradicting both parts of the claim (terminal states absorbing; no
subprocess for a queued-then-cancelled job), whose intent the specification
states explicitly ("the scheduler dequeue must skip or safely terminate the
already-cancelled job"). -/
theorem C1_cancel_race_code_bug :
    jobStatus (runEvents 1 [.submit (mkJob "j1"), .cancel "j1"]) "j1" =
      some "cancelled" ∧
    jobStatus (runEvents 1 [.submit (mkJob "j1"), .cancel "j1", .wstart 0 5]) "j1" =
      some "running" ∧
    jobSpawned (runEvents 1 [.submit (mkJob "j1"), .cancel "j1", .wstart 0 5]) "j1" =
      some true ∧
    jobStatus (runEvents 1
      [.submit (mkJob "j1"), .cancel "j1", .wstart 0 5, .wfinish 0 0 9]) "j1" =
      some "completed" := by
  refine ⟨?_, ?_, ?_, ?_⟩ <;> decide

/-! C2: the worker pool bounds queue-path concurrency, but beam-stream jobs
bypass it. -/

theorem cancelJob_workers (s : QueueState) (id : String) :
    ((cancelJob s id).2).workers = s.workers := by
  unfold cancelJob
  rcases alookup s.jobs id with _ | j
  · rfl
  · dsimp only
    split
    · rfl
    · split
      · rfl
      · rfl

theorem reaperStep_workers (now : Nat) (s : QueueState) (id : String) :
    (reaperStep now s id).workers = s.workers := by
  unfold reaperStep
  rcases alookup s.last_polled id with _ | t
  · rfl
  · dsimp only
    split
    · exact cancelJob_workers s id
    · rfl

theorem reaperTick_workers_aux (now : Nat) :
    ∀ (l : List String) (s : QueueState),
    (l.foldl (reaperStep now) s).workers = s.workers := by
  intro l
  induction l with
  | nil => intro s; rfl
  | cons id rest ih =>
    intro s
    rw [List.foldl_cons, ih, reaperStep_workers]

theorem step_workers_length (s : QueueState) (e : Event) :
    (step s e).workers.length = s.workers.length := by
  cases e with
  | submit j => rfl
  | register j => rfl
  | cancel id => rw [show (step s (.cancel id)) = (cancelJob s id).2 from rfl,
      cancelJob_workers]
  | wstart k now =>
    show (workerStart s k now).workers.length = _
    unfold workerStart
    rcases s.workers.get? k with _ | w
    · rcases s.queue with _ | ⟨id, q⟩ <;> rfl
    · rcases w with _ | id0
      · rcases hq : s.queue with _ | ⟨id, q⟩
        · rfl
        · simp [List.length_set]
      · rcases s.queue with _ | ⟨id, q⟩ <;> rfl
  | wfinish k rc now =>
    show (workerFinish s k rc now).workers.length = _
    unfold workerFinish
    rcases s.workers.get? k with _ | w
    · rfl
    · rcases w with _ | id0
      · rfl
      · simp [List.length_set]
  | bstart id now =>
    show (beamStreamStart s id now).workers.length = _
    unfold beamStreamStart
    rcases alookup s.jobs id with _ | j <;> rfl
  | bfinish id rc now =>
    show (beamStreamFinish s id rc now).workers.length = _
    unfold beamStreamFinish
    rcases alookup s.jobs id with _ | j <;> rfl
  | poll id t =>
    show (statusPoll s id t).workers.length = _
    unfold statusPoll
    rcases alookup s.jobs id with _ | j
    · rfl
    · dsimp only
      split <;> rfl
  | reap now =>
    show (reaperTick s now).workers.length = _
    unfold reaperTick
    rw [reaperTick_workers_aux]

/-- C2 as stated is false: with a concurrency cap of 1 (one worker task),
two beam-stream jobs registered and started through `/beam/stream` are both
`running` at once — the beam path adds to the active set and marks jobs
running without consulting the cap. -/
theorem C2_counterexample :
    (initState 1).workers.length = 1 ∧
    runningCount (runEvents 1 [.register (mkJob "j1"), .register (mkJob "j2"),
      .bstart "j1" 0, .bstart "j2" 0]) = 2 := by
  constructor <;> decide

/-- C2 (amended). The queue path respects the cap structurally: the pool
has exactly `cap` worker tasks, each processing at most one job at a time,
so over every event trace at most `cap` jobs are simultaneously held by
workers. Beam-stream jobs are started outside the pool with no cap check,
so the total number of `running` jobs can exceed the cap (see the
counterexample). -/
theorem C2_concurrency_cap (cap : Nat) (evs : List Event) :
    busyCount (runEvents cap evs) ≤ cap := by
  have hlen : (runEvents cap evs).workers.length = cap := by
    have haux : ∀ (l : List Event) (s : QueueState),
        (l.foldl step s).workers.length = s.workers.length := by
      intro l
      induction l with
      | nil => intro s; rfl
      | cons e rest ih =>
        intro s
        rw [List.foldl_cons, ih, step_workers_length]
    rw [runEvents, haux]
    simp [initState]
  calc busyCount (runEvents cap evs)
      ≤ (runEvents cap evs).workers.length := List.countP_le_length _
    _ = cap := hlen

/-! C3: the shared-secret gate. -/

/-- `verify_api_key`: raises 401 exactly when a (truthy) key is configured
and the request header differs from it. -/
def verifyRejects (cfg hdr : Option String) : Bool :=
  match cfg with
  | none => false
  | some k => if k = "" then false else decide (hdr ≠ some k)

/-- `DELETE /job/{job_id}`: key check, then `cancel_job`; unknown ids give
404, everything else reports `cancelled`. -/
def cancelEndpoint (cfg hdr : Option String) (s : QueueState) (id : String) :
    (Nat × String) × QueueState :=
  if verifyRejects cfg hdr then ((401, "Invalid API key"), s)
  else
    match cancelJob s id with
    | (false, s') => ((404, "Job not found"), s')
    | (true, s') => ((200, "cancelled"), s')

/-- The request body of `POST /transcode`, restricted to the fields the
handler reads into the lifecycle model. -/
structure TranscodeRequest where
  job_id : String
  input_type : String := ""
  input_path : String := ""
  input_url : String := ""
  raw_args : List String := []
  source : String := "plex"
  beam_stream : Bool := false
deriving DecidableEq

/-- Input-path resolution of the `/transcode` handler: type dispatch,
`file:` prefix stripping, and the single `media_path_from/to` mapping. -/
def resolveInputPath (st : Settings) (req : TranscodeRequest) : String :=
  let p := if req.input_type = "file" then req.input_path
    else if req.input_type = "http" then req.input_url
    else if req.input_path ≠ "" then req.input_path else req.input_url
  let p := stripFilePrefix p
  if truthy st.media_path_from ∧ truthy st.media_path_to then
    if strStartsWith p (st.media_path_from.getD "") then
      st.media_path_to.getD "" ++ strDrop p (st.media_path_from.getD "").length
    else p
  else p

/-- `POST /transcode`: key check, input resolution (400 when empty), then
either beam registration (pending, not enqueued) or submission. -/
def createTranscodeJob (cfg hdr : Option String) (st : Settings) (s : QueueState)
    (req : TranscodeRequest) : (Nat × String) × QueueState :=
  if verifyRejects cfg hdr then ((401, "Invalid API key"), s)
  else
    let ip := resolveInputPath st req
    if ip = "" then ((400, "No input path or URL provided"), s)
    else
      let job : Job :=
        { job_id := req.job_id, source := req.source,
          raw_args := req.raw_args, progress := { job_id := req.job_id } }
      if req.beam_stream then ((200, "pending"), registerBeam s job)
      else ((200, "queued"), submitJob s job)

/-- `POST /transcode/raw`: key check, then submission of the job parsed
from the raw argument vector. -/
def createRawTranscodeJob (cfg hdr : Option String) (s : QueueState)
    (jobId : String) (args : List String) : (Nat × String) × QueueState :=
  if verifyRejects cfg hdr then ((401, "Invalid API key"), s)
  else
    let job : Job :=
      { job_id := jobId, raw_args := args, progress := { job_id := jobId } }
    ((200, "queued"), submitJob s job)

/-- The request body of `POST /transcode/stream`. -/
structure StreamBody where
  input_path : String := ""
  format : String := "mpegts"
  raw_args : List String := []
  source : String := "plex"
deriving DecidableEq

/-- `POST /transcode/stream`. The handler performs no API-key verification
at all; after `file:` stripping an empty input path is a 400, otherwise an
FFmpeg subprocess is spawned for the stream (recorded in the spawn log; the
command construction itself is the argument rewriter's concern). -/
def streamTranscode (cfg hdr : Option String) (st : Settings) (s : QueueState)
    (b : StreamBody) : (Nat × String) × QueueState :=
  let ip := stripFilePrefix b.input_path
  if ip = "" then ((400, "No input_path provided"), s)
  else ((200, "stream"), { s with spawn_log := s.spawn_log ++ ["stream:" ++ ip] })

/-- `POST /beam/stream/{job_id}`. No API-key verification; unknown job ids
give 404, otherwise the job starts immediately. -/
def beamStreamEndpoint (cfg hdr : Option String) (s : QueueState) (id : String)
    (now : Nat) : (Nat × String) × QueueState :=
  match alookup s.jobs id with
  | none => ((404, "Job not found"), s)
  | some _ => ((200, "streaming"), beamStreamStart s id now)

/-- `PUT /beam/upload/{job_id}`. No API-key verification; the body is
written to `<temp>/<job_id>/input` unconditionally. -/
def beamUpload (cfg hdr : Option String) (st : Settings) (s : QueueState)
    (id : String) (size : Nat) : (Nat × String) × QueueState :=
  ((200, "uploaded"), { s with files := s.files ++ [(st.temp_dir ++ "/" ++ id ++ "/input", size)] })

/-- C3 as stated is false: with an API key configured and the header
absent, `PUT /beam/upload`, `POST /transcode/stream` and
`POST /beam/stream` do not answer 401 — they answer 200 and perform their
state changes (a file is written, subprocesses are spawned, a job starts
running). -/
theorem C3_counterexample :
    verifyRejects (some "secret") none = true ∧
    (beamUpload (some "secret") none {} (initState 2) "j1" 100).1.1 = 200 ∧
    (beamUpload (some "secret") none {} (initState 2) "j1" 100).2 ≠ initState 2 ∧
    (streamTranscode (some "secret") none {} (initState 2)
      { input_path := "/m/x.mkv" }).1.1 = 200 ∧
    (streamTranscode (some "secret") none {} (initState 2)
      { input_path := "/m/x.mkv" }).2.spawn_log = ["stream:/m/x.mkv"] ∧
    (beamStreamEndpoint (some "secret") none
      (registerBeam (initState 2) (mkJob "b1")) "b1" 0).1.1 = 200 ∧
    jobStatus (beamStreamEndpoint (some "secret") none
      (registerBeam (initState 2) (mkJob "b1")) "b1" 0).2 "b1" = some "running" := by
  refine ⟨?_, ?_, ?_, ?_, ?_, ?_, ?_⟩ <;> decide

/-- C3 (amended). When a key is configured and the header is missing or
wrong, `POST /transcode`, `POST /transcode/raw` and `DELETE /job/{job_id}`
answer 401 with no state change; but `POST /transcode/stream`,
`POST /beam/stream/{job_id}` and `PUT /beam/upload/{job_id}` never consult
the key — their behaviour is identical whether or not a key is configured
or supplied. -/
theorem C3_api_key_gate :
    (∀ (cfg hdr : Option String) (st : Settings) (s : QueueState) (req : TranscodeRequest),
      verifyRejects cfg hdr = true →
      createTranscodeJob cfg hdr st s req = ((401, "Invalid API key"), s)) ∧
    (∀ (cfg hdr : Option String) (s : QueueState) (jid : String) (args : List String),
      verifyRejects cfg hdr = true →
      createRawTranscodeJob cfg hdr s jid args = ((401, "Invalid API key"), s)) ∧
    (∀ (cfg hdr : Option String) (s : QueueState) (id : String),
      verifyRejects cfg hdr = true →
      cancelEndpoint cfg hdr s id = ((401, "Invalid API key"), s)) ∧
    (∀ (cfg hdr : Option String) (st : Settings) (s : QueueState) (b : StreamBody),
      streamTranscode cfg hdr st s b = streamTranscode none none st s b) ∧
    (∀ (cfg hdr : Option String) (s : QueueState) (id : String) (now : Nat),
      beamStreamEndpoint cfg hdr s id now = beamStreamEndpoint none none s id now) ∧
    (∀ (cfg hdr : Option String) (st : Settings) (s : QueueState) (id : String) (size : Nat),
      beamUpload cfg hdr st s id size = beamUpload none none st s id size) := by
  refine ⟨?_, ?_, ?_, ?_, ?_, ?_⟩
  · intro cfg hdr st s req h
    unfold createTranscodeJob
    rw [if_pos h]
  · intro cfg hdr s jid args h
    unfold createRawTranscodeJob
    rw [if_pos h]
  · intro cfg hdr s id h
    unfold cancelEndpoint
    rw [if_pos h]
  · intro cfg hdr st s b
    rfl
  · intro cfg hdr s id now
    rfl
  · intro cfg hdr st s id size
    rfl

/-- Concrete instantiation of `C3_api_key_gate`: the three checked
endpoints answer 401 to a missing header under a configured key. -/
theorem C3_api_key_gate_witness :
    createTranscodeJob (some "k") none {} (initState 2) { job_id := "j" } =
      ((401, "Invalid API key"), initState 2) ∧
    createRawTranscodeJob (some "k") none (initState 2) "j" ["-i", "x"] =
      ((401, "Invalid API key"), initState 2) ∧
    cancelEndpoint (some "k") none (initState 2) "j" =
      ((401, "Invalid API key"), initState 2) := by
  refine ⟨?_, ?_, ?_⟩
  · exact C3_api_key_gate.1 (some "k") none {} (initState 2) { job_id := "j" } (by decide)
  · exact C3_api_key_gate.2.1 (some "k") none (initState 2) "j" ["-i", "x"] (by decide)
  · exact C3_api_key_gate.2.2.1 (some "k") none (initState 2) "j" (by decide)

/-! C10: cancelling a job that is neither running nor queued. -/

/-- C10. For an existing job whose status is neither `running` nor
`queued`, `cancel_job` reports success without touching the state, so the
DELETE endpoint answers 200/`cancelled` while the job record (status,
progress, subprocess) is unchanged; 404 arises exactly for unknown ids. -/
theorem C10_cancel_frame :
    (∀ (s : QueueState) (id : String) (j : Job),
      alookup s.jobs id = some j →
      j.progress.status ≠ "running" → j.progress.status ≠ "queued" →
      cancelJob s id = (true, s)) ∧
    (∀ (cfg hdr : Option String) (s : QueueState) (id : String) (j : Job),
      verifyRejects cfg hdr = false →
      alookup s.jobs id = some j →
      j.progress.status ≠ "running" → j.progress.status ≠ "queued" →
      cancelEndpoint cfg hdr s id = ((200, "cancelled"), s)) ∧
    (∀ (cfg hdr : Option String) (s : QueueState) (id : String),
      verifyRejects cfg hdr = false →
      alookup s.jobs id = none →
      cancelEndpoint cfg hdr s id = ((404, "Job not found"), s)) := by
  have hbase : ∀ (s : QueueState) (id : String) (j : Job),
      alookup s.jobs id = some j →
      j.progress.status ≠ "running" → j.progress.status ≠ "queued" →
      cancelJob s id = (true, s) := by
    intro s id j hj hr hq
    unfold cancelJob
    rw [hj]
    dsimp only
    rw [if_neg hr, if_neg hq]
  refine ⟨hbase, ?_, ?_⟩
  · intro cfg hdr s id j hk hj hr hq
    unfold cancelEndpoint
    rw [hk]
    simp only [Bool.false_eq_true, if_false]
    rw [hbase s id j hj hr hq]
  · intro cfg hdr s id hk hj
    unfold cancelEndpoint
    rw [hk]
    simp only [Bool.false_eq_true, if_false]
    unfold cancelJob
    rw [hj]

/-- Concrete instantiation of `C10_cancel_frame`: cancelling a completed
job and a pending beam job succeeds with 200 and no state change; an
unknown id gives 404. -/
theorem C10_cancel_frame_witness :
    cancelEndpoint none none (registerBeam (initState 1) (mkJob "p1")) "p1" =
      ((200, "cancelled"), registerBeam (initState 1) (mkJob "p1")) ∧
    cancelEndpoint none none (initState 1) "nope" =
      ((404, "Job not found"), initState 1) := by
  constructor
  · exact C10_cancel_frame.2.1 none none (registerBeam (initState 1) (mkJob "p1")) "p1"
      { (mkJob "p1") with progress := { job_id := "p1", status := "pending" } }
      (by decide) (by decide) (by decide) (by decide)
  · exact C10_cancel_frame.2.2 none none (initState 1) "nope" (by decide) (by decide)

/-! C4: the orphan reaper. The source sweeps `active_jobs`, not the set of
running-or-queued jobs, so a queued job — which enters `active_jobs` only
when a worker dequeues it — is invisible to the reaper. -/

theorem cancelJob_last_polled (s : QueueState) (id : String) :
    ((cancelJob s id).2).last_polled = s.last_polled := by
  unfold cancelJob
  rcases alookup s.jobs id with _ | j
  · rfl
  · dsimp only
    split
    · rfl
    · split <;> rfl

theorem cancelJob_jobs_ne (s : QueueState) (id id' : String) (h : id ≠ id') :
    alookup ((cancelJob s id').2).jobs id = alookup s.jobs id := by
  unfold cancelJob
  rcases alookup s.jobs id' with _ | j
  · rfl
  · dsimp only
    split
    · exact alookup_aset_ne s.jobs id' id (transcoderCancel j) h
    · split
      · exact alookup_aset_ne s.jobs id' id _ h
      · rfl

theorem cancelJob_fires (s : QueueState) (id : String)
    (hq : jobStatus s id = some "queued" ∨
      (jobStatus s id = some "running" ∧ jobProcLive s id = some true)) :
    jobStatus ((cancelJob s id).2) id = some "cancelled" := by
  unfold cancelJob
  rcases hj : alookup s.jobs id with _ | j
  · rcases hq with h | ⟨h, _⟩ <;> simp [jobStatus, hj] at h
  · rcases hq with h | ⟨h, hl⟩
    · have hst : j.progress.status = "queued" := by
        simpa [jobStatus, hj] using h
      dsimp only
      rw [if_neg (by rw [hst]; decide), if_pos hst]
      simp [jobStatus, alookup_aset_self]
    · have hst : j.progress.status = "running" := by
        simpa [jobStatus, hj] using h
      have hproc : j.process = some { returncode := none } := by
        simpa [jobProcLive, hj] using hl
      dsimp only
      rw [if_pos hst]
      simp [jobStatus, alookup_aset_self, transcoderCancel, hproc]

theorem cancelJob_keeps_cancelled (s : QueueState) (id : String)
    (h : jobStatus s id = some "cancelled") :
    jobStatus ((cancelJob s id).2) id = some "cancelled" := by
  unfold cancelJob
  rcases hj : alookup s.jobs id with _ | j
  · simp [jobStatus, hj] at h
  · have hst : j.progress.status = "cancelled" := by
      simpa [jobStatus, hj] using h
    dsimp only
    rw [if_neg (by rw [hst]; decide), if_neg (by rw [hst]; decide)]
    exact h

theorem reaperStep_frame (now : Nat) (s : QueueState) (id id' : String)
    (h : id ≠ id') :
    alookup (reaperStep now s id').jobs id = alookup s.jobs id ∧
    alookup (reaperStep now s id').last_polled id = alookup s.last_polled id := by
  unfold reaperStep
  rcases alookup s.last_polled id' with _ | t
  · exact ⟨rfl, rfl⟩
  · dsimp only
    split
    · constructor
      · exact cancelJob_jobs_ne s id id' h
      · rw [show ({ (cancelJob s id').2 with
            last_polled := apop ((cancelJob s id').2).last_polled id' } :
              QueueState).last_polled =
            apop ((cancelJob s id').2).last_polled id' from rfl]
        rw [alookup_apop_ne _ id' id h, cancelJob_last_polled]
    · exact ⟨rfl, rfl⟩

theorem reaperStep_self_none (now : Nat) (s : QueueState) (id : String)
    (h : alookup s.last_polled id = none) : reaperStep now s id = s := by
  unfold reaperStep
  rw [h]

theorem reaperStep_self_fresh (now : Nat) (s : QueueState) (id : String) (t : Nat)
    (h : alookup s.last_polled id = some t) (hf : ¬ t + 90 < now) :
    reaperStep now s id = s := by
  unfold reaperStep
  rw [h]
  dsimp only
  rw [if_neg hf]

theorem reaperStep_keeps_cancelled (now : Nat) (s : QueueState) (id : String)
    (h : jobStatus s id = some "cancelled") :
    jobStatus (reaperStep now s id) id = some "cancelled" := by
  unfold reaperStep
  rcases alookup s.last_polled id with _ | t
  · exact h
  · dsimp only
    split
    · show jobStatus { (cancelJob s id).2 with
        last_polled := apop ((cancelJob s id).2).last_polled id } id = _
      rw [show jobStatus { (cancelJob s id).2 with
          last_polled := apop ((cancelJob s id).2).last_polled id } id =
          jobStatus ((cancelJob s id).2) id from rfl]
      exact cancelJob_keeps_cancelled s id h
    · exact h

theorem reaperStep_self_fires (now : Nat) (s : QueueState) (id : String) (t : Nat)
    (hp : alookup s.last_polled id = some t) (hst : t + 90 < now)
    (hq : jobStatus s id = some "queued" ∨
      (jobStatus s id = some "running" ∧ jobProcLive s id = some true)) :
    jobStatus (reaperStep now s id) id = some "cancelled" := by
  unfold reaperStep
  rw [hp]
  dsimp only
  rw [if_pos hst]
  rw [show jobStatus { (cancelJob s id).2 with
      last_polled := apop ((cancelJob s id).2).last_polled id } id =
      jobStatus ((cancelJob s id).2) id from rfl]
  exact cancelJob_fires s id hq

theorem reaperFold_keeps_cancelled (now : Nat) (id : String) :
    ∀ (l : List String) (s : QueueState), jobStatus s id = some "cancelled" →
    jobStatus (l.foldl (reaperStep now) s) id = some "cancelled" := by
  intro l
  induction l with
  | nil => intro s h; exact h
  | cons id' rest ih =>
    intro s h
    rw [List.foldl_cons]
    by_cases he : id = id'
    · subst he
      exact ih _ (reaperStep_keeps_cancelled now s id h)
    · apply ih
      rw [show jobStatus (reaperStep now s id') id =
          (alookup (reaperStep now s id').jobs id).map
            (fun j => j.progress.status) from rfl]
      rw [(reaperStep_frame now s id id' he).1]
      exact h

theorem reaperFold_none (now : Nat) (id : String) :
    ∀ (l : List String) (s : QueueState), alookup s.last_polled id = none →
    jobStatus (l.foldl (reaperStep now) s) id = jobStatus s id ∧
    alookup (l.foldl (reaperStep now) s).last_polled id = none := by
  intro l
  induction l with
  | nil => intro s h; exact ⟨rfl, h⟩
  | cons id' rest ih =>
    intro s h
    rw [List.foldl_cons]
    by_cases he : id = id'
    · subst he
      rw [reaperStep_self_none now s id h]
      exact ih s h
    · obtain ⟨hj, hpl⟩ := reaperStep_frame now s id id' he
      obtain ⟨h1, h2⟩ := ih (reaperStep now s id') (by rw [hpl]; exact h)
      refine ⟨?_, h2⟩
      rw [h1]
      show (alookup (reaperStep now s id').jobs id).map _ =
        (alookup s.jobs id).map _
      rw [hj]

theorem reaperFold_fresh (now : Nat) (id : String) (t : Nat) (hf : ¬ t + 90 < now) :
    ∀ (l : List String) (s : QueueState), alookup s.last_polled id = some t →
    jobStatus (l.foldl (reaperStep now) s) id = jobStatus s id ∧
    alookup (l.foldl (reaperStep now) s).last_polled id = some t := by
  intro l
  induction l with
  | nil => intro s h; exact ⟨rfl, h⟩
  | cons id' rest ih =>
    intro s h
    rw [List.foldl_cons]
    by_cases he : id = id'
    · subst he
      rw [reaperStep_self_fresh now s id t h hf]
      exact ih s h
    · obtain ⟨hj, hpl⟩ := reaperStep_frame now s id id' he
      obtain ⟨h1, h2⟩ := ih (reaperStep now s id') (by rw [hpl]; exact h)
      refine ⟨?_, h2⟩
      rw [h1]
      show (alookup (reaperStep now s id').jobs id).map _ =
        (alookup s.jobs id).map _
      rw [hj]

theorem reaperFold_notMem (now : Nat) (id : String) :
    ∀ (l : List String) (s : QueueState), id ∉ l →
    jobStatus (l.foldl (reaperStep now) s) id = jobStatus s id := by
  intro l
  induction l with
  | nil => intro s _; rfl
  | cons id' rest ih =>
    intro s hm
    rw [List.foldl_cons]
    have he : id ≠ id' := fun hh => hm (hh ▸ List.mem_cons_self id' rest)
    have hrest : id ∉ rest := fun hh => hm (List.mem_cons_of_mem id' hh)
    rw [ih (reaperStep now s id') hrest]
    show (alookup (reaperStep now s id').jobs id).map _ =
      (alookup s.jobs id).map _
    rw [(reaperStep_frame now s id id' he).1]

theorem reaperFold_fires (now : Nat) (id : String) (t : Nat) (hst : t + 90 < now) :
    ∀ (l : List String) (s : QueueState), id ∈ l →
    alookup s.last_polled id = some t →
    (jobStatus s id = some "queued" ∨
      (jobStatus s id = some "running" ∧ jobProcLive s id = some true)) →
    jobStatus (l.foldl (reaperStep now) s) id = some "cancelled" := by
  intro l
  induction l with
  | nil => intro s hm; exact absurd hm (List.not_mem_nil id)
  | cons id' rest ih =>
    intro s hm hp hq
    rw [List.foldl_cons]
    by_cases he : id = id'
    · subst he
      exact reaperFold_keeps_cancelled now id rest _
        (reaperStep_self_fires now s id t hp hst hq)
    · have hmem : id ∈ rest := by
        rcases List.mem_cons.mp hm with h | h
        · exact absurd h he
        · exact h
      obtain ⟨hj, hpl⟩ := reaperStep_frame now s id id' he
      apply ih (reaperStep now s id') hmem
      · rw [hpl]; exact hp
      · have hjs : jobStatus (reaperStep now s id') id = jobStatus s id := by
          show (alookup (reaperStep now s id').jobs id).map _ =
            (alookup s.jobs id).map _
          rw [hj]
        have hpr : jobProcLive (reaperStep now s id') id = jobProcLive s id := by
          show (alookup (reaperStep now s id').jobs id).map _ =
            (alookup s.jobs id).map _
          rw [hj]
        rw [hjs, hpr]
        exact hq

/-- C4 as stated is false: a job that is queued (never dequeued by a
worker), was polled once, and whose poll is far more than 90 seconds stale
is not reaped — the reaper sweeps only `active_jobs`, and queued jobs are
not in the active set. -/
theorem C4_counterexample :
    jobStatus (runEvents 1 [.submit (mkJob "j1"), .poll "j1" 0, .reap 100]) "j1" =
      some "queued" ∧
    alookup (runEvents 1 [.submit (mkJob "j1"), .poll "j1" 0]).last_polled "j1" =
      some 0 ∧
    "j1" ∉ (runEvents 1 [.submit (mkJob "j1"), .poll "j1" 0]).active_jobs := by
  refine ⟨?_, ?_, ?_⟩ <;> decide

/-- C4 (amended). One reaper sweep cancels exactly those members of the
*active set* whose last poll exists and is more than 90 seconds stale (for
the statuses cancellation can affect: queued, or running with a live
subprocess); a job never polled is untouched, a job outside the active set
is untouched — even when queued and stale, contra the claim — and a
freshly polled job is untouched. -/
theorem C4_orphan_reaper :
    (∀ (s : QueueState) (now : Nat) (id : String),
      alookup s.last_polled id = none →
      jobStatus (reaperTick s now) id = jobStatus s id) ∧
    (∀ (s : QueueState) (now : Nat) (id : String),
      id ∉ s.active_jobs →
      jobStatus (reaperTick s now) id = jobStatus s id) ∧
    (∀ (s : QueueState) (now : Nat) (id : String) (t : Nat),
      id ∈ s.active_jobs →
      alookup s.last_polled id = some t →
      t + 90 < now →
      (jobStatus s id = some "queued" ∨
        (jobStatus s id = some "running" ∧ jobProcLive s id = some true)) →
      jobStatus (reaperTick s now) id = some "cancelled") ∧
    (∀ (s : QueueState) (now : Nat) (id : String) (t : Nat),
      alookup s.last_polled id = some t →
      ¬ t + 90 < now →
      jobStatus (reaperTick s now) id = jobStatus s id) := by
  refine ⟨?_, ?_, ?_, ?_⟩
  · intro s now id h
    exact (reaperFold_none now id s.active_jobs s h).1
  · intro s now id h
    exact reaperFold_notMem now id s.active_jobs s h
  · intro s now id t hm hp hst hq
    exact reaperFold_fires now id t hst s.active_jobs s hm hp hq
  · intro s now id t hp hf
    exact (reaperFold_fresh now id t hf s.active_jobs s hp).1

/-- Concrete instantiation of `C4_orphan_reaper`: a running job polled at
t=5 is cancelled by a sweep at t=200, and a never-polled job survives a
sweep. -/
theorem C4_orphan_reaper_witness :
    jobStatus (reaperTick
      (runEvents 1 [.submit (mkJob "j1"), .wstart 0 0, .poll "j1" 5]) 200) "j1" =
      some "cancelled" ∧
    jobStatus (reaperTick (runEvents 1 [.submit (mkJob "j2")]) 200) "j2" =
      jobStatus (runEvents 1 [.submit (mkJob "j2")]) "j2" := by
  constructor
  · exact C4_orphan_reaper.2.2.1
      (runEvents 1 [.submit (mkJob "j1"), .wstart 0 0, .poll "j1" 5]) 200 "j1" 5
      (by decide) (by decide) (by decide) (by decide)
  · exact C4_orphan_reaper.1 (runEvents 1 [.submit (mkJob "j2")]) 200 "j2" (by decide)

end PlexBeam
